import Mathlib

/-!
etisnoop: frame synchronisation, frame and stream characterisation, FIB
scanning, CRC windows, stream slices, carousel accumulator and FIG decoder.

A shallow embedding of `eti_analyse`, `decodeFIG` and `class FIGalyser`
(src/etisnoop.cpp): the ERR / FSYNC checks, the stream characterisation with
its tables, the header CRC, the walk over the FIBs of the FIC with its FIG scan
loop and the per-FIB CRC, the loop over the stream data, the accumulator of
FIG occurrences, and what `decodeFIG` records and reads.

Conventions.
* A pointer into the frame is a byte offset; a buffer `p : Buf` gives the
  `unsigned char` read by `p[i]` as `p i`.  Where the width of a C integer
  matters the truncation is written out with `%`.
* The tables `sad` and `stl` are cells addressed by index, like the frame; the
  indices assigned are recorded, so that their bounds can be stated.  The
  vector `m_figs` is a list, and indexing it outside its size gives `none`.
* `update_crc_ccitt` comes from `lib_crc.h`, which is not part of the sources;
  the checks take it as a parameter `upd`, and a model of the standard
  CRC-CCITT byte update is given separately.
* Loops are structural recursions: a `for` loop over a known count recurses on
  the number of iterations left, a `while` loop takes fuel and returns `none`
  when the fuel runs out.
* The bytes `decodeFIG` reads are recorded as index ranges relative to its
  payload pointer `f`; an index can be negative.
-/

namespace Etisnoop

/-- Memory seen through a byte pointer: `p i` is the value of `p[i]`. -/
abbrev Buf := Nat → Nat

/-- All values read from the buffer are `unsigned char` values. -/
def IsBytes (p : Buf) : Prop := ∀ i, p i < 256

/-- The buffer holding the bytes of `l` from offset 0 on (zero beyond its end). -/
def bufOf (l : List Nat) : Buf := fun i => l.getD i 0

/-! ## FIG scan loop of one FIB (lines 549-569) -/

/-- The arguments of one call `decodeFIG(figs, fig+1, figlen, figtype, 4)`. -/
structure FigCall where
  /-- the pointer `fig+1` to the payload -/
  figdata : Nat
  figlen : Nat
  figtype : Nat
deriving DecidableEq

/-- What the `while (!endmarker)` loop has done when it ends. -/
structure FigScan where
  /-- the `decodeFIG` calls, in order -/
  calls : List FigCall
  /-- the pointers at which a leading byte `fig[0]` was read, in order -/
  reads : List Nat
  /-- final value of the pointer `fig` -/
  fig : Nat
  /-- final value of `figcount` -/
  figcount : Nat
deriving DecidableEq

/-- The loop `while (!endmarker) { ... }` of lines 553-569, entered with the
given values of `fig` and `figcount`.  One unit of fuel is one iteration. -/
def figScanLoop (p : Buf) : Nat → Nat → Nat → Option FigScan
  | 0, _, _ => none
  | fuel + 1, fig, figcount =>
    let figtype := (p fig &&& 0xE0) >>> 5
    if figtype ≠ 7 then
      let figlen := p fig &&& 0x1F
      let call : FigCall := ⟨fig + 1, figlen, figtype⟩
      let fig1 := fig + (figlen + 1)
      let figcount1 := figcount + (figlen + 1)
      if figcount1 ≥ 29 then
        some ⟨[call], [fig], fig1, figcount1⟩
      else
        (figScanLoop p fuel fig1 figcount1).map
          fun r => { r with calls := call :: r.calls, reads := fig :: r.reads }
    else
      some ⟨[], [fig], fig, figcount⟩

/-- The FIG scan of the FIB at `fib`: `fig=fib; endmarker=0; figcount=0;`
followed by the loop.  A FIB has 32 bytes and every iteration consumes at
least one, so 32 iterations are allowed for. -/
def figScan (p : Buf) (fib : Nat) : Option FigScan :=
  figScanLoop p 32 fib 0

/-! ### FIBs built from records -/

/-- A FIG record as it is packed into a FIB. -/
structure FigRecord where
  figtype : Nat
  figlen : Nat
  payload : List Nat
deriving DecidableEq

/-- A record with a type in 0..6, a 5-bit length, and as many payload bytes
as the length field says. -/
def FigRecord.WellFormed (r : FigRecord) : Prop :=
  r.figtype ≤ 6 ∧ r.figlen ≤ 31 ∧ r.payload.length = r.figlen

instance (r : FigRecord) : Decidable r.WellFormed :=
  inferInstanceAs (Decidable (r.figtype ≤ 6 ∧ r.figlen ≤ 31 ∧ r.payload.length = r.figlen))

/-- The bytes of a record: the leading byte (type in bits 7..5, length in
bits 4..0) and the payload. -/
def FigRecord.bytes (r : FigRecord) : List Nat :=
  (r.figtype * 32 + r.figlen) :: r.payload

/-- Records packed end to end from offset 0, then a marker byte, then the
rest of the FIB. -/
def packFib (rs : List FigRecord) (marker : Nat) (rest : List Nat) : List Nat :=
  (rs.map FigRecord.bytes).flatten ++ marker :: rest

/-- Sum of the length fields. -/
def sumLen (rs : List FigRecord) : Nat := (rs.map (·.figlen)).sum

/-- Sum of `length + 1` over the records: the bytes they occupy. -/
def sumSize (rs : List FigRecord) : Nat := (rs.map (fun r => r.figlen + 1)).sum

/-- The `decodeFIG` calls expected for records packed from pointer `fig` on. -/
def expectedCalls : List FigRecord → Nat → List FigCall
  | [], _ => []
  | r :: rs, fig => ⟨fig + 1, r.figlen, r.figtype⟩ :: expectedCalls rs (fig + (r.figlen + 1))

/-- Offset, relative to the FIB, of the leading byte of record `k` when the
records are chained through their length fields alone. -/
def figOffset (p : Buf) (fib : Nat) : Nat → Nat
  | 0 => 0
  | k + 1 => figOffset p fib k + ((p (fib + figOffset p fib k) &&& 0x1F) + 1)

/-- Two records whose length fields sum to 29: a type-0 record with 28
payload bytes and a type-1 record with one payload byte. -/
def overfullRecords : List FigRecord :=
  [⟨0, 28, List.replicate 28 0⟩, ⟨1, 1, [0]⟩]

/-- Two records of 3 and 4 bytes. -/
def smallRecords : List FigRecord :=
  [⟨0, 2, [0x41, 0x42]⟩, ⟨1, 3, [0x43, 0x44, 0x45]⟩]

/-- A FIB of 29 records of length 0 and type 0, without any type-7 byte in
its first 29 bytes. -/
def zeroFib : Buf := fun _ => 0

/-! ## SYNC: the ERR byte and the FSYNC word (lines 310-368) -/

/-- The three bytes `q[0], q[1], q[2]` at the pointer `q = p + off`; two such
blocks are equal exactly when `memcmp(.., .., 3) == 0`. -/
def mem3 (p : Buf) (off : Nat) : List Nat := [p off, p (off + 1), p (off + 2)]

/-- The initial and reset value of `prevsync`: the constant 00 00 00. -/
def syncUnknown : List Nat := [0x00, 0x00, 0x00]

/-- The FSYNC constant 07 3A B6. -/
def fsyncA : List Nat := [0x07, 0x3a, 0xb6]

/-- The FSYNC constant F8 C5 49. -/
def fsyncB : List Nat := [0xf8, 0xc5, 0x49]

/-- The FSYNC block of lines 341-367: from `prevsync`, the frame and the value
`desc` has on entry, the `desc` printed by `printbuf("Sync FSYNC", ..)` and the
new `prevsync`.  When `prevsync` is none of the three constants no branch runs. -/
def fsyncCheck (prevsync : List Nat) (p : Buf) (desc : String) : String × List Nat :=
  if prevsync = syncUnknown then
    if mem3 p 1 = fsyncA ∨ mem3 p 1 = fsyncB then
      ("OK", mem3 p 1)
    else
      ("Wrong FSYNC", syncUnknown)
  else if prevsync = fsyncA then
    if mem3 p 1 ≠ fsyncB then
      ("Wrong FSYNC", syncUnknown)
    else
      ("OK", mem3 p 1)
  else if prevsync = fsyncB then
    if mem3 p 1 ≠ fsyncA then
      ("Wrong FSYNC", syncUnknown)
    else
      ("OK", mem3 p 1)
  else
    (desc, prevsync)

/-- The SYNC part of one iteration of the frame loop (lines 326-368).  `none`
is the `break` of line 335; otherwise the FSYNC description and the new
`prevsync`, after which the iteration goes on with the LIDATA decoding. -/
def syncFrame (ignore_error : Bool) (prevsync : List Nat) (p : Buf) :
    Option (String × List Nat) :=
  if p 0 = 0xFF then
    fsyncCheck prevsync p "No error"
  else
    if !ignore_error then
      none
    else
      fsyncCheck prevsync p "Error"

/-- What the frame loop has done with the SYNC fields when it ends. -/
structure SyncRun where
  /-- per frame that reached the FSYNC block: the description printed and
  the value of `prevsync` after the frame -/
  reports : List (String × List Nat)
  /-- value of `prevsync` when the loop ends -/
  prevsync : List Nat
  /-- the loop ended through the `break` of the ERR check -/
  aborted : Bool
deriving DecidableEq

/-- The frame loop `while (running)` over the frames the source delivers,
entered with the given `prevsync`; the end of the list is the end of the ETI
stream. -/
def syncLoop (ignore_error : Bool) : List Nat → List Buf → SyncRun
  | prevsync, [] => ⟨[], prevsync, false⟩
  | prevsync, p :: frames =>
    match syncFrame ignore_error prevsync p with
    | none => ⟨[], prevsync, true⟩
    | some (desc, prevsync1) =>
      let r := syncLoop ignore_error prevsync1 frames
      ⟨(desc, prevsync1) :: r.reports, r.prevsync, r.aborted⟩

/-- The frame loop of `eti_analyse`, which starts with `prevsync` = 00 00 00. -/
def etiSync (ignore_error : Bool) (frames : List Buf) : SyncRun :=
  syncLoop ignore_error syncUnknown frames

/-- The FSYNC bytes of the frame are one of the two constants. -/
def Canonical (p : Buf) : Prop := mem3 p 1 = fsyncA ∨ mem3 p 1 = fsyncB

/-- Every frame carries one of the two constants and each frame carries the
other one than the frame before it. -/
def Alternating (frames : List Buf) : Prop :=
  (∀ p ∈ frames, Canonical p) ∧ List.Chain' (fun p q => mem3 p 1 ≠ mem3 q 1) frames

/-- No frame leaves the loop at the ERR check. -/
def NoErrAbort (ignore_error : Bool) (frames : List Buf) : Prop :=
  ignore_error = true ∨ ∀ p ∈ frames, p 0 = 0xFF

instance (p : Buf) : Decidable (Canonical p) :=
  inferInstanceAs (Decidable (mem3 p 1 = fsyncA ∨ mem3 p 1 = fsyncB))

instance (ignore_error : Bool) (frames : List Buf) :
    Decidable (NoErrAbort ignore_error frames) :=
  inferInstanceAs (Decidable (ignore_error = true ∨ ∀ p ∈ frames, p 0 = 0xFF))

/-- The values `prevsync` can hold: the reset constant or one of the two
FSYNC constants. -/
def Tracked (s : List Nat) : Prop := s = syncUnknown ∨ s = fsyncA ∨ s = fsyncB

/-- A frame with ERR byte 0xFF and the FSYNC constant 07 3A B6. -/
def frameA : Buf := bufOf [0xFF, 0x07, 0x3a, 0xb6]

/-- A frame with ERR byte 0xFF and the FSYNC constant F8 C5 49. -/
def frameB : Buf := bufOf [0xFF, 0xf8, 0xc5, 0x49]

/-- A frame with ERR byte 0xFF and the FSYNC bytes 01 02 03. -/
def frameBad : Buf := bufOf [0xFF, 0x01, 0x02, 0x03]

/-! ## Frame characterisation fields used by the CRC windows (lines 379-440) -/

/-- The value of `ficf = (p[5] & 0x80) >> 7`. -/
def ficf (p : Buf) : Nat := (p 5 &&& 0x80) >>> 7

/-- The value of `nst = p[5] & 0x7F`. -/
def nst (p : Buf) : Nat := p 5 &&& 0x7F

/-- The value of `mid = (p[6] & 0x18) >> 3`. -/
def mid (p : Buf) : Nat := (p 6 &&& 0x18) >>> 3

/-- The value of `ficl` (lines 432-440). -/
def ficl (p : Buf) : Nat :=
  if ficf p = 0 then 0
  else if mid p = 3 then 32
  else 24

/-! ## CRC checks (lines 516-531 and 570-582) -/

/-- The loop `for (i = lo; i < lo + n; i++) crc = update_crc_ccitt(crc, p[i]);`
with `crc` an `unsigned short`; `n` iterations are left and the index is `i`. -/
def crcLoop (upd : Nat → Nat → Nat) (p : Buf) : Nat → Nat → Nat → Nat
  | 0, _, crc => crc
  | n + 1, i, crc => crcLoop upd p n (i + 1) (upd crc (p i) % 0x10000)

/-- The statement `crc =~ crc;` on an `unsigned short`: the complement is
taken on the promoted 32-bit `int` and the assignment keeps the low 16 bits. -/
def not16 (crc : Nat) : Nat := (0xFFFFFFFF - crc) % 0x10000

/-- The conversion `%02x` of printf: lower-case hexadecimal, at least two digits. -/
def hex02 (n : Nat) : String :=
  let ds := Nat.toDigits 16 n
  String.mk (if ds.length < 2 then '0' :: ds else ds)

/-- The value of `crch` read at lines 516-517. -/
def headerCrch (p : Buf) : Nat :=
  (p (8 + 4 * nst p + 2) * 256 + p (8 + 4 * nst p + 3)) % 0x10000

/-- The value of `crc` after lines 518-522. -/
def headerCrc (upd : Nat → Nat → Nat) (p : Buf) : Nat :=
  not16 (crcLoop upd p (8 + 4 * nst p + 2 - 4) 4 0xffff)

/-- The description printed by `printbuf("Header CRC", ..)` (lines 524-531). -/
def headerCrcDesc (upd : Nat → Nat → Nat) (p : Buf) : String :=
  if headerCrc upd p = headerCrch p then "CRC OK"
  else "CRC Mismatch: " ++ hex02 (headerCrc upd p)

/-- The value of `figcrc = fib[30]*256 + fib[31]` (line 570). -/
def fibCrch (p : Buf) (fib : Nat) : Nat :=
  (p (fib + 30) * 256 + p (fib + 31)) % 0x10000

/-- The value of `crc` after lines 571-575. -/
def fibCrc (upd : Nat → Nat → Nat) (p : Buf) (fib : Nat) : Nat :=
  not16 (crcLoop upd p 30 fib 0xffff)

/-- The description printed by `printbuf("FIB CRC", ..)` (lines 576-581). -/
def fibCrcDesc (upd : Nat → Nat → Nat) (p : Buf) (fib : Nat) : String :=
  if fibCrc upd p fib = fibCrch p fib then "FIB CRC OK"
  else "FIB CRC Mismatch: " ++ hex02 (fibCrc upd p fib)

/-! ## The walk over the FIBs (lines 534-583) -/

/-- What one iteration of the loop over the FIBs has done. -/
structure FibReport where
  /-- the index given to `figs.set_fib` -/
  fibIndex : Nat
  /-- the pointer `fib` of this iteration -/
  fib : Nat
  /-- the FIG scan of this FIB -/
  scan : FigScan
  /-- the description printed for the FIB CRC -/
  crcDesc : String
deriving DecidableEq

/-- The loop `for (i = ..; i < ficl*4/32; i++) { ...; fib += 32; }` with `n`
iterations left, the index at `i` and the pointer at `fib`. -/
def fibLoop (upd : Nat → Nat → Nat) (p : Buf) : Nat → Nat → Nat → Option (List FibReport)
  | 0, _, _ => some []
  | n + 1, i, fib =>
    match figScan p fib with
    | none => none
    | some scan =>
      (fibLoop upd p n (i + 1) (fib + 32)).map
        fun rs => ⟨i, fib, scan, fibCrcDesc upd p fib⟩ :: rs

/-- The block `if (ficf == 1) { ... }` of lines 534-588: the reports of the
FIBs walked, none when the frame carries no FIC. -/
def ficWalk (upd : Nat → Nat → Nat) (p : Buf) : Option (List FibReport) :=
  if ficf p = 1 then
    fibLoop upd p (ficl p * 4 / 32) 0 (12 + 4 * nst p)
  else
    some []

/-! ## Reference formulation of the checksums (spec section 4.1) -/

/-- The accumulator `crc16(seed, bytes)`: the bytes are fed in order. -/
def crc16 (upd : Nat → Nat → Nat) (seed : Nat) (bytes : List Nat) : Nat :=
  bytes.foldl (fun crc b => upd crc b % 0x10000) seed

/-- The bitwise complement of a 16-bit value. -/
def finalize (crc : Nat) : Nat := crc ^^^ 0xFFFF

/-- The `n` frame bytes from offset `lo` on. -/
def window (p : Buf) (lo n : Nat) : List Nat := (List.range n).map fun k => p (lo + k)

/-- The frame bytes from offset `lo` to offset `hi`, both included. -/
def span (p : Buf) (lo hi : Nat) : List Nat := window p lo (hi + 1 - lo)

/-- The big-endian 16-bit value held in the bytes at `a` and `a + 1`. -/
def read_u16_be (p : Buf) (a : Nat) : Nat := p a * 256 + p (a + 1)

/-- The frame `p` with the byte at `k` replaced by `v`. -/
def setByte (p : Buf) (k v : Nat) : Buf := fun i => if i = k then v else p i

/-- The start of a frame with FIC and no stream (`ficf` = 1, `nst` = 0, mode
identity 0): SYNC, FC, EOH with the header CRC 0x8559, then three FIBs, the
first holding one type-0 FIG of length 2, all with their CRC. -/
def sampleFrame : Buf :=
  bufOf ([0xFF, 0x07, 0x3a, 0xb6, 0x01, 0x80, 0x00, 0x00, 0x12, 0x34, 0x85, 0x59]
    ++ ([0x02, 0x41, 0x42] ++ List.replicate 27 0xFF ++ [0xE7, 0xB0])
    ++ (List.replicate 30 0xFF ++ [0xA0, 0x42])
    ++ (List.replicate 30 0xFF ++ [0xA0, 0x42]))

/-! ## The CRC primitive -/

/-- Modelled from the spec: one bit step of the CRC primitive, which belongs to
`lib_crc.h` and is not among the sources.  The 16-bit register is shifted left;
the top bit leaves and, when it was set, the polynomial 0x1021 is added. -/
def crcShift (crc : Nat) : Nat :=
  if crc &&& 0x8000 ≠ 0 then ((crc <<< 1) ^^^ 0x1021) % 0x10000
  else (crc <<< 1) % 0x10000

/-- Modelled from the spec: `update_crc_ccitt` of `lib_crc.h`, whose body is not
among the sources; the spec treats it as the CCITT-CRC16 accumulator
primitive.  This is the standard CRC-CCITT byte update with polynomial 0x1021:
the byte is added to the high half of the register, which is then shifted
eight times. -/
def update_crc_ccitt (crc c : Nat) : Nat :=
  crcShift^[8] ((crc ^^^ ((c &&& 0xFF) <<< 8)) % 0x10000)

/-! ## Stream characterisation (lines 445-504) -/

/-- The cells of a table of `unsigned short` (`sad`, `stl`), by index. -/
abbrev Table := Nat → Nat

/-- The assignment `t[i] = v`. -/
def Table.set (t : Table) (i v : Nat) : Table := fun j => if j = i then v else t j

/-- The number of entries the declaration `sad[64], stl[64]` (line 287) gives
each of the two tables. -/
def tableEntries : Nat := 64

/-- The value of `scid = (p[8 + 4*i] & 0xFC) >> 2`. -/
def scid (p : Buf) (i : Nat) : Nat := (p (8 + 4 * i) &&& 0xFC) >>> 2

/-- The value stored by `sad[i] = (p[8+4*i] & 0x03) * 256 + p[9+4*i]`. -/
def sadField (p : Buf) (i : Nat) : Nat :=
  ((p (8 + 4 * i) &&& 0x03) * 256 + p (9 + 4 * i)) % 0x10000

/-- The value of `tpl = (p[10+4*i] & 0xFC) >> 2`. -/
def tpl (p : Buf) (i : Nat) : Nat := (p (10 + 4 * i) &&& 0xFC) >>> 2

/-- The value stored by `stl[i] = (p[10+4*i] & 0x03) * 256 + p[11+4*i]`. -/
def stlField (p : Buf) (i : Nat) : Nat :=
  ((p (10 + 4 * i) &&& 0x03) * 256 + p (11 + 4 * i)) % 0x10000

/-- The string `plevelstr` of the Equal Error Protection branch (lines 457-485).
It starts empty and keeps that value when no assignment is reached; `opt` is
an `unsigned char`, which `ss << opt` writes as one character. -/
def plevelstr (tpl : Nat) : String :=
  let opt := (tpl &&& 0x1c) >>> 2
  let plevel := tpl &&& 0x03
  if opt = 0x00 then
    if plevel = 0 then "1-A, 1/4, 16 CUs"
    else if plevel = 1 then "2-A, 3/8, 8 CUs"
    else if plevel = 2 then "3-A, 1/2, 6 CUs"
    else if plevel = 3 then "4-A, 3/4, 4 CUs"
    else ""
  else if opt = 0x01 then
    if plevel = 0 then "1-B, 4/9, 27 CUs"
    else if plevel = 1 then "2-B, 4/7, 21 CUs"
    else if plevel = 2 then "3-B, 4/6, 18 CUs"
    else if plevel = 3 then "4-B, 4/5, 15 CUs"
    else ""
  else
    "Unknown option " ++ String.singleton (Char.ofNat opt)

/-- The value of `tsw = (tpl & 0x08)` (line 490). -/
def tsw (tpl : Nat) : Nat := tpl &&& 0x08

/-- The value of `uepidx = tpl & 0x07` (line 491). -/
def uepidx (tpl : Nat) : Nat := tpl &&& 0x07

/-- The description printed for "TPL - Sub-channel Type and Protection Level"
(lines 456-494). -/
def tplDesc (tpl : Nat) : String :=
  if (tpl &&& 0x20) >>> 5 = 1 then
    "0x" ++ hex02 tpl ++ " - Equal Error Protection. " ++ plevelstr tpl
  else
    "0x" ++ hex02 tpl ++ " - Unequal Error Protection. Table switch "
      ++ toString (tsw tpl) ++ ",  UEP index " ++ toString (uepidx tpl)

/-- The description printed for "STL - Sub-channel Stream Length" (line 497):
the length in words and `stl[i]*8/3` as the bitrate. -/
def stlDesc (stl : Nat) : String :=
  toString stl ++ " => " ++ toString (stl * 8 / 3) ++ " kbit/s"

/-- What one iteration of the loop over the streams reports. -/
structure StcReport where
  /-- the stream number `i` -/
  index : Nat
  scid : Nat
  sad : Nat
  tplDesc : String
  stlDesc : String
  /-- the arguments of `set_subchannel_index` and `set_index` when the stream
  is selected for decoding -/
  configured : Option (Nat × Nat)
deriving DecidableEq

/-- The tables and the trace of the loop over the streams. -/
structure StcState where
  sad : Table
  stl : Table
  /-- the indices `i` at which `sad[i]` and `stl[i]` were assigned, in order -/
  writes : List Nat
  reports : List StcReport

/-- The loop `for (int i=0; i < nst; i++)` of lines 445-504 with `n` iterations
left and the index at `i`; `selected i` is `config.streams_to_decode.count(i) > 0`. -/
def stcLoop (p : Buf) (selected : Nat → Bool) : Nat → Nat → StcState → StcState
  | 0, _, st => st
  | n + 1, i, st =>
    let sad1 := st.sad.set i (sadField p i)
    let stl1 := st.stl.set i (stlField p i)
    let report : StcReport :=
      ⟨i, scid p i, sad1 i, tplDesc (tpl p i), stlDesc (stl1 i),
        if selected i then some (stl1 i / 3, i) else none⟩
    stcLoop p selected n (i + 1) ⟨sad1, stl1, st.writes ++ [i], st.reports ++ [report]⟩

/-- The stream characterisation of one frame.  The tables are declared at the
top of `eti_analyse`, so they enter the frame with the cells `sad0`, `stl0`
left by the frames before. -/
def stcParse (p : Buf) (selected : Nat → Bool) (sad0 stl0 : Table) : StcState :=
  stcLoop p selected (nst p) 0 ⟨sad0, stl0, [], []⟩

/-! ## Subchannel demultiplexer (lines 590-612) -/

/-- What one iteration of the loop over the stream data does. -/
structure StreamSlice where
  /-- the stream number `i` -/
  index : Nat
  /-- the source offset `12 + 4*nst + ficf*ficl*4 + offset` of the `memcpy` -/
  src : Nat
  /-- the number of bytes `stl[i]*8` of the `memcpy` -/
  len : Nat
  /-- the bytes copied into `streamdata` -/
  data : List Nat
  /-- the slice is handed to `config.streams_to_decode[i].push` -/
  pushed : Bool
deriving DecidableEq

/-- The loop `for (int i=0; i < nst; i++)` of lines 591-612 with `n` iterations
left, the index at `i` and the running `offset`. -/
def demuxLoop (p : Buf) (stl : Table) (selected : Nat → Bool) :
    Nat → Nat → Nat → List StreamSlice
  | 0, _, _ => []
  | n + 1, i, offset =>
    let src := 12 + 4 * nst p + ficf p * ficl p * 4 + offset
    ⟨i, src, stl i * 8, window p src (stl i * 8), selected i⟩ ::
      demuxLoop p stl selected n (i + 1) (offset + stl i * 8)

/-- The stream slices of one frame: the stream characterisation fills `stl`,
then `int offset = 0;` and the loop over the stream data. -/
def frameSlices (p : Buf) (selected : Nat → Bool) (sad0 stl0 : Table) : List StreamSlice :=
  demuxLoop p (stcParse p selected sad0 stl0).stl selected (nst p) 0 0

/-- The Equal Error Protection profiles as the specification lists them: the
label for an option (0 for A, 1 for B) and a level 0..3, none for any other
option. -/
def eepProfile : Nat → Nat → Option String
  | 0, 0 => some "1-A, 1/4, 16 CUs"
  | 0, 1 => some "2-A, 3/8, 8 CUs"
  | 0, 2 => some "3-A, 1/2, 6 CUs"
  | 0, 3 => some "4-A, 3/4, 4 CUs"
  | 1, 0 => some "1-B, 4/9, 27 CUs"
  | 1, 1 => some "2-B, 4/7, 21 CUs"
  | 1, 2 => some "3-B, 4/6, 18 CUs"
  | 1, 3 => some "4-B, 4/5, 15 CUs"
  | _, _ => none

/-- A frame start without FIC and with one stream: sub-channel 1, start
address 0, Equal Error Protection option 0 level 0, stream length 3 words. -/
def oneStreamFrame : Buf :=
  bufOf ([0xFF, 0x07, 0x3a, 0xb6, 0x01, 0x01, 0x00, 0x00, 0x04, 0x00, 0x80, 0x03,
    0x00, 0x00, 0x00, 0x00] ++ List.range 24)

/-- A frame start whose NST field holds 127. -/
def overflowFrame : Buf := bufOf [0xFF, 0x07, 0x3a, 0xb6, 0x01, 0x7F]

/-- A frame start with one stream whose TPL field is 0x09: Unequal Error
Protection with bit 3 set and 1 in the low three bits. -/
def uepFrame : Buf :=
  bufOf [0xFF, 0x07, 0x3a, 0xb6, 0x01, 0x01, 0x00, 0x00, 0x04, 0x00, 0x24, 0x03]

/-- The report of stream `j` written from the frame bytes alone. -/
def stcReportOf (p : Buf) (selected : Nat → Bool) (j : Nat) : StcReport :=
  ⟨j, scid p j, sadField p j, tplDesc (tpl p j), stlDesc (stlField p j),
    if selected j then some (stlField p j / 3, j) else none⟩

/-- The entry `struct FIG { int type; int ext; int len; }`. -/
structure FIG where
  type : Int
  ext : Int
  len : Int
deriving DecidableEq

/-- The members of `class FIGalyser`: the current FIB index `m_fib` and the
vector `m_figs` of vectors of entries. -/
structure FIGalyser where
  m_fib : Int
  m_figs : List (List FIG)
deriving DecidableEq

/-- The call `v.resize(n)` on a vector of vectors: elements beyond `n` are
dropped, missing ones are added as empty vectors. -/
def vecResize (v : List (List FIG)) (n : Nat) : List (List FIG) :=
  v.take n ++ List.replicate (n - v.length) []

/-- The method `clear()`: `m_figs.clear(); m_figs.resize(3);`. -/
def FIGalyser.clear (s : FIGalyser) : FIGalyser :=
  { s with m_figs := vecResize [] 3 }

/-- The constructor `FIGalyser() { clear(); }`.  `m_fib` has no initialiser:
`m0` is the value it happens to hold. -/
def FIGalyser.construct (m0 : Int) : FIGalyser :=
  FIGalyser.clear ⟨m0, []⟩

/-- The method `set_fib(int fib)`. -/
def FIGalyser.set_fib (s : FIGalyser) (fib : Int) : FIGalyser :=
  { s with m_fib := fib }

/-- The method `push_back(int type, int ext, int len)`:
`m_figs[m_fib].push_back(fig)`.  The result is `none` when `m_fib` is not an
index of `m_figs`, where `operator[]` has no defined behaviour. -/
def FIGalyser.push_back (s : FIGalyser) (type ext len : Int) : Option FIGalyser :=
  if 0 ≤ s.m_fib ∧ s.m_fib.toNat < s.m_figs.length then
    some { s with
      m_figs := s.m_figs.set s.m_fib.toNat
        (s.m_figs.getD s.m_fib.toNat [] ++ [⟨type, ext, len⟩]) }
  else
    none

/-! ## FIG decoder: what it records in the accumulator (lines 664-1087) -/

/-- The effect of `decodeFIG(figs, f, figlen, figtype, indent)` on `figs`: the
cases 0, 1, 2 and 5 of `switch (figtype)` each hold one call
`figs.push_back(figtype, ext, figlen)` with their own `ext`; case 6 and the
types without a case hold none. -/
def decodeFIG_figs (figs : FIGalyser) (f : Buf) (figlen figtype : Nat) : Option FIGalyser :=
  match figtype with
  | 0 => figs.push_back figtype (f 0 &&& 0x1F : Nat) figlen
  | 1 => figs.push_back figtype (f 0 &&& 0x07 : Nat) figlen
  | 2 => figs.push_back figtype (f 0 &&& 0x07 : Nat) figlen
  | 5 => figs.push_back figtype (f 0 &&& 0x07 : Nat) figlen
  | 6 => some figs
  | _ => some figs

/-- The `decodeFIG` calls of one FIG scan applied to `figs`, in order; the
payload pointer of a call is `fig+1`.  `decodeFIG` does not touch the
variables of the scan loop, so the calls can be taken from its result. -/
def figsOfCalls (p : Buf) : List FigCall → FIGalyser → Option FIGalyser
  | [], figs => some figs
  | c :: cs, figs =>
    match decodeFIG_figs figs (fun k => p (c.figdata + k)) c.figlen c.figtype with
    | none => none
    | some figs1 => figsOfCalls p cs figs1

/-- The loop over the FIBs (lines 548-583) as it acts on `figs`: `n` iterations
left, the index at `i`, the pointer at `fib`; each iteration calls
`figs.set_fib(i)` and then scans the FIB. -/
def ficFigsLoop (p : Buf) : Nat → Nat → Nat → FIGalyser → Option FIGalyser
  | 0, _, _, figs => some figs
  | n + 1, i, fib, figs =>
    match figScan p fib with
    | none => none
    | some scan =>
      match figsOfCalls p scan.calls (figs.set_fib i) with
      | none => none
      | some figs1 => ficFigsLoop p n (i + 1) (fib + 32) figs1

/-- The accumulator of a frame with FIC when `figs.analyse()` is reached (line
586).  `FIGalyser figs;` is declared inside the block `if (ficf == 1)` of the
frame loop (line 540), so it is constructed for this frame. -/
def ficFigs (p : Buf) (m0 : Int) : Option FIGalyser :=
  ficFigsLoop p (ficl p * 4 / 32) 0 (12 + 4 * nst p) (FIGalyser.construct m0)

/-- For each frame of a run, in order, the accumulator at the end of its FIC
block; `none` for a frame without FIC, for which none is constructed (and for
a frame whose walk indexes outside `m_figs`). -/
def figsRun (frames : List Buf) (m0 : Int) : List (Option FIGalyser) :=
  frames.map fun p => if ficf p = 1 then ficFigs p m0 else none

/-- The entry a `decodeFIG` call records, if it records one. -/
def figEntry (p : Buf) (c : FigCall) : Option FIG :=
  if c.figtype = 0 then some ⟨c.figtype, (p c.figdata &&& 0x1F : Nat), c.figlen⟩
  else if c.figtype = 1 ∨ c.figtype = 2 ∨ c.figtype = 5 then
    some ⟨c.figtype, (p c.figdata &&& 0x07 : Nat), c.figlen⟩
  else none

/-- The entries recorded for the FIB at `fib`, in the order of its FIGs. -/
def fibEntries (p : Buf) (fib : Nat) : List FIG :=
  match figScan p fib with
  | none => []
  | some scan => scan.calls.filterMap (figEntry p)

/-- An accumulator with FIB 0 current and nothing recorded. -/
def emptyFigs : FIGalyser := (FIGalyser.construct 0).set_fib 0

/-! ## FIG decoder: the payload bytes it reads (lines 664-1087) -/

/-- A block of bytes read through the payload pointer `f`: the `size` bytes
`f[start] .. f[start + size - 1]`. -/
structure ReadRange where
  start : Int
  size : Nat
deriving DecidableEq

/-- The read of the one byte `f[k]`. -/
def rd (k : Nat) : ReadRange := ⟨k, 1⟩

/-- All bytes of the block are payload bytes of a FIG of length `L`: they have
indices in 0 .. L-1. -/
def ReadRange.Within (r : ReadRange) (L : Nat) : Prop :=
  r.size = 0 ∨ (0 ≤ r.start ∧ r.start + r.size ≤ L)

instance (r : ReadRange) (L : Nat) : Decidable (r.Within L) :=
  inferInstanceAs (Decidable (r.size = 0 ∨ (0 ≤ r.start ∧ r.start + r.size ≤ L)))

/-- The conversion of an `int` argument to the `size_t` parameter of `printbuf`
(64 bits). -/
def sizeT (x : Int) : Nat := (x % 2 ^ 64).toNat

/-- The bytes `printbuf(header, indent, f + start, size)` reads (lines 1109-1124):
the whole buffer when `verbosity > 1`, nothing otherwise. -/
def printbufReads (verbosity : Nat) (start : Int) (size : Int) : List ReadRange :=
  if verbosity > 0 then
    if verbosity > 1 then [⟨start, sizeT size⟩] else []
  else []

/-- FIG 0/0 (lines 686-699): `f[1] .. f[4]`, and `f[5]` when `ch != 0`. -/
def fig0_0Reads (f : Buf) : List ReadRange :=
  [rd 1, rd 2, rd 3, rd 4] ++ (if (f 3 &&& 0xC0) >>> 6 ≠ 0 then [rd 5] else [])

/-- FIG 0/1 (lines 711-763): the loop `while (i < figlen-3)` entered with the
given `i`; a long form reads `f[i] .. f[i+3]`, a short form `f[i] .. f[i+2]`.
One unit of fuel is one evaluation of the loop condition. -/
def fig0_1Reads (f : Buf) (figlen : Nat) : Nat → Nat → Option (List ReadRange)
  | 0, _ => none
  | fuel + 1, i =>
    if (i : Int) < (figlen : Int) - 3 then
      if f (i + 2) >>> 7 ≠ 0 then
        (fig0_1Reads f figlen fuel (i + 4)).map
          fun rs => [rd i, rd (i + 1), rd (i + 2), rd (i + 3)] ++ rs
      else
        (fig0_1Reads f figlen fuel (i + 3)).map
          fun rs => [rd i, rd (i + 1), rd (i + 2)] ++ rs
    else
      some []

/-- The loop `for (int i=0; i<ncomp; i++) { memcpy(scomp, f+k, 2); ...; k += 2; }`
of FIG 0/2 with `n` iterations left. -/
def scompReads : Nat → Nat → List ReadRange
  | 0, _ => []
  | n + 1, k => ⟨k, 2⟩ :: scompReads n (k + 2)

/-- FIG 0/2 (lines 771-872): the loop `while (k<figlen)` entered with the given
`k`: the service identifier (2 bytes when `pd == 0`, else 4), the byte with
`ncomp`, and `ncomp` component descriptors. -/
def fig0_2Reads (f : Buf) (figlen pd : Nat) : Nat → Nat → Option (List ReadRange)
  | 0, _ => none
  | fuel + 1, k =>
    if k < figlen then
      let k1 := if pd = 0 then k + 2 else k + 4
      let ids := if pd = 0 then [rd k, rd (k + 1)]
        else [rd k, rd (k + 1), rd (k + 2), rd (k + 3)]
      let ncomp := f k1 &&& 0x0F
      (fig0_2Reads f figlen pd fuel (k1 + 1 + 2 * ncomp)).map
        fun rs => ids ++ [rd k1] ++ scompReads ncomp (k1 + 1) ++ rs
    else
      some []

/-- The value of `k` when the loop `while (k<figlen)` of FIG 0/2 ends: the index
after the last byte read. -/
def fig0_2End (f : Buf) (figlen pd : Nat) : Nat → Nat → Option Nat
  | 0, _ => none
  | fuel + 1, k =>
    if k < figlen then
      let k1 := if pd = 0 then k + 2 else k + 4
      fig0_2End f figlen pd fuel (k1 + 1 + 2 * (f k1 &&& 0x0F))
    else
      some k

/-- The loop `for (int numapp = 0; numapp < No; numapp++)` of FIG 0/13 with `n`
iterations left: `f[k]`, `f[k+1]`, then `k+=2`. -/
def userAppReads : Nat → Nat → List ReadRange
  | 0, _ => []
  | n + 1, k => rd k :: rd (k + 1) :: userAppReads n (k + 2)

/-- FIG 0/13 (lines 877-922). -/
def fig0_13Reads (f : Buf) (pd : Nat) : List ReadRange :=
  if pd = 0 then
    [rd 1, rd 2, rd 3] ++ userAppReads (f 3 &&& 0x0F) 4
  else
    [rd 1, rd 2, rd 3, rd 4, rd 5] ++ userAppReads (f 5 &&& 0x0F) 6

/-- Case 0 of `switch (figtype)` below its header: `switch (ext)`. -/
def fig0ExtReads (f : Buf) (figlen : Nat) : Option (List ReadRange) :=
  match f 0 &&& 0x1F with
  | 0 => some (fig0_0Reads f)
  | 1 => fig0_1Reads f figlen (figlen + 1) 1
  | 2 => fig0_2Reads f figlen ((f 0 &&& 0x20) >>> 5) (figlen + 1) 1
  | 13 => some (fig0_13Reads f ((f 0 &&& 0x20) >>> 5))
  | _ => some []

/-- Case 1 of `switch (figtype)` below its header (lines 942-1045): the label
`memcpy(label, f+figlen-18, 16)`, the flag bytes `f[figlen-2]`, `f[figlen-1]`,
and the identifiers of `switch (ext)`. -/
def fig1Reads (f : Buf) (figlen : Nat) : List ReadRange :=
  [⟨(figlen : Int) - 18, 16⟩, ⟨(figlen : Int) - 2, 1⟩, ⟨(figlen : Int) - 1, 1⟩] ++
    match f 0 &&& 0x07 with
    | 0 => [rd 1, rd 2]
    | 1 => [rd 1, rd 2]
    | 4 => rd 1 :: (if (f 1 &&& 0x80) >>> 7 = 0 then [rd 2, rd 3]
        else [rd 2, rd 3, rd 4, rd 5])
    | 5 => [rd 1, rd 2, rd 3, rd 4]
    | 6 => rd 1 :: (if (f 1 &&& 0x80) >>> 7 = 0 then [rd 2, rd 3, rd 4]
        else [rd 2, rd 3, rd 4, rd 5, rd 6])
    | _ => []

/-- The bytes one call `decodeFIG(figs, f, figlen, figtype, indent)` reads
through `f`, in the order of the statements (an index read by several
statements in a row is listed once).  Cases 0, 1, 2 and 5 read the header byte
`f[0]` and hand `f+1`, `figlen-1` to `printbuf`; case 6 and the types without a
case read nothing. -/
def decodeFIG_reads (verbosity : Nat) (f : Buf) (figlen figtype : Nat) :
    Option (List ReadRange) :=
  match figtype with
  | 0 => (fig0ExtReads f figlen).map
      fun rs => rd 0 :: printbufReads verbosity 1 ((figlen : Int) - 1) ++ rs
  | 1 => some (rd 0 :: printbufReads verbosity 1 ((figlen : Int) - 1) ++ fig1Reads f figlen)
  | 2 => some (rd 0 :: printbufReads verbosity 1 ((figlen : Int) - 1))
  | 5 => some (rd 0 :: printbufReads verbosity 1 ((figlen : Int) - 1))
  | 6 => some []
  | _ => some []

/-- The declared length covers what the branch of FIG type 0 for the extension
of this FIG reads: 5 bytes for FIG 0/0 (6 with a change flag), the service
entries up to the end of the loop for FIG 0/2, the identifier and the `No`
user applications for FIG 0/13. -/
def Fig0Covered (f : Buf) (figlen : Nat) : Prop :=
  match f 0 &&& 0x1F with
  | 0 => if (f 3 &&& 0xC0) >>> 6 ≠ 0 then 6 ≤ figlen else 5 ≤ figlen
  | 1 => True
  | 2 =>
    (match fig0_2End f figlen ((f 0 &&& 0x20) >>> 5) (figlen + 1) 1 with
      | some e => e ≤ figlen
      | none => False)
  | 13 =>
    if (f 0 &&& 0x20) >>> 5 = 0 then 4 + 2 * (f 3 &&& 0x0F) ≤ figlen
    else 6 + 2 * (f 5 &&& 0x0F) ≤ figlen
  | _ => True

/-- The declared length covers what the branch for this FIG reads. -/
def LayoutCovered (f : Buf) (figlen figtype : Nat) : Prop :=
  match figtype with
  | 0 => 1 ≤ figlen ∧ Fig0Covered f figlen
  | 1 => 18 ≤ figlen
  | 2 => 1 ≤ figlen
  | 5 => 1 ≤ figlen
  | _ => True

/-- A FIG 0/2 payload of 6 bytes: header, a 16-bit service identifier, one
component. -/
def fig0_2Payload : Buf := bufOf [0x02, 0x12, 0x34, 0x01, 0x00, 0x04]

/-! ## FIG decoder: the decoded values (lines 709-1081) -/

/-- What one iteration of the FIG 0/1 loop decodes (lines 715-761) and prints
as one line: the long form with `option`, `protection_level` and
`subchannel_size`, the short form with `table_switch` and `table_index`. -/
inductive Subch where
  | long (subch_id start_addr option protection_level subchannel_size : Nat)
  | short (subch_id start_addr table_switch table_index : Nat)
deriving DecidableEq

/-- FIG 0/1 (lines 711-763): the loop `while (i < figlen-3)` entered with the
given `i`; the result lists, in order, the index `i` of each iteration and the
sub-record decoded there.  One unit of fuel is one evaluation of the loop
condition. -/
def fig0_1Decode (f : Buf) (figlen : Nat) : Nat → Nat → Option (List (Nat × Subch))
  | 0, _ => none
  | fuel + 1, i =>
    if (i : Int) < (figlen : Int) - 3 then
      let subch_id := f i >>> 2
      let start_addr := ((f i &&& 0x03) <<< 8) ||| f (i + 1)
      let long_flag := f (i + 2) >>> 7
      if long_flag ≠ 0 then
        let option := (f (i + 2) >>> 4) &&& 0x07
        let protection_level := (f (i + 2) >>> 2) &&& 0x03
        let subchannel_size := ((f (i + 2) &&& 0x03) <<< 8) ||| f (i + 3)
        (fig0_1Decode f figlen fuel (i + 4)).map fun rs =>
          (i, Subch.long subch_id start_addr option protection_level subchannel_size) :: rs
      else
        let table_switch := (f (i + 2) >>> 6) &&& 0x01
        let table_index := f (i + 2) &&& 0x3F
        (fig0_1Decode f figlen fuel (i + 3)).map fun rs =>
          (i, Subch.short subch_id start_addr table_switch table_index) :: rs
    else
      some []

/-- The sub-records FIG 0/1 reports for a payload of length `figlen`: the loop
starts with `int i = 1`. -/
def fig0_1Subchs (f : Buf) (figlen : Nat) : Option (List Subch) :=
  (fig0_1Decode f figlen (figlen + 1) 1).map fun rs => rs.map Prod.snd

/-- The bytes of a sub-record as the transmitter packs them: 6 bits of
subchannel id and 10 bits of start address, then for the long form the long
flag, 3 bits of option, 2 bits of protection level and 10 bits of size, for
the short form a clear long flag, the table switch and 6 bits of table index. -/
def Subch.bytes : Subch → List Nat
  | .long subch_id start_addr option protection_level subchannel_size =>
    [subch_id * 4 + start_addr / 256, start_addr % 256,
      0x80 + option * 16 + protection_level * 4 + subchannel_size / 256,
      subchannel_size % 256]
  | .short subch_id start_addr table_switch table_index =>
    [subch_id * 4 + start_addr / 256, start_addr % 256, table_switch * 64 + table_index]

/-- Every field of the sub-record fits its bit width. -/
def Subch.InRange : Subch → Prop
  | .long subch_id start_addr option protection_level subchannel_size =>
    subch_id < 64 ∧ start_addr < 1024 ∧ option < 8 ∧ protection_level < 4 ∧
      subchannel_size < 1024
  | .short subch_id start_addr table_switch table_index =>
    subch_id < 64 ∧ start_addr < 1024 ∧ table_switch < 2 ∧ table_index < 64

instance (r : Subch) : Decidable r.InRange := by
  cases r <;> exact inferInstanceAs (Decidable (_ ∧ _))

/-- The sub-record is of the short form. -/
def Subch.isShort : Subch → Bool
  | .long .. => false
  | .short .. => true

/-- The bytes of a list of sub-records packed end to end. -/
def packSubchs (rs : List Subch) : List Nat := (rs.map Subch.bytes).flatten

/-- A FIG 0/1 payload: the header byte, then the sub-records. -/
def fig0_1Payload (hdr : Nat) (rs : List Subch) : List Nat := hdr :: packSubchs rs

/-- The sub-records the loop `while (i < figlen-3)` reaches in a payload that
holds exactly `rs`: all of them, but for a short form in last place. -/
def reachedSubchs (rs : List Subch) : List Subch :=
  match rs.getLast? with
  | some r => if r.isShort then rs.dropLast else rs
  | none => rs

/-- A FIG 0/1 payload with one short-form sub-record: subchannel 1, start
address 0, table index 5. -/
def shortSubchPayload : Buf := bufOf (fig0_1Payload 0x01 [Subch.short 1 0 0 5])

/-- A FIG 0/1 payload with a long-form and a short-form sub-record. -/
def twoSubchPayload : Buf :=
  bufOf (fig0_1Payload 0x01 [Subch.long 2 54 0 2 84, Subch.short 1 0 0 5])

/-- The conversion `%02X` of printf: upper-case hexadecimal, at least two digits. -/
def HEX02 (n : Nat) : String :=
  let ds := (Nat.toDigits 16 n).map Char.toUpper
  String.mk (if ds.length < 2 then '0' :: ds else ds)

/-- The identifier fields of a FIG 0/2 service entry at `f[k]` (lines 776-795).
`sid` and `sref` are declared `unsigned short int` (line 769): the assignment
keeps the low 16 bits of the value computed on the right.  `ecc` is assigned
in the branch `pd != 0` only. -/
structure ServiceIds where
  sid : Nat
  cid : Nat
  sref : Nat
  ecc : Option Nat
  /-- the value of `k` after the identifier -/
  next : Nat
deriving DecidableEq

/-- Lines 776-795. -/
def fig0_2Ids (f : Buf) (pd k : Nat) : ServiceIds :=
  if pd = 0 then
    { sid := (f k * 256 + f (k + 1)) % 0x10000
      cid := (f k &&& 0xF0) >>> 4
      sref := ((f k &&& 0x0F) * 256 + f (k + 1)) % 0x10000
      ecc := none
      next := k + 2 }
  else
    { sid := (f k * 256 * 256 * 256 + f (k + 1) * 256 * 256 + f (k + 2) * 256
        + f (k + 3)) % 0x10000
      cid := (f (k + 1) &&& 0xF0) >>> 4
      sref := ((f (k + 1) &&& 0x0F) * 256 * 256 + f (k + 2) * 256 + f (k + 3)) % 0x10000
      ecc := some (f k)
      next := k + 4 }

/-- The string `psdesc` (lines 831-836). -/
def psdesc (ps : Nat) : String :=
  if ps = 0 then "Secondary service" else "Primary service"

/-- The name of the audio service component type in the branch `timd == 0`
(lines 841-850), before the number in brackets. -/
def asctyName (scty : Nat) : String :=
  if scty = 0 then "MPEG Foreground sound"
  else if scty = 1 then "MPEG Background sound"
  else if scty = 2 then "Multi Channel sound"
  else if scty = 63 then "AAC sound"
  else "Unknown ASCTy"

/-- The string `sctydesc`: in the branch `timd == 0` the name of the audio
type with `scty` in brackets, in the branches `timd == 1` and `timd == 2`
the text `DSCTy=` with `scty`. -/
def sctydesc (timd scty : Nat) : String :=
  if timd = 0 then asctyName scty ++ " (" ++ toString scty ++ ")"
  else "DSCTy=" ++ toString scty

/-- The line printed for a component (lines 852, 858, 864, 869). -/
def scompDesc (timd ps ca scty subchid : Nat) : Option String :=
  if timd = 0 then
    some ("Stream audio mode, " ++ psdesc ps ++ ", " ++ sctydesc timd scty
      ++ ", SubChannel ID=" ++ HEX02 subchid ++ ", CA=" ++ toString ca)
  else if timd = 1 then
    some ("Stream data mode, " ++ psdesc ps ++ ", " ++ sctydesc timd scty
      ++ ", SubChannel ID=" ++ HEX02 subchid ++ ", CA=" ++ toString ca)
  else if timd = 2 then
    some ("FIDC mode, " ++ psdesc ps ++ ", " ++ sctydesc timd scty
      ++ ", Fast Information Data Channel ID=" ++ HEX02 subchid ++ ", CA=" ++ toString ca)
  else if timd = 3 then
    some ("MSC Packet Mode, " ++ psdesc ps ++ ", Service Component ID=" ++ HEX02 subchid
      ++ ", CA=" ++ toString ca)
  else none

/-- The fields of a component descriptor `scomp[0]`, `scomp[1]` (lines
818-822) and the line printed for it. -/
structure Scomp where
  timd : Nat
  ps : Nat
  ca : Nat
  scty : Nat
  subchid : Nat
  desc : Option String
deriving DecidableEq

/-- The decoding of the two bytes of a component descriptor (lines 818-871). -/
def scompDecode (c0 c1 : Nat) : Scomp :=
  let timd := (c0 &&& 0xC0) >>> 6
  let ps := (c1 &&& 0x02) >>> 1
  let ca := c1 &&& 0x01
  let scty := c0 &&& 0x3F
  let subchid := (c1 &&& 0xFC) >>> 2
  ⟨timd, ps, ca, scty, subchid, scompDesc timd ps ca scty subchid⟩

/-- The loop `for (int i=0; i<ncomp; i++)` of FIG 0/2 (lines 812-873) with `n`
iterations left and the descriptor at `f[k]`. -/
def scompLoop (f : Buf) : Nat → Nat → List Scomp
  | 0, _ => []
  | n + 1, k => scompDecode (f k) (f (k + 1)) :: scompLoop f n (k + 2)

/-- One service entry of FIG 0/2 as it is reported. -/
structure Service where
  ids : ServiceIds
  local_flag : Nat
  caid : Nat
  ncomp : Nat
  comps : List Scomp
deriving DecidableEq

/-- FIG 0/2 (lines 771-874): the loop `while (k<figlen)` entered with the given
`k`; the result lists the service entries in order.  One unit of fuel is one
evaluation of the loop condition. -/
def fig0_2Decode (f : Buf) (figlen pd : Nat) : Nat → Nat → Option (List Service)
  | 0, _ => none
  | fuel + 1, k =>
    if k < figlen then
      let ids := fig0_2Ids f pd k
      let k1 := ids.next
      let local_flag := (f k1 &&& 0x80) >>> 7
      let caid := (f k1 &&& 0x70) >>> 4
      let ncomp := f k1 &&& 0x0F
      (fig0_2Decode f figlen pd fuel (k1 + 1 + 2 * ncomp)).map fun rs =>
        ⟨ids, local_flag, caid, ncomp, scompLoop f ncomp (k1 + 1)⟩ :: rs
    else
      some []

/-- The service entries FIG 0/2 reports for a payload of length `figlen`:
`pd = (f[0] & 0x20) >> 5` and `int k=1`. -/
def fig0_2Services (f : Buf) (figlen : Nat) : Option (List Service) :=
  fig0_2Decode f figlen ((f 0 &&& 0x20) >>> 5) (figlen + 1) 1

/-- A FIG 0/2 payload of 8 bytes with the Program/Data flag set: header, the
four identifier bytes E0 12 34 56, one component. -/
def dataServicePayload : Buf := bufOf [0x22, 0xE0, 0x12, 0x34, 0x56, 0x01, 0x00, 0x04]

/-- The function `get_fig_0_13_userapp(int user_app_type)` (lines 173-188). -/
def get_fig_0_13_userapp (user_app_type : Nat) : String :=
  match user_app_type with
  | 0x000 => "Reserved for future definition"
  | 0x001 => "Not used"
  | 0x002 => "MOT Slideshow"
  | 0x003 => "MOT Broadacst Web Site"
  | 0x004 => "TPEG"
  | 0x005 => "DGPS"
  | 0x006 => "TMC"
  | 0x007 => "EPG"
  | 0x008 => "DAB Java"
  | 0x44a => "Journaline"
  | _ => "Reserved for future applications"

/-- One user application of FIG 0/13 as it is reported (lines 912-920): the
`uint16_t user_app_type`, the `uint8_t user_app_len` and the name looked up
for the type. -/
structure UserApp where
  user_app_type : Nat
  user_app_len : Nat
  name : String
deriving DecidableEq

/-- The loop `for (int numapp = 0; numapp < No; numapp++)` of FIG 0/13 (lines
911-922) with `n` iterations left and the entry at `f[k]`. -/
def userAppLoop (f : Buf) : Nat → Nat → List UserApp
  | 0, _ => []
  | n + 1, k =>
    let user_app_type := (((f k <<< 8) ||| (f (k + 1) &&& 0xE0)) >>> 5) % 0x10000
    let user_app_len := (f (k + 1) &&& 0x1F) % 0x100
    ⟨user_app_type, user_app_len, get_fig_0_13_userapp user_app_type⟩ ::
      userAppLoop f n (k + 2)

/-- What FIG 0/13 reports: the `uint32_t SId`, the `uint8_t SCIdS` and `No`,
and the user applications. -/
structure Fig0_13 where
  SId : Nat
  SCIdS : Nat
  No : Nat
  apps : List UserApp
deriving DecidableEq

/-- FIG 0/13 (lines 877-923) for the given value of `pd`. -/
def fig0_13Decode (f : Buf) (pd : Nat) : Fig0_13 :=
  if pd = 0 then
    let SId := ((f 1 <<< 8) ||| f 2) % 0x100000000
    let SCIdS := (f 3 >>> 4) % 0x100
    let No := (f 3 &&& 0x0F) % 0x100
    ⟨SId, SCIdS, No, userAppLoop f No 4⟩
  else
    let SId := ((f 1 <<< 24) ||| (f 2 <<< 16) ||| (f 3 <<< 8) ||| f 4) % 0x100000000
    let SCIdS := (f 5 >>> 4) % 0x100
    let No := (f 5 &&& 0x0F) % 0x100
    ⟨SId, SCIdS, No, userAppLoop f No 6⟩

/-- A FIG 0/13 payload for a programme service: `SId` 0x1234, `SCIdS` 2, one user
application of type 0x002 and length 5. -/
def fig0_13Payload : Buf := bufOf [0x0D, 0x12, 0x34, 0x21, 0x00, 0x45]

/-- The label `memcpy(label, f+figlen-18, 16)` of a type 1 FIG (line 943): the
16 bytes before the flag.  For `figlen` below 18 the copy starts before `f`,
outside the bytes that `f` gives. -/
def fig1Label (f : Buf) (figlen : Nat) : Option (List Nat) :=
  if 18 ≤ figlen then some (window f (figlen - 18) 16) else none

/-- The `unsigned short int flag = f[figlen-2] * 256 + f[figlen-1]` of a type 1
FIG (lines 945-946).  For `figlen` below 2 the first index is negative, outside
the bytes that `f` gives. -/
def fig1Flag (f : Buf) (figlen : Nat) : Option Nat :=
  if 2 ≤ figlen then some ((f (figlen - 2) * 256 + f (figlen - 1)) % 0x10000) else none

/-- The string `xpadappdesc` (lines 1029-1037). -/
def xpadappdesc (xpadapp : Nat) : String :=
  if xpadapp = 2 then "DLS"
  else if xpadapp = 12 then "MOT"
  else "?"

/-- What FIG 1/6 decodes before the label (lines 1010-1037). -/
structure XpadLabel where
  pd : Nat
  SCIdS : Nat
  sid : Nat
  xpadapp : Nat
  xpadappdesc : String
deriving DecidableEq

/-- FIG 1/6 (lines 1014-1037); `sid` is an `unsigned int`. -/
def fig1_6Decode (f : Buf) : XpadLabel :=
  let pd := (f 1 &&& 0x80) >>> 7
  let SCIdS := f 1 &&& 0x0F
  if pd = 0 then
    let sid := (f 2 * 256 + f 3) % 0x100000000
    let xpadapp := f 4 &&& 0x1F
    ⟨pd, SCIdS, sid, xpadapp, xpadappdesc xpadapp⟩
  else
    let sid := (f 2 * 256 * 256 * 256 + f 3 * 256 * 256 + f 4 * 256 + f 5) % 0x100000000
    let xpadapp := f 6 &&& 0x1F
    ⟨pd, SCIdS, sid, xpadapp, xpadappdesc xpadapp⟩

/-- A FIG 1/6 payload of 23 bytes: header, a 16-bit service identifier, X-PAD
application type 2, the label "ETISNOOP RADIO 1" and the mask 0xFF00. -/
def xpadLabelPayload : Buf :=
  bufOf ([0x06, 0x00, 0x12, 0x34, 0x02] ++
    [0x45, 0x54, 0x49, 0x53, 0x4E, 0x4F, 0x4F, 0x50, 0x20, 0x52, 0x41, 0x44, 0x49, 0x4F,
      0x20, 0x31] ++ [0xFF, 0x00])

/-- The header fields of a type 5 FIG (lines 1069-1072). -/
structure Fig5Header where
  d1 : Nat
  d2 : Nat
  tcid : Nat
  ext : Nat
deriving DecidableEq

/-- Lines 1069-1072: `d1`, `d2`, `tcid` and `ext` from `f[0]`. -/
def fig5Header (f : Buf) : Fig5Header :=
  { d1 := (f 0 &&& 0x80) >>> 7
    d2 := (f 0 &&& 0x40) >>> 6
    tcid := (f 0 &&& 0x38) >>> 5
    ext := f 0 &&& 0x07 }

/-! ## Carousel accumulator: the method `analyse()` (lines 75-118) -/

/-- The conversion `%02d` of printf: at least two characters, a single digit
gets a leading zero. -/
def fmt02d (x : Int) : String :=
  if 0 ≤ x ∧ x < 10 then "0" ++ toString x else toString x

/-- The conversion `%2d` of printf: at least two characters, a single digit
gets a leading blank. -/
def fmt2d (x : Int) : String :=
  if 0 ≤ x ∧ x < 10 then " " ++ toString x else toString x

/-- The text `printf("%01d/%02d (%2d) ", f.type, f.ext, f.len)` of one entry. -/
def figText (f : FIG) : String :=
  toString f.type ++ "/" ++ fmt02d f.ext ++ " (" ++ fmt2d f.len ++ ") "

/-- The value an `int` variable holds after an addition or subtraction whose
exact result is `x`.  The type has 32 bits; for a result outside its range the
language defines no behaviour, and the compiled code keeps the low 32 bits in
two's complement. -/
def wrapInt (x : Int) : Int := (x + 2147483648) % 4294967296 - 2147483648

/-- The variables of the loop over the entries of one FIB (lines 84-91): the
texts printed so far, and the values of `int consumed` and `int fic_size`. -/
structure EntryScan where
  texts : List String
  consumed : Int
  fic_size : Int
deriving DecidableEq

/-- The loop `for (size_t i = 0; i < m_figs[fib].size(); i++)` over the
entries that are left: each iteration prints the entry, then
`consumed += 10; fic_size += f.len;` on the two `int` variables. -/
def entryLoop : List FIG → EntryScan → EntryScan
  | [], st => st
  | f :: fs, st =>
    entryLoop fs
      ⟨st.texts ++ [figText f], wrapInt (st.consumed + 10), wrapInt (st.fic_size + f.len)⟩

/-- The loop `for (int i = 0; i < 15; i++)` that draws the cells (lines
104-111) with `n` iterations left and the index at `i`. -/
def barLoop (fic_size : Int) : Nat → Nat → List Char
  | 0, _ => []
  | n + 1, i => (if 2 * (i : Int) < fic_size then '#' else '-') :: barLoop fic_size n (i + 1)

/-- What `analyse()` prints for one FIB: the texts of the entries, the number
of blanks that align the bar, and the cells of the bar. -/
structure FibLine where
  texts : List String
  align : Nat
  bar : List Char
deriving DecidableEq

/-- The body of the loop over the FIBs (lines 80-113) for the entries `figs`
of one FIB: `consumed` starts at 7 and `fic_size` at 0; blanks are printed
when `int align = 60 - consumed` is positive; the cells are drawn from the
value `fic_size` holds after the loop over the entries. -/
def analyseFib (figs : List FIG) : FibLine :=
  let st := entryLoop figs ⟨[], 7, 0⟩
  let align := wrapInt (60 - st.consumed)
  ⟨st.texts, if align > 0 then align.toNat else 0, barLoop st.fic_size 15 0⟩

/-- The characters printed for FIB number `fib`. -/
def FibLine.text (l : FibLine) (fib : Nat) : String :=
  "[" ++ toString fib ++ " " ++ String.join l.texts ++ " "
    ++ String.mk (List.replicate l.align ' ') ++ "|" ++ String.mk l.bar ++ "| ]   "

/-- The loop `for (size_t fib = 0; fib < m_figs.size(); fib++)` over the FIBs
that are left, the index at `fib`. -/
def analyseLoop : List (List FIG) → Nat → String
  | [], _ => ""
  | figs :: rest, fib => (analyseFib figs).text fib ++ analyseLoop rest (fib + 1)

/-- The method `analyse()`: everything it prints. -/
def FIGalyser.analyse (s : FIGalyser) : String :=
  "FIC " ++ analyseLoop s.m_figs 0 ++ "\n"

/-- The sum of the `len` fields of the entries of one FIB. -/
def sumFigLen (figs : List FIG) : Int := (figs.map (·.len)).sum

/-- An accumulator with two entries in FIB 0 (lengths 20 and 9), one in FIB 1
(length 5) and none in FIB 2. -/
def sampleFigs : FIGalyser :=
  ⟨2, [[⟨0, 1, 20⟩, ⟨1, 0, 9⟩], [⟨0, 2, 5⟩], []]⟩

/-- An accumulator with two entries in FIB 0 whose lengths are both the largest
`int`, 2147483647, as two calls `push_back(0, 0, INT_MAX)` leave it. -/
def overflowFigs : FIGalyser :=
  ⟨0, [[⟨0, 0, 2147483647⟩, ⟨0, 0, 2147483647⟩], [], []]⟩

/-! ## Inputs for the walk over four FIBs and for the stream buffer -/

/-- The start of a frame with FIC in mode identity 3 (`p[6]` = 0x18) and no
stream: four FIBs, the first three empty, the fourth holding one type-0 FIG of
length 2. -/
def mode3Frame : Buf :=
  bufOf ([0xFF, 0x07, 0x3a, 0xb6, 0x01, 0x80, 0x18, 0x00, 0x00, 0x00, 0x00, 0x00]
    ++ List.replicate 32 0xFF ++ List.replicate 32 0xFF ++ List.replicate 32 0xFF
    ++ ([0x02, 0x41, 0x42] ++ List.replicate 29 0xFF))

/-- The size of a frame buffer `unsigned char p[ETINIPACKETSIZE]` (lines 140, 280). -/
def ETINIPACKETSIZE : Nat := 6144

/-- The size of the buffer `unsigned char streamdata[684*8]` (line 592). -/
def streamdataSize : Nat := 684 * 8

/-- A frame start without FIC and with one stream whose STL field holds 1023
words. -/
def longStreamFrame : Buf :=
  bufOf [0xFF, 0x07, 0x3a, 0xb6, 0x01, 0x01, 0x00, 0x00, 0x04, 0x00, 0x83, 0xFF]

/-! ## EOF: the frame CRC (lines 590-629) and the checks in the frame loop -/

/-- The value of `offset` when the loop over the stream data ends (lines
590-612): each of the `n` iterations left adds `stl[i] * 8`, the index at `i`. -/
def demuxOffset (stl : Table) : Nat → Nat → Nat → Nat
  | 0, _, offset => offset
  | n + 1, i, offset => demuxOffset stl n (i + 1) (offset + stl i * 8)

/-- The value of `offset` at the EOF check of a frame: the stream
characterisation fills `stl`, then `int offset = 0;` and the loop over the
stream data. -/
def eofOffset (p : Buf) (selected : Nat → Bool) (sad0 stl0 : Table) : Nat :=
  demuxOffset (stcParse p selected sad0 stl0).stl (nst p) 0 0

/-- The value of `crch` read at lines 615-616. -/
def eofCrch (p : Buf) (selected : Nat → Bool) (sad0 stl0 : Table) : Nat :=
  (p (12 + 4 * nst p + ficf p * ficl p * 4 + eofOffset p selected sad0 stl0) * 256
    + p (12 + 4 * nst p + ficf p * ficl p * 4 + eofOffset p selected sad0 stl0 + 1)) % 0x10000

/-- The value of `crc` after lines 618-622: the loop runs from `12 + 4*nst` up
to, not including, `12 + 4*nst + ficf*ficl*4 + offset`. -/
def eofCrc (upd : Nat → Nat → Nat) (p : Buf) (selected : Nat → Bool) (sad0 stl0 : Table) :
    Nat :=
  not16 (crcLoop upd p (ficf p * ficl p * 4 + eofOffset p selected sad0 stl0)
    (12 + 4 * nst p) 0xffff)

/-- The description printed by `printbuf("CRC", ..)` under "EOF" (lines 623-629). -/
def eofCrcDesc (upd : Nat → Nat → Nat) (p : Buf) (selected : Nat → Bool)
    (sad0 stl0 : Table) : String :=
  if eofCrc upd p selected sad0 stl0 = eofCrch p selected sad0 stl0 then "CRC OK"
  else "CRC Mismatch: " ++ hex02 (eofCrc upd p selected sad0 stl0)

/-- What one iteration of the frame loop prints for the two CRC checks of the
frame: the description under "Header CRC" and the one under "EOF". -/
structure FrameChecks where
  header : String
  eof : String
deriving DecidableEq

/-- What the frame loop has done with the CRC checks when it ends. -/
structure ChecksRun where
  /-- per frame that passed the ERR check: the two descriptions printed -/
  reports : List FrameChecks
  /-- the loop ended through the `break` of the ERR check -/
  aborted : Bool
deriving DecidableEq

/-- The frame loop `while (running)` over the frames the source delivers (lines
310-646), entered with the given `prevsync` and the cells the tables `sad` and
`stl` hold; the end of the list is the end of the ETI stream.  The `break` of
the ERR check (line 335) is the one statement of the loop body that leaves the
loop; after the header check and after the EOF check the iteration goes on. -/
def checksLoop (upd : Nat → Nat → Nat) (ignore_error : Bool) (selected : Nat → Bool) :
    List Nat → Table → Table → List Buf → ChecksRun
  | _, _, _, [] => ⟨[], false⟩
  | prevsync, sad, stl, p :: frames =>
    match syncFrame ignore_error prevsync p with
    | none => ⟨[], true⟩
    | some (_, prevsync1) =>
      let st := stcParse p selected sad stl
      let r := checksLoop upd ignore_error selected prevsync1 st.sad st.stl frames
      ⟨⟨headerCrcDesc upd p, eofCrcDesc upd p selected sad stl⟩ :: r.reports, r.aborted⟩

/-- The frame loop of `eti_analyse`, which starts with `prevsync` = 00 00 00;
`sad0` and `stl0` are the cells the tables hold before the first frame. -/
def etiChecks (upd : Nat → Nat → Nat) (ignore_error : Bool) (selected : Nat → Bool)
    (sad0 stl0 : Table) (frames : List Buf) : ChecksRun :=
  checksLoop upd ignore_error selected syncUnknown sad0 stl0 frames

/-- The start of a frame without FIC and with one stream of 3 words: SYNC, FC,
one STC entry, EOH with the header CRC 0xA9A6, 24 bytes of stream data, and
EOF with the frame CRC 0x5461. -/
def crcFrame : Buf :=
  bufOf ([0xFF, 0xf8, 0xc5, 0x49, 0x02, 0x01, 0x00, 0x00, 0x04, 0x00, 0x80, 0x03,
    0x00, 0x00, 0xA9, 0xA6] ++ List.range 24 ++ [0x54, 0x61, 0xFF, 0xFF])
/-! ## Lemmas on the FIG scan loop -/

theorem figScanLoop_succ (p : Buf) (fuel fig figcount : Nat) :
    figScanLoop p (fuel + 1) fig figcount =
      if (p fig &&& 0xE0) >>> 5 ≠ 7 then
        if figcount + ((p fig &&& 0x1F) + 1) ≥ 29 then
          some ⟨[⟨fig + 1, p fig &&& 0x1F, (p fig &&& 0xE0) >>> 5⟩], [fig],
            fig + ((p fig &&& 0x1F) + 1), figcount + ((p fig &&& 0x1F) + 1)⟩
        else
          (figScanLoop p fuel (fig + ((p fig &&& 0x1F) + 1))
              (figcount + ((p fig &&& 0x1F) + 1))).map
            fun r => { r with
              calls := ⟨fig + 1, p fig &&& 0x1F, (p fig &&& 0xE0) >>> 5⟩ :: r.calls,
              reads := fig :: r.reads }
      else
        some ⟨[], [fig], fig, figcount⟩ := rfl

/-- The leading byte of a record gives back its type and its length. -/
theorem leading_byte_fields :
    ∀ t, t ≤ 6 → ∀ l, l ≤ 31 →
      ((t * 32 + l) &&& 0xE0) >>> 5 = t ∧ (t * 32 + l) &&& 0x1F = l := by
  decide

theorem bufOf_append_right (pre l : List Nat) (i : Nat) :
    bufOf (pre ++ l) (pre.length + i) = bufOf l i := by
  have h : pre.length ≤ pre.length + i := Nat.le_add_right _ _
  simp [bufOf, List.getD_eq_getElem?_getD, List.getElem?_append_right h]

theorem bufOf_append_length (pre l : List Nat) :
    bufOf (pre ++ l) pre.length = bufOf l 0 := by
  simpa using bufOf_append_right pre l 0

theorem sumSize_cons (r : FigRecord) (rs : List FigRecord) :
    sumSize (r :: rs) = (r.figlen + 1) + sumSize rs := by
  simp [sumSize]

/-- The scan of records packed behind `pre`, entered at the first of them. -/
theorem figScanLoop_packed (marker : Nat) (rest : List Nat)
    (hm : (marker &&& 0xE0) >>> 5 = 7) :
    ∀ (rs : List FigRecord) (pre : List Nat) (fuel : Nat),
      (∀ r ∈ rs, r.WellFormed) → rs.length < fuel →
      pre.length + sumSize rs.dropLast ≤ 28 →
      ∃ r, figScanLoop (bufOf (pre ++ packFib rs marker rest)) fuel pre.length pre.length
            = some r ∧
        r.calls = expectedCalls rs pre.length ∧
        r.figcount = pre.length + sumSize rs ∧
        r.fig = pre.length + sumSize rs := by
  intro rs
  induction rs with
  | nil =>
    intro pre fuel _ hf _
    obtain ⟨fuel, rfl⟩ : ∃ k, fuel = k + 1 := ⟨fuel - 1, by simp at hf; omega⟩
    have hb : bufOf (pre ++ packFib [] marker rest) pre.length = marker := by
      rw [bufOf_append_length]; simp [packFib, bufOf]
    refine ⟨⟨[], [pre.length], pre.length, pre.length⟩, ?_, ?_, ?_, ?_⟩
    · rw [figScanLoop_succ, hb]; simp [hm]
    · simp [expectedCalls]
    · simp [sumSize]
    · simp [sumSize]
  | cons r rs ih =>
    intro pre fuel hwf hf hsz
    obtain ⟨fuel, rfl⟩ : ∃ k, fuel = k + 1 := ⟨fuel - 1, by simp at hf; omega⟩
    have hr : r.WellFormed := hwf r (by simp)
    obtain ⟨ht, hl, hpl⟩ := hr
    obtain ⟨hty, hln⟩ := leading_byte_fields r.figtype ht r.figlen hl
    have hb : bufOf (pre ++ packFib (r :: rs) marker rest) pre.length
        = r.figtype * 32 + r.figlen := by
      rw [bufOf_append_length]; simp [packFib, bufOf, FigRecord.bytes]
    have hne : r.figtype ≠ 7 := by omega
    have hpk : pre ++ packFib (r :: rs) marker rest
        = (pre ++ r.bytes) ++ packFib rs marker rest := by
      simp [packFib]
    have hlen : (pre ++ r.bytes).length = pre.length + (r.figlen + 1) := by
      simp [FigRecord.bytes, hpl]
    rw [figScanLoop_succ, hb, hty, hln]
    simp only [hne, ne_eq, not_false_eq_true, if_true]
    by_cases hge : pre.length + (r.figlen + 1) ≥ 29
    · -- the budget ends the scan: this is the last record
      have hrs : rs = [] := by
        cases rs with
        | nil => rfl
        | cons r2 rs2 =>
          exfalso
          rw [List.dropLast_cons₂, sumSize_cons] at hsz
          omega
      subst hrs
      refine ⟨_, by rw [if_pos hge], ?_, ?_, ?_⟩
      · simp [expectedCalls]
      · simp [sumSize]
      · simp [sumSize]
    · have hsz2 : (pre ++ r.bytes).length + sumSize rs.dropLast ≤ 28 := by
        rw [hlen]
        cases rs with
        | nil => simp [sumSize]; omega
        | cons r2 rs2 =>
          rw [List.dropLast_cons₂, sumSize_cons] at hsz
          omega
      obtain ⟨r1, h1, hc, hfc, hfg⟩ :=
        ih (pre ++ r.bytes) fuel (fun x hx => hwf x (by simp [hx]))
          (by simp at hf; omega) hsz2
      rw [hlen] at h1 hc hfc hfg
      rw [if_neg hge, hpk, h1]
      refine ⟨_, rfl, ?_, ?_, ?_⟩
      · simp [expectedCalls, hc]
      · simp [hfc, sumSize_cons]; omega
      · simp [hfg, sumSize_cons]; omega

theorem expectedCalls_length (rs : List FigRecord) (fig : Nat) :
    (expectedCalls rs fig).length = rs.length := by
  induction rs generalizing fig with
  | nil => rfl
  | cons r rs ih => simp [expectedCalls, ih]

/-- Records that occupy at most 29 bytes in all leave at most 28 to the ones
before the last. -/
theorem sumSize_dropLast_le (rs : List FigRecord) (h : sumSize rs ≤ 29) :
    sumSize rs.dropLast ≤ 28 := by
  induction rs with
  | nil => simp [sumSize]
  | cons r rs ih =>
    cases rs with
    | nil => simp [sumSize]
    | cons r2 rs2 =>
      rw [List.dropLast_cons₂, sumSize_cons]
      rw [sumSize_cons] at h
      have := ih (by omega)
      rw [sumSize_cons] at h
      have h2 : sumSize (r2 :: rs2).dropLast ≤ sumSize rs2 + r2.figlen := by
        clear ih this h
        induction rs2 generalizing r2 with
        | nil => simp [sumSize]
        | cons r3 rs3 ih3 =>
          rw [List.dropLast_cons₂, sumSize_cons, sumSize_cons]
          have := ih3 r3
          omega
      omega

/-- More fuel does not change a result. -/
theorem figScanLoop_fuel_mono (p : Buf) :
    ∀ (fuel fig figcount : Nat) (r : FigScan),
      figScanLoop p fuel fig figcount = some r →
      ∀ k, figScanLoop p (fuel + k) fig figcount = some r := by
  intro fuel
  induction fuel with
  | zero => intro fig figcount r h; simp [figScanLoop] at h
  | succ fuel ih =>
    intro fig figcount r h k
    rw [show fuel + 1 + k = (fuel + k) + 1 by omega, figScanLoop_succ]
    rw [figScanLoop_succ] at h
    by_cases ht : (p fig &&& 0xE0) >>> 5 ≠ 7
    · rw [if_pos ht] at h ⊢
      by_cases hge : figcount + ((p fig &&& 0x1F) + 1) ≥ 29
      · rw [if_pos hge] at h ⊢; exact h
      · rw [if_neg hge] at h ⊢
        cases h1 : figScanLoop p fuel (fig + ((p fig &&& 0x1F) + 1))
            (figcount + ((p fig &&& 0x1F) + 1)) with
        | none => rw [h1] at h; simp at h
        | some r1 => rw [h1] at h; rw [ih _ _ _ h1 k]; exact h
    · rw [if_neg ht] at h ⊢; exact h

/-- The loop ends within `29 - figcount` iterations. -/
theorem figScanLoop_terminates (p : Buf) :
    ∀ (fuel fig figcount : Nat), figcount < 29 → 29 ≤ fuel + figcount →
      ∃ r, figScanLoop p fuel fig figcount = some r := by
  intro fuel
  induction fuel with
  | zero => intro fig figcount h1 h2; omega
  | succ fuel ih =>
    intro fig figcount h1 h2
    rw [figScanLoop_succ]
    by_cases ht : (p fig &&& 0xE0) >>> 5 ≠ 7
    · rw [if_pos ht]
      by_cases hge : figcount + ((p fig &&& 0x1F) + 1) ≥ 29
      · rw [if_pos hge]; exact ⟨_, rfl⟩
      · rw [if_neg hge]
        obtain ⟨r1, h⟩ := ih (fig + ((p fig &&& 0x1F) + 1))
          (figcount + ((p fig &&& 0x1F) + 1)) (by omega) (by omega)
        rw [h]; exact ⟨_, rfl⟩
    · rw [if_neg ht]; exact ⟨_, rfl⟩

/-- Where the loop reads and what it passes on, relative to its entry state. -/
theorem figScanLoop_bounds (p : Buf) :
    ∀ (fuel fig figcount : Nat) (r : FigScan),
      figScanLoop p fuel fig figcount = some r → figcount < 29 →
      (∀ x ∈ r.reads, fig ≤ x ∧ x + figcount ≤ fig + 28) ∧
      (∀ c ∈ r.calls, fig + 1 ≤ c.figdata ∧ c.figdata + figcount ≤ fig + 29 ∧
        c.figdata + c.figlen + figcount ≤ fig + r.figcount) ∧
      r.calls.length + figcount ≤ 29 ∧
      figcount ≤ r.figcount ∧
      r.fig + figcount = fig + r.figcount := by
  intro fuel
  induction fuel with
  | zero => intro fig figcount r h; simp [figScanLoop] at h
  | succ fuel ih =>
    intro fig figcount r h hlt
    rw [figScanLoop_succ] at h
    by_cases ht : (p fig &&& 0xE0) >>> 5 ≠ 7
    · rw [if_pos ht] at h
      by_cases hge : figcount + ((p fig &&& 0x1F) + 1) ≥ 29
      · rw [if_pos hge] at h
        cases h
        refine ⟨?_, ?_, ?_, ?_, ?_⟩
        · intro x hx; simp at hx; omega
        · intro c hc; simp at hc; subst hc; simp; omega
        · simp; omega
        · simp
        · simp; omega
      · rw [if_neg hge] at h
        cases h1 : figScanLoop p fuel (fig + ((p fig &&& 0x1F) + 1))
            (figcount + ((p fig &&& 0x1F) + 1)) with
        | none => rw [h1] at h; simp at h
        | some r1 =>
          rw [h1] at h
          simp only [Option.map_some', Option.some.injEq] at h
          subst h
          obtain ⟨hr, hc, hn, hf, hp⟩ := ih _ _ _ h1 (by omega)
          dsimp only
          refine ⟨?_, ?_, ?_, ?_, ?_⟩
          · intro x hx
            simp only [List.mem_cons] at hx
            rcases hx with rfl | hx
            · omega
            · have := hr x hx; omega
          · intro c hc1
            simp only [List.mem_cons] at hc1
            rcases hc1 with rfl | hc1
            · dsimp only; omega
            · have := hc c hc1; omega
          · simp only [List.length_cons]; omega
          · omega
          · omega
    · rw [if_neg ht] at h
      cases h
      refine ⟨?_, ?_, ?_, ?_, ?_⟩
      · intro x hx; simp at hx; omega
      · intro c hc; simp at hc
      · simp; omega
      · simp
      · simp

/-- The leading byte of every decoded record is among the bytes read. -/
theorem figScanLoop_call_read (p : Buf) :
    ∀ (fuel fig figcount : Nat) (r : FigScan),
      figScanLoop p fuel fig figcount = some r →
      ∀ c ∈ r.calls, c.figdata - 1 ∈ r.reads := by
  intro fuel
  induction fuel with
  | zero => intro fig figcount r h; simp [figScanLoop] at h
  | succ fuel ih =>
    intro fig figcount r h
    rw [figScanLoop_succ] at h
    by_cases ht : (p fig &&& 0xE0) >>> 5 ≠ 7
    · rw [if_pos ht] at h
      by_cases hge : figcount + ((p fig &&& 0x1F) + 1) ≥ 29
      · rw [if_pos hge] at h
        cases h
        intro c hc; simp at hc; subst hc; simp
      · rw [if_neg hge] at h
        cases h1 : figScanLoop p fuel (fig + ((p fig &&& 0x1F) + 1))
            (figcount + ((p fig &&& 0x1F) + 1)) with
        | none => rw [h1] at h; simp at h
        | some r1 =>
          rw [h1] at h
          simp only [Option.map_some', Option.some.injEq] at h
          subst h
          intro c hc
          simp only [List.mem_cons] at hc ⊢
          rcases hc with rfl | hc
          · left; simp
          · right; exact ih _ _ _ h1 c hc
    · rw [if_neg ht] at h
      cases h
      intro c hc; simp at hc

theorem figOffset_succ (p : Buf) (fib k : Nat) :
    figOffset p fib (k + 1)
      = figOffset p fib k + ((p (fib + figOffset p fib k) &&& 0x1F) + 1) := rfl

theorem figOffset_lt_of_lt (p : Buf) (fib : Nat) {i j : Nat} (h : i < j) :
    figOffset p fib i < figOffset p fib j := by
  induction j with
  | zero => omega
  | succ j ih =>
    rw [figOffset_succ]
    by_cases hij : i = j
    · subst hij; omega
    · have := ih (by omega); omega

/-- The scan along a chain of records that ends at byte count 29. -/
theorem figScanLoop_chain (p : Buf) (fib : Nat) :
    ∀ (n j fuel : Nat), n < fuel →
      figOffset p fib (j + n + 1) = 29 →
      (∀ i, i ≤ j + n → (p (fib + figOffset p fib i) &&& 0xE0) >>> 5 ≠ 7) →
      ∃ r, figScanLoop p fuel (fib + figOffset p fib j) (figOffset p fib j) = some r ∧
        r.figcount = 29 ∧
        r.reads = (List.range' j (n + 1)).map (fun i => fib + figOffset p fib i) ∧
        r.calls.length = n + 1 := by
  intro n
  induction n with
  | zero =>
    intro j fuel hf h29 hty
    obtain ⟨fuel, rfl⟩ : ∃ k, fuel = k + 1 := ⟨fuel - 1, by omega⟩
    rw [figScanLoop_succ, if_pos (hty j (by omega))]
    have h : figOffset p fib j + ((p (fib + figOffset p fib j) &&& 0x1F) + 1) = 29 := by
      rw [← figOffset_succ]; simpa using h29
    rw [if_pos (by omega)]
    exact ⟨_, rfl, by simpa using h, by simp, by simp⟩
  | succ n ih =>
    intro j fuel hf h29 hty
    obtain ⟨fuel, rfl⟩ : ∃ k, fuel = k + 1 := ⟨fuel - 1, by omega⟩
    rw [figScanLoop_succ, if_pos (hty j (by omega))]
    have hlt : figOffset p fib (j + 1) < 29 := by
      rw [← h29]; exact figOffset_lt_of_lt p fib (by omega)
    rw [figOffset_succ] at hlt
    rw [if_neg (by omega)]
    obtain ⟨r1, h1, hc, hr, hn⟩ := ih (j + 1) fuel (by omega)
      (by rw [show j + 1 + n + 1 = j + (n + 1) + 1 by omega]; exact h29)
      (fun i hi => hty i (by omega))
    rw [figOffset_succ, ← Nat.add_assoc] at h1
    rw [h1]
    refine ⟨_, rfl, hc, ?_, by simp [hn]⟩
    simp only [Option.map_some', hr]
    rw [List.range'_succ j (n + 1), List.map_cons]

theorem length_le_sumSize (rs : List FigRecord) : rs.length ≤ sumSize rs := by
  induction rs with
  | nil => simp [sumSize]
  | cons r rs ih => rw [sumSize_cons]; simp; omega

theorem le_figOffset (p : Buf) (fib k : Nat) : k ≤ figOffset p fib k := by
  induction k with
  | zero => simp
  | succ k ih => rw [figOffset_succ]; omega

/-! ## FIC Block Iterator: the FIG scan (C1 - C3) -/

/-- C1 (as stated) fails on the code.  The FIB made of a type-0 record of length
28, a type-1 record of length 1 and the type-7 byte 0xFF has 32 bytes; its
records are well formed and their length fields sum to 29.  The scan decodes
one record, not two, and ends with a byte count of 29, not 31: the budget test
counts the leading bytes as well. -/
theorem fib_roundtrip_counterexample :
    (∀ r ∈ overfullRecords, r.WellFormed) ∧
    (0xFF &&& 0xE0) >>> 5 = 7 ∧
    (packFib overfullRecords 0xFF []).length = 32 ∧
    sumLen overfullRecords ≤ 29 ∧
    figScan (bufOf (packFib overfullRecords 0xFF [])) 0
      = some ⟨[⟨1, 28, 0⟩], [0], 29, 29⟩ ∧
    ¬ ∃ r, figScan (bufOf (packFib overfullRecords 0xFF [])) 0 = some r ∧
        r.calls.length = overfullRecords.length ∧
        r.figcount = sumSize overfullRecords := by
  have h : figScan (bufOf (packFib overfullRecords 0xFF [])) 0
      = some ⟨[⟨1, 28, 0⟩], [0], 29, 29⟩ := by decide
  refine ⟨by decide, by decide, by decide, by decide, h, ?_⟩
  rintro ⟨r, hr, hn, -⟩
  rw [h] at hr
  cases hr
  revert hn
  decide

/-- C1 (amended): for every FIB that consists of N well-formed FIG records
(type in 0..6, 5-bit length, as many payload bytes as the length says) packed
end to end from offset 0 and followed by a type-7 marker byte, such that the
records before the last occupy at most 28 bytes, leading bytes included (which
is so whenever the sum of `length + 1` over all records is at most 29), the
scan makes exactly N `decodeFIG` calls, one per record and in order, each with
the record's payload pointer, length and type, and the byte count when the
scan ends is the sum of `length + 1` over the N records. -/
theorem fib_roundtrip (rs : List FigRecord) (marker : Nat) (rest : List Nat)
    (hwf : ∀ r ∈ rs, r.WellFormed) (hm : (marker &&& 0xE0) >>> 5 = 7)
    (hsz : sumSize rs.dropLast ≤ 28) :
    ∃ r, figScan (bufOf (packFib rs marker rest)) 0 = some r ∧
      r.calls = expectedCalls rs 0 ∧
      r.calls.length = rs.length ∧
      r.figcount = sumSize rs := by
  have hlen : rs.length < 32 := by
    have h1 := length_le_sumSize rs.dropLast
    have h2 : rs.dropLast.length = rs.length - 1 := List.length_dropLast rs
    omega
  obtain ⟨r, h, hc, hfc, -⟩ :=
    figScanLoop_packed marker rest hm rs [] 32 hwf hlen (by simpa using hsz)
  refine ⟨r, by simpa [figScan] using h, by simpa using hc, ?_, by simpa using hfc⟩
  rw [hc, expectedCalls_length]

/-- C1 (amended) at a 32-byte FIB with two records of 3 and 4 bytes. -/
theorem fib_roundtrip_witness :
    (packFib smallRecords 0xFF (List.replicate 24 0)).length = 32 ∧
    (∀ r ∈ smallRecords, r.WellFormed) ∧ (0xFF &&& 0xE0) >>> 5 = 7 ∧
    sumSize smallRecords.dropLast ≤ 28 ∧
    ∃ r, figScan (bufOf (packFib smallRecords 0xFF (List.replicate 24 0))) 0 = some r ∧
      r.calls = expectedCalls smallRecords 0 ∧
      r.calls.length = smallRecords.length ∧
      r.figcount = sumSize smallRecords :=
  ⟨by decide, by decide, by decide, by decide,
   fib_roundtrip smallRecords 0xFF (List.replicate 24 0) (by decide) (by decide) (by decide)⟩

/-- C2: when the records chained from the start of the FIB reach a byte count
of exactly 29 after record `k`, none of the leading bytes of records 0..k being
a type-7 byte, the scan ends right after record `k`: the leading bytes read are
those of records 0..k and no other, `k + 1` records are decoded, the final
count is 29, and every leading byte and every payload byte of a decoded record
lies at a FIB offset in 0..28. -/
theorem scan_stops_at_budget (p : Buf) (fib k : Nat)
    (h29 : figOffset p fib (k + 1) = 29)
    (hty : ∀ i, i ≤ k → (p (fib + figOffset p fib i) &&& 0xE0) >>> 5 ≠ 7) :
    ∃ r, figScan p fib = some r ∧
      r.figcount = 29 ∧
      r.reads = (List.range (k + 1)).map (fun i => fib + figOffset p fib i) ∧
      r.calls.length = k + 1 ∧
      (∀ x ∈ r.reads, fib ≤ x ∧ x ≤ fib + 28) ∧
      (∀ c ∈ r.calls, ∀ j, j < c.figlen → fib < c.figdata + j ∧ c.figdata + j ≤ fib + 28) := by
  have hk : k < 32 := by
    have := le_figOffset p fib (k + 1); omega
  obtain ⟨r, h, hc, hr, hn⟩ := figScanLoop_chain p fib k 0 32 hk
    (by simpa using h29) (fun i hi => hty i (by omega))
  have h0 : figScanLoop p 32 fib 0 = some r := by simpa [figOffset] using h
  obtain ⟨b1, b2, -, -, -⟩ := figScanLoop_bounds p 32 fib 0 r h0 (by omega)
  refine ⟨r, h0, hc, ?_, hn, ?_, ?_⟩
  · rw [hr, List.range_eq_range']
  · intro x hx; have := b1 x hx; omega
  · intro c hcm j hj; have := b2 c hcm; omega

/-- C2 at the all-zero FIB: 29 records of length 0, the last at offset 28. -/
theorem scan_stops_at_budget_witness :
    figOffset zeroFib 0 (28 + 1) = 29 ∧
    (∀ i, i ≤ 28 → (zeroFib (0 + figOffset zeroFib 0 i) &&& 0xE0) >>> 5 ≠ 7) ∧
    ∃ r, figScan zeroFib 0 = some r ∧
      r.figcount = 29 ∧
      r.reads = (List.range (28 + 1)).map (fun i => 0 + figOffset zeroFib 0 i) ∧
      r.calls.length = 28 + 1 ∧
      (∀ x ∈ r.reads, 0 ≤ x ∧ x ≤ 0 + 28) ∧
      (∀ c ∈ r.calls, ∀ j, j < c.figlen → 0 < c.figdata + j ∧ c.figdata + j ≤ 0 + 28) :=
  ⟨by decide, by decide, scan_stops_at_budget zeroFib 0 28 (by decide) (by decide)⟩

/-- C3: for every buffer taken as a FIB the FIG scan loop ends, with the same
result for every allowance of at least 29 iterations; it decodes at most 29
records, and every leading byte, that of each decoded record included, is read
at a FIB offset of at most 28. -/
theorem scan_terminates (p : Buf) (fib : Nat) :
    ∃ r, figScan p fib = some r ∧
      (∀ fuel, 29 ≤ fuel → figScanLoop p fuel fib 0 = some r) ∧
      r.calls.length ≤ 29 ∧
      (∀ x ∈ r.reads, fib ≤ x ∧ x ≤ fib + 28) ∧
      (∀ c ∈ r.calls, c.figdata - 1 ∈ r.reads ∧ fib ≤ c.figdata - 1 ∧
        c.figdata - 1 ≤ fib + 28) := by
  obtain ⟨r, h⟩ := figScanLoop_terminates p 29 fib 0 (by omega) (by omega)
  have hmono := figScanLoop_fuel_mono p 29 fib 0 r h
  obtain ⟨b1, b2, b3, -, -⟩ := figScanLoop_bounds p 29 fib 0 r h (by omega)
  refine ⟨r, hmono 3, ?_, by omega, ?_, ?_⟩
  · intro fuel hf
    have := hmono (fuel - 29)
    rwa [show 29 + (fuel - 29) = fuel by omega] at this
  · intro x hx; have := b1 x hx; omega
  · intro c hc
    have := b2 c hc
    refine ⟨?_, by omega, by omega⟩
    exact figScanLoop_call_read p 29 fib 0 r h c hc

/-! ## Lemmas on the FSYNC tracking -/

theorem fsyncCheck_accept (s : List Nat) (p : Buf) (d : String) (hc : Canonical p)
    (hs : s = syncUnknown ∨ ((s = fsyncA ∨ s = fsyncB) ∧ s ≠ mem3 p 1)) :
    fsyncCheck s p d = ("OK", mem3 p 1) := by
  have hAU : fsyncA ≠ syncUnknown := by decide
  have hBU : fsyncB ≠ syncUnknown := by decide
  have hBA : fsyncB ≠ fsyncA := by decide
  unfold fsyncCheck
  rcases hs with rfl | ⟨rfl | rfl, hne⟩
  · rw [if_pos rfl, if_pos (show mem3 p 1 = fsyncA ∨ mem3 p 1 = fsyncB from hc)]
  · have hB : mem3 p 1 = fsyncB := by
      rcases hc with h | h
      · exact absurd h.symm hne
      · exact h
    rw [if_neg hAU, if_pos rfl, if_neg (by simpa using hB)]
  · have hA : mem3 p 1 = fsyncA := by
      rcases hc with h | h
      · exact h
      · exact absurd h.symm hne
    rw [if_neg hBU, if_neg hBA, if_pos rfl, if_neg (by simpa using hA)]

theorem fsyncCheck_reject (s : List Nat) (p : Buf) (d : String) (hs : Tracked s)
    (h : ¬ Canonical p ∨ mem3 p 1 = s) :
    fsyncCheck s p d = ("Wrong FSYNC", syncUnknown) := by
  have hAU : fsyncA ≠ syncUnknown := by decide
  have hBU : fsyncB ≠ syncUnknown := by decide
  have hBA : fsyncB ≠ fsyncA := by decide
  have hnc : s = syncUnknown → ¬ Canonical p := by
    intro hsu
    rcases h with h | h
    · exact h
    · rw [hsu] at h
      intro hc
      rcases hc with hc | hc
      · rw [h] at hc; exact hAU hc.symm
      · rw [h] at hc; exact hBU hc.symm
  unfold fsyncCheck
  rcases hs with rfl | rfl | rfl
  · rw [if_pos rfl, if_neg (show ¬ (mem3 p 1 = fsyncA ∨ mem3 p 1 = fsyncB) from hnc rfl)]
  · have hB : mem3 p 1 ≠ fsyncB := by
      rcases h with h | h
      · exact fun hb => h (Or.inr hb)
      · rw [h]; exact hBA.symm
    rw [if_neg hAU, if_pos rfl, if_pos hB]
  · have hA : mem3 p 1 ≠ fsyncA := by
      rcases h with h | h
      · exact fun ha => h (Or.inl ha)
      · rw [h]; exact hBA
    rw [if_neg hBU, if_neg hBA, if_pos rfl, if_pos hA]

/-- From a tracked state the result of the FSYNC block does not depend on
the description found on entry, and the new state is tracked. -/
theorem fsyncCheck_tracked (s : List Nat) (p : Buf) (d : String) (hs : Tracked s) :
    (fsyncCheck s p d = ("OK", mem3 p 1) ∧ Canonical p) ∨
      fsyncCheck s p d = ("Wrong FSYNC", syncUnknown) := by
  by_cases hc : Canonical p
  · by_cases he : mem3 p 1 = s
    · exact Or.inr (fsyncCheck_reject s p d hs (Or.inr he))
    · refine Or.inl ⟨fsyncCheck_accept s p d hc ?_, hc⟩
      rcases hs with h | h | h
      · exact Or.inl h
      · exact Or.inr ⟨Or.inl h, fun e => he e.symm⟩
      · exact Or.inr ⟨Or.inr h, fun e => he e.symm⟩
  · exact Or.inr (fsyncCheck_reject s p d hs (Or.inl hc))

theorem canonical_tracked (p : Buf) (hc : Canonical p) : Tracked (mem3 p 1) := by
  rcases hc with h | h
  · exact Or.inr (Or.inl h)
  · exact Or.inr (Or.inr h)

theorem fsyncCheck_state_tracked (s : List Nat) (p : Buf) (d : String) (hs : Tracked s) :
    Tracked (fsyncCheck s p d).2 := by
  rcases fsyncCheck_tracked s p d hs with ⟨h, hc⟩ | h
  · rw [h]; exact canonical_tracked p hc
  · rw [h]; exact Or.inl rfl

/-- A frame that is not stopped at the ERR check goes through the FSYNC block. -/
theorem syncFrame_pass (ignore_error : Bool) (s : List Nat) (p : Buf)
    (h : p 0 = 0xFF ∨ ignore_error = true) :
    ∃ d, syncFrame ignore_error s p = some (fsyncCheck s p d) := by
  unfold syncFrame
  by_cases h0 : p 0 = 0xFF
  · exact ⟨"No error", by rw [if_pos h0]⟩
  · have hi : ignore_error = true := by
      rcases h with h | h
      · exact absurd h h0
      · exact h
    exact ⟨"Error", by rw [if_neg h0, hi]; rfl⟩

theorem syncFrame_none_iff (ignore_error : Bool) (s : List Nat) (p : Buf) :
    syncFrame ignore_error s p = none ↔ (p 0 ≠ 0xFF ∧ ignore_error = false) := by
  unfold syncFrame
  by_cases h0 : p 0 = 0xFF
  · rw [if_pos h0]; simp [h0]
  · rw [if_neg h0]
    cases ignore_error <;> simp [h0]

theorem syncLoop_cons_some (ignore_error : Bool) (s : List Nat) (p : Buf) (frames : List Buf)
    (ds : String × List Nat) (h : syncFrame ignore_error s p = some ds) :
    syncLoop ignore_error s (p :: frames) =
      ⟨ds :: (syncLoop ignore_error ds.2 frames).reports,
        (syncLoop ignore_error ds.2 frames).prevsync,
        (syncLoop ignore_error ds.2 frames).aborted⟩ := by
  obtain ⟨d, s1⟩ := ds
  simp [syncLoop, h]

theorem syncLoop_cons_none (ignore_error : Bool) (s : List Nat) (p : Buf) (frames : List Buf)
    (h : syncFrame ignore_error s p = none) :
    syncLoop ignore_error s (p :: frames) = ⟨[], s, true⟩ := by
  simp [syncLoop, h]

theorem noErrAbort_cons {ignore_error : Bool} {p : Buf} {frames : List Buf}
    (h : NoErrAbort ignore_error (p :: frames)) :
    (p 0 = 0xFF ∨ ignore_error = true) ∧ NoErrAbort ignore_error frames := by
  rcases h with h | h
  · exact ⟨Or.inr h, Or.inl h⟩
  · exact ⟨Or.inl (h p (by simp)), Or.inr (fun q hq => h q (by simp [hq]))⟩

theorem noErrAbort_append {ignore_error : Bool} {xs ys : List Buf}
    (h : NoErrAbort ignore_error (xs ++ ys)) :
    NoErrAbort ignore_error xs ∧ NoErrAbort ignore_error ys := by
  rcases h with h | h
  · exact ⟨Or.inl h, Or.inl h⟩
  · exact ⟨Or.inr (fun q hq => h q (by simp [hq])), Or.inr (fun q hq => h q (by simp [hq]))⟩

/-- The loop over `xs ++ ys` when no frame of `xs` is stopped at the ERR check:
all of `xs` is reported and the loop goes on into `ys`. -/
theorem syncLoop_append (ignore_error : Bool) :
    ∀ (xs ys : List Buf) (s : List Nat), NoErrAbort ignore_error xs →
      (syncLoop ignore_error s xs).aborted = false ∧
      (syncLoop ignore_error s xs).reports.length = xs.length ∧
      syncLoop ignore_error s (xs ++ ys) =
        ⟨(syncLoop ignore_error s xs).reports ++
            (syncLoop ignore_error (syncLoop ignore_error s xs).prevsync ys).reports,
          (syncLoop ignore_error (syncLoop ignore_error s xs).prevsync ys).prevsync,
          (syncLoop ignore_error (syncLoop ignore_error s xs).prevsync ys).aborted⟩ := by
  intro xs
  induction xs with
  | nil => intro ys s _; simp [syncLoop]
  | cons p xs ih =>
    intro ys s hne
    obtain ⟨hp, hne1⟩ := noErrAbort_cons hne
    obtain ⟨d, hd⟩ := syncFrame_pass ignore_error s p hp
    obtain ⟨h1, h2, h3⟩ := ih ys (fsyncCheck s p d).2 hne1
    rw [List.cons_append, syncLoop_cons_some _ _ _ _ _ hd, syncLoop_cons_some _ _ _ _ _ hd]
    refine ⟨h1, by simp [h2], ?_⟩
    rw [h3]
    simp

/-- The tracked state stays one of the three constants. -/
theorem syncLoop_tracked (ignore_error : Bool) :
    ∀ (xs : List Buf) (s : List Nat), Tracked s →
      Tracked (syncLoop ignore_error s xs).prevsync := by
  intro xs
  induction xs with
  | nil => intro s hs; simpa [syncLoop] using hs
  | cons p xs ih =>
    intro s hs
    cases h : syncFrame ignore_error s p with
    | none => rw [syncLoop_cons_none _ _ _ _ h]; exact hs
    | some ds =>
      rw [syncLoop_cons_some _ _ _ _ _ h]
      have hp : p 0 = 0xFF ∨ ignore_error = true := by
        by_contra hcon
        have : syncFrame ignore_error s p = none := by
          rw [syncFrame_none_iff]
          cases ignore_error <;> simp_all
        rw [this] at h; cases h
      obtain ⟨d2, hd2⟩ := syncFrame_pass ignore_error s p hp
      rw [h] at hd2
      have hs1 : ds = fsyncCheck s p d2 := Option.some.inj hd2
      exact ih ds.2 (by rw [hs1]; exact fsyncCheck_state_tracked s p d2 hs)

/-- The loop over frames that alternate, entered in a state that accepts
the first of them. -/
theorem syncLoop_alternating (ignore_error : Bool) :
    ∀ (frames : List Buf) (s : List Nat), Alternating frames →
      (∀ p, frames.head? = some p →
        s = syncUnknown ∨ ((s = fsyncA ∨ s = fsyncB) ∧ s ≠ mem3 p 1)) →
      (∀ rep ∈ (syncLoop ignore_error s frames).reports, rep.1 = "OK") ∧
      (NoErrAbort ignore_error frames →
        (syncLoop ignore_error s frames).reports = frames.map (fun p => ("OK", mem3 p 1)) ∧
        (syncLoop ignore_error s frames).aborted = false ∧
        (syncLoop ignore_error s frames).prevsync
          = ((frames.map (fun p => mem3 p 1)).getLast?).getD s) := by
  intro frames
  induction frames with
  | nil => intro s _ _; simp [syncLoop]
  | cons p frames ih =>
    intro s halt hs
    obtain ⟨hcan, hchain⟩ := halt
    have hcp : Canonical p := hcan p (by simp)
    have halt1 : Alternating frames :=
      ⟨fun q hq => hcan q (by simp [hq]), (List.chain'_cons'.mp hchain).2⟩
    have hs1 : ∀ q, frames.head? = some q →
        mem3 p 1 = syncUnknown ∨
          ((mem3 p 1 = fsyncA ∨ mem3 p 1 = fsyncB) ∧ mem3 p 1 ≠ mem3 q 1) := by
      intro q hq
      exact Or.inr ⟨hcp, (List.chain'_cons'.mp hchain).1 q hq⟩
    obtain ⟨ih1, ih2⟩ := ih (mem3 p 1) halt1 hs1
    have hacc : ∀ d, fsyncCheck s p d = ("OK", mem3 p 1) :=
      fun d => fsyncCheck_accept s p d hcp (hs p (by simp))
    constructor
    · cases h : syncFrame ignore_error s p with
      | none => rw [syncLoop_cons_none _ _ _ _ h]; simp
      | some ds =>
        have hp : p 0 = 0xFF ∨ ignore_error = true := by
          by_contra hcon
          have : syncFrame ignore_error s p = none := by
            rw [syncFrame_none_iff]
            cases ignore_error <;> simp_all
          rw [this] at h; cases h
        obtain ⟨d2, hd2⟩ := syncFrame_pass ignore_error s p hp
        rw [hacc d2] at hd2
        rw [syncLoop_cons_some _ _ _ _ _ hd2]
        intro rep hrep
        simp only [List.mem_cons] at hrep
        rcases hrep with rfl | hrep
        · rfl
        · exact ih1 rep hrep
    · intro hne
      obtain ⟨hp, hne1⟩ := noErrAbort_cons hne
      obtain ⟨d2, hd2⟩ := syncFrame_pass ignore_error s p hp
      rw [hacc d2] at hd2
      obtain ⟨i1, i2, i3⟩ := ih2 hne1
      rw [syncLoop_cons_some _ _ _ _ _ hd2]
      refine ⟨by simp [i1], i2, ?_⟩
      simp only [i3, List.map_cons]
      cases frames with
      | nil => simp
      | cons q qs => rw [List.map_cons, List.getLast?_cons_cons, List.getLast?_cons]; rfl

theorem syncLoop_single (ignore_error : Bool) (s : List Nat) (p : Buf)
    (ds : String × List Nat) (h : syncFrame ignore_error s p = some ds) :
    syncLoop ignore_error s [p] = ⟨[ds], ds.2, false⟩ := by
  rw [syncLoop_cons_some _ _ _ _ _ h]; simp [syncLoop]

/-- When the last frame of a run was reported OK, the tracked state is the
FSYNC word of that frame. -/
theorem syncLoop_snoc_ok (ignore_error : Bool) (pre0 : List Buf) (q : Buf) (s : List Nat)
    (hs : Tracked s) (hne : NoErrAbort ignore_error (pre0 ++ [q]))
    (hok : ((syncLoop ignore_error s (pre0 ++ [q])).reports.getLast?).map Prod.fst
      = some "OK") :
    (syncLoop ignore_error s (pre0 ++ [q])).prevsync = mem3 q 1 := by
  obtain ⟨hne0, hneq⟩ := noErrAbort_append hne
  obtain ⟨-, -, happ⟩ := syncLoop_append ignore_error pre0 [q] s hne0
  have ht := syncLoop_tracked ignore_error pre0 s hs
  obtain ⟨d, hd⟩ := syncFrame_pass ignore_error (syncLoop ignore_error s pre0).prevsync q
    (noErrAbort_cons hneq).1
  rw [happ, syncLoop_single _ _ _ _ hd] at hok ⊢
  simp at hok
  rcases fsyncCheck_tracked (syncLoop ignore_error s pre0).prevsync q d ht with ⟨h, -⟩ | h
  · simp [h]
  · rw [h] at hok
    simp at hok

theorem alternating_ABA : Alternating [frameA, frameB, frameA] :=
  ⟨by decide, by simp only [List.chain'_cons, List.chain'_singleton, and_true]; decide⟩

theorem alternating_AB : Alternating [frameA, frameB] :=
  ⟨by decide, by simp only [List.chain'_cons, List.chain'_singleton, and_true]; decide⟩

theorem alternating_BA : Alternating [frameB, frameA] :=
  ⟨by decide, by simp only [List.chain'_cons, List.chain'_singleton, and_true]; decide⟩

/-! ## Frame Synchronizer (C4 - C7) -/

/-- C4: from the state 'unknown' with which `eti_analyse` starts, for every
finite sequence of frames whose FSYNC bytes are each one of the two constants
and differ from each frame to the next, no frame is reported with anything but
"OK" (no "Wrong FSYNC" is ever printed), and when no frame leaves the loop at
the ERR check every frame of the sequence is reported "OK", the tracked state
after it being its own FSYNC word. -/
theorem fsync_alternating_ok (ignore_error : Bool) (frames : List Buf)
    (h : Alternating frames) :
    (∀ rep ∈ (etiSync ignore_error frames).reports, rep.1 = "OK") ∧
    (NoErrAbort ignore_error frames →
      (etiSync ignore_error frames).reports = frames.map (fun p => ("OK", mem3 p 1)) ∧
      (etiSync ignore_error frames).aborted = false) := by
  obtain ⟨h1, h2⟩ := syncLoop_alternating ignore_error frames syncUnknown h
    (fun _ _ => Or.inl rfl)
  exact ⟨h1, fun hne => ⟨(h2 hne).1, (h2 hne).2.1⟩⟩

/-- C4 at the three frames A, B, A. -/
theorem fsync_alternating_ok_witness :
    Alternating [frameA, frameB, frameA] ∧
    ((∀ rep ∈ (etiSync false [frameA, frameB, frameA]).reports, rep.1 = "OK") ∧
    (NoErrAbort false [frameA, frameB, frameA] →
      (etiSync false [frameA, frameB, frameA]).reports
        = [frameA, frameB, frameA].map (fun p => ("OK", mem3 p 1)) ∧
      (etiSync false [frameA, frameB, frameA]).aborted = false)) :=
  ⟨alternating_ABA, fsync_alternating_ok false [frameA, frameB, frameA] alternating_ABA⟩

/-- C5: in a run whose frames all reach the FSYNC block, if the frames up to
frame k-1 (`pre0 ++ [l]`) alternate, frame k (`q`) carries the same constant as
frame k-1, and the frames from k on (`q :: post`) alternate again, then exactly
frame k is reported "Wrong FSYNC" and every other frame "OK"; the tracked state
right after frame k is 'unknown', and frame k+1 is accepted from it (reported
"OK" with its own FSYNC word as the new state). -/
theorem fsync_single_repeat (ignore_error : Bool) (pre0 : List Buf) (l q : Buf)
    (post : List Buf)
    (h1 : Alternating (pre0 ++ [l])) (h2 : Alternating (q :: post))
    (heq : mem3 q 1 = mem3 l 1)
    (hne : NoErrAbort ignore_error (pre0 ++ l :: q :: post)) :
    (etiSync ignore_error (pre0 ++ l :: q :: post)).reports
      = (pre0 ++ [l]).map (fun p => ("OK", mem3 p 1))
        ++ ("Wrong FSYNC", syncUnknown) :: post.map (fun p => ("OK", mem3 p 1)) ∧
    (etiSync ignore_error (pre0 ++ l :: q :: post)).aborted = false := by
  have hsplit : pre0 ++ l :: q :: post = (pre0 ++ [l]) ++ (q :: post) := by simp
  rw [hsplit] at hne ⊢
  obtain ⟨hnea, hneb⟩ := noErrAbort_append hne
  obtain ⟨-, -, happ⟩ := syncLoop_append ignore_error (pre0 ++ [l]) (q :: post) syncUnknown hnea
  obtain ⟨-, ha⟩ := syncLoop_alternating ignore_error (pre0 ++ [l]) syncUnknown h1
    (fun _ _ => Or.inl rfl)
  obtain ⟨ha1, -, ha3⟩ := ha hnea
  have hst : (syncLoop ignore_error syncUnknown (pre0 ++ [l])).prevsync = mem3 l 1 := by
    rw [ha3]; simp
  have hcl : Canonical l := h1.1 l (by simp)
  obtain ⟨hq0, hnep⟩ := noErrAbort_cons hneb
  obtain ⟨d, hd⟩ := syncFrame_pass ignore_error (mem3 l 1) q hq0
  rw [fsyncCheck_reject (mem3 l 1) q d (canonical_tracked l hcl) (Or.inr heq)] at hd
  have hpost : Alternating post :=
    ⟨fun x hx => h2.1 x (by simp [hx]), (List.chain'_cons'.mp h2.2).2⟩
  obtain ⟨-, hb⟩ := syncLoop_alternating ignore_error post syncUnknown hpost
    (fun _ _ => Or.inl rfl)
  obtain ⟨hb1, hb2, -⟩ := hb hnep
  unfold etiSync
  rw [happ, hst, syncLoop_cons_some _ _ _ _ _ hd, ha1]
  simp only [hb1, hb2, and_self]

/-- C5 at the frames A, B, B, A: frame 2 repeats the constant of frame 1. -/
theorem fsync_single_repeat_witness :
    Alternating ([frameA] ++ [frameB]) ∧ Alternating (frameB :: [frameA]) ∧
    mem3 frameB 1 = mem3 frameB 1 ∧
    NoErrAbort false ([frameA] ++ frameB :: frameB :: [frameA]) ∧
    ((etiSync false ([frameA] ++ frameB :: frameB :: [frameA])).reports
      = ([frameA] ++ [frameB]).map (fun p => ("OK", mem3 p 1))
        ++ ("Wrong FSYNC", syncUnknown) :: [frameA].map (fun p => ("OK", mem3 p 1)) ∧
    (etiSync false ([frameA] ++ frameB :: frameB :: [frameA])).aborted = false) :=
  ⟨alternating_AB, alternating_BA, rfl, by decide,
   fsync_single_repeat false [frameA] frameB frameB [frameA] alternating_AB alternating_BA
     rfl (by decide)⟩

/-- C6 (as stated) fails on the code.  Of three frames that all carry the
constant 07 3A B6, the third comes after two earlier frames and carries the
same constant as the frame before it, yet it is reported "OK" and the tracked
state after it is that constant, not 'unknown': the second frame has reset the
state, and from 'unknown' either constant is accepted. -/
theorem fsync_repeat_counterexample :
    mem3 frameA 1 = fsyncA ∧
    (etiSync false [frameA, frameA, frameA]).reports
      = [("OK", fsyncA), ("Wrong FSYNC", syncUnknown), ("OK", fsyncA)] ∧
    (etiSync false [frameA, frameA, frameA]).prevsync = fsyncA := by
  decide

/-- C6 (amended): for every frame `p` that reaches the FSYNC block in a run of
`eti_analyse`, if its FSYNC bytes are not one of the two constants, or are the
same as the FSYNC bytes of the previous frame and that previous frame was
reported "OK", then `p` is reported "Wrong FSYNC" and the tracked state after
it is 'unknown'; the loop is not halted: it goes on with the next frames from
the state 'unknown'. -/
theorem fsync_fault_resets (ignore_error : Bool) (pre : List Buf) (p : Buf)
    (rest : List Buf)
    (hne : NoErrAbort ignore_error (pre ++ [p]))
    (h : ¬ Canonical p ∨
      ∃ pre0 q, pre = pre0 ++ [q] ∧ mem3 p 1 = mem3 q 1 ∧
        ((etiSync ignore_error pre).reports.getLast?).map Prod.fst = some "OK") :
    (etiSync ignore_error pre).reports.length = pre.length ∧
    etiSync ignore_error (pre ++ p :: rest) =
      ⟨(etiSync ignore_error pre).reports ++
          ("Wrong FSYNC", syncUnknown) :: (syncLoop ignore_error syncUnknown rest).reports,
        (syncLoop ignore_error syncUnknown rest).prevsync,
        (syncLoop ignore_error syncUnknown rest).aborted⟩ := by
  obtain ⟨hnea, hneb⟩ := noErrAbort_append hne
  obtain ⟨-, hlen, happ⟩ := syncLoop_append ignore_error pre (p :: rest) syncUnknown hnea
  have ht : Tracked (syncLoop ignore_error syncUnknown pre).prevsync :=
    syncLoop_tracked ignore_error pre syncUnknown (Or.inl rfl)
  have hrej : ¬ Canonical p ∨ mem3 p 1 = (syncLoop ignore_error syncUnknown pre).prevsync := by
    rcases h with h | ⟨pre0, q, hpre, hpq, hok⟩
    · exact Or.inl h
    · right
      subst hpre
      rw [hpq]
      exact (syncLoop_snoc_ok ignore_error pre0 q syncUnknown (Or.inl rfl) hnea hok).symm
  obtain ⟨d, hd⟩ := syncFrame_pass ignore_error (syncLoop ignore_error syncUnknown pre).prevsync p
    (noErrAbort_cons hneb).1
  rw [fsyncCheck_reject _ p d ht hrej] at hd
  unfold etiSync
  refine ⟨hlen, ?_⟩
  rw [happ, syncLoop_cons_some _ _ _ _ _ hd]

/-- C6 (amended) at the frames A, B followed by B again and then A. -/
theorem fsync_fault_resets_witness :
    NoErrAbort false ([frameA, frameB] ++ [frameB]) ∧
    (mem3 frameB 1 = mem3 frameB 1 ∧
      ((etiSync false [frameA, frameB]).reports.getLast?).map Prod.fst = some "OK") ∧
    ((etiSync false [frameA, frameB]).reports.length = [frameA, frameB].length ∧
    etiSync false ([frameA, frameB] ++ frameB :: [frameA]) =
      ⟨(etiSync false [frameA, frameB]).reports ++
          ("Wrong FSYNC", syncUnknown) :: (syncLoop false syncUnknown [frameA]).reports,
        (syncLoop false syncUnknown [frameA]).prevsync,
        (syncLoop false syncUnknown [frameA]).aborted⟩) :=
  ⟨by decide, ⟨rfl, by decide⟩,
   fsync_fault_resets false [frameA, frameB] frameB [frameA] (by decide)
     (Or.inr ⟨[frameA], frameB, rfl, rfl, by decide⟩)⟩

/-- C7: the frame loop is left at the ERR check exactly when byte 0 of the frame
differs from 0xFF and the ignore-errors mode is off; when byte 0 is 0xFF or the
mode is on, the frame goes through the FSYNC block and on into the decoding;
when the loop is left, the frame is not reported by the FSYNC block, the
tracked state keeps the value it had before the frame, and no later frame is
processed. -/
theorem err_check_abort (ignore_error : Bool) (s : List Nat) (p : Buf) (rest : List Buf) :
    (syncFrame ignore_error s p = none ↔ (p 0 ≠ 0xFF ∧ ignore_error = false)) ∧
    ((p 0 = 0xFF ∨ ignore_error = true) →
      ∃ d, syncFrame ignore_error s p = some (fsyncCheck s p d) ∧
        syncLoop ignore_error s (p :: rest) =
          ⟨fsyncCheck s p d :: (syncLoop ignore_error (fsyncCheck s p d).2 rest).reports,
            (syncLoop ignore_error (fsyncCheck s p d).2 rest).prevsync,
            (syncLoop ignore_error (fsyncCheck s p d).2 rest).aborted⟩) ∧
    ((p 0 ≠ 0xFF ∧ ignore_error = false) →
      syncLoop ignore_error s (p :: rest) = ⟨[], s, true⟩) := by
  refine ⟨syncFrame_none_iff ignore_error s p, ?_, ?_⟩
  · intro h
    obtain ⟨d, hd⟩ := syncFrame_pass ignore_error s p h
    exact ⟨d, hd, syncLoop_cons_some _ _ _ _ _ hd⟩
  · intro h
    exact syncLoop_cons_none _ _ _ _ ((syncFrame_none_iff ignore_error s p).mpr h)

/-! ## Lemmas on the CRC loops -/

theorem isBytes_bufOf (l : List Nat) (h : ∀ b ∈ l, b < 256) : IsBytes (bufOf l) := by
  intro i
  unfold bufOf
  rw [List.getD_eq_getElem?_getD]
  cases hi : l[i]? with
  | none => simp
  | some b => simpa using h b (List.mem_iff_getElem?.mpr ⟨i, hi⟩)

theorem window_succ (p : Buf) (lo n : Nat) :
    window p lo (n + 1) = p lo :: window p (lo + 1) n := by
  unfold window
  rw [List.range_succ_eq_map, List.map_cons, List.map_map]
  simp only [Nat.add_zero, List.cons.injEq, true_and]
  apply List.map_congr_left
  intro k _
  simp only [Function.comp_apply]
  congr 1
  omega

theorem window_append (p : Buf) (a b : Nat) :
    ∀ lo, window p lo (a + b) = window p lo a ++ window p (lo + a) b := by
  induction a with
  | zero => intro lo; simp [window]
  | succ a ih =>
    intro lo
    rw [show a + 1 + b = (a + b) + 1 by omega, window_succ, window_succ, ih (lo + 1)]
    rw [show lo + 1 + a = lo + (a + 1) by omega]
    rfl

theorem window_congr (p q : Buf) (n : Nat) :
    ∀ lo, (∀ i, lo ≤ i → i < lo + n → p i = q i) → window p lo n = window q lo n := by
  induction n with
  | zero => intro lo _; simp [window]
  | succ n ih =>
    intro lo h
    rw [window_succ, window_succ, h lo (by omega) (by omega),
      ih (lo + 1) (fun i h1 h2 => h i (by omega) (by omega))]

theorem window_one (p : Buf) (lo : Nat) : window p lo 1 = [p lo] := by
  rw [window_succ]; simp [window]

/-- The index loop feeds the bytes of its window, in order, to the accumulator. -/
theorem crcLoop_eq_crc16 (upd : Nat → Nat → Nat) (p : Buf) :
    ∀ (n i crc : Nat), crcLoop upd p n i crc = crc16 upd crc (window p i n) := by
  intro n
  induction n with
  | zero => intro i crc; simp [crcLoop, crc16, window]
  | succ n ih =>
    intro i crc
    rw [window_succ]
    simp only [crcLoop, crc16, List.foldl_cons]
    rw [ih]
    rfl

theorem crc16_append (upd : Nat → Nat → Nat) (seed : Nat) (a b : List Nat) :
    crc16 upd seed (a ++ b) = crc16 upd (crc16 upd seed a) b := by
  simp [crc16, List.foldl_append]

theorem crc16_lt (upd : Nat → Nat → Nat) (l : List Nat) :
    ∀ seed, seed < 0x10000 → crc16 upd seed l < 0x10000 := by
  induction l with
  | nil => intro seed h; simpa [crc16] using h
  | cons b l ih =>
    intro seed _
    simp only [crc16, List.foldl_cons]
    exact ih _ (Nat.mod_lt _ (by norm_num))

theorem xor_ffff (c : Nat) (hc : c < 0x10000) : c ^^^ 0xFFFF = 0xFFFF - c := by
  apply Nat.eq_of_testBit_eq
  intro i
  have h1 : (0xFFFF : Nat) = 2 ^ 16 - 1 := by norm_num
  have h2 : 0xFFFF - c = 2 ^ 16 - (c + 1) := by omega
  rw [h2, Nat.testBit_two_pow_sub_succ (by simpa using hc), Nat.testBit_xor, h1,
    Nat.testBit_two_pow_sub_one]
  by_cases hi : i < 16
  · simp [hi]
  · have : c.testBit i = false := by
      apply Nat.testBit_lt_two_pow
      calc c < 2 ^ 16 := by simpa using hc
        _ ≤ 2 ^ i := Nat.pow_le_pow_right (by norm_num) (by omega)
    simp [hi, this]

/-- On a 16-bit value `crc =~ crc` is the bitwise complement of the 16 bits. -/
theorem not16_eq_finalize (c : Nat) (hc : c < 0x10000) : not16 c = finalize c := by
  unfold not16 finalize
  rw [xor_ffff c hc]
  omega

theorem not16_inj (a b : Nat) (ha : a < 0x10000) (hb : b < 0x10000)
    (h : not16 a = not16 b) : a = b := by
  unfold not16 at h
  omega

theorem u16_of_bytes (p : Buf) (hb : IsBytes p) (a : Nat) :
    (p a * 256 + p (a + 1)) % 0x10000 = read_u16_be p a := by
  unfold read_u16_be
  have h1 := hb a
  have h2 := hb (a + 1)
  omega

theorem crc_mismatch_ne (x : String) : "CRC Mismatch: " ++ x ≠ "CRC OK" := by
  intro h
  have := congrArg String.data h
  simp at this

theorem fib_crc_mismatch_ne (x : String) : "FIB CRC Mismatch: " ++ x ≠ "FIB CRC OK" := by
  intro h
  have := congrArg String.data h
  simp at this

theorem headerCrc_eq (upd : Nat → Nat → Nat) (p : Buf) :
    headerCrc upd p = finalize (crc16 upd 0xFFFF (span p 4 (8 + 4 * nst p + 1))) := by
  unfold headerCrc span
  rw [crcLoop_eq_crc16, not16_eq_finalize _ (crc16_lt upd _ _ (by norm_num))]

theorem headerCrcDesc_ok_iff (upd : Nat → Nat → Nat) (p : Buf) :
    headerCrcDesc upd p = "CRC OK" ↔ headerCrc upd p = headerCrch p := by
  unfold headerCrcDesc
  by_cases h : headerCrc upd p = headerCrch p
  · simp [h]
  · rw [if_neg h]
    exact ⟨fun hc => absurd hc (crc_mismatch_ne _), fun hc => absurd hc h⟩

theorem fibCrc_eq (upd : Nat → Nat → Nat) (p : Buf) (fib : Nat) :
    fibCrc upd p fib = finalize (crc16 upd 0xFFFF (window p fib 30)) := by
  unfold fibCrc
  rw [crcLoop_eq_crc16, not16_eq_finalize _ (crc16_lt upd _ _ (by norm_num))]

theorem fibCrcDesc_ok_iff (upd : Nat → Nat → Nat) (p : Buf) (fib : Nat) :
    fibCrcDesc upd p fib = "FIB CRC OK" ↔ fibCrc upd p fib = fibCrch p fib := by
  unfold fibCrcDesc
  by_cases h : fibCrc upd p fib = fibCrch p fib
  · simp [h]
  · rw [if_neg h]
    exact ⟨fun hc => absurd hc (fib_crc_mismatch_ne _), fun hc => absurd hc h⟩

theorem figScan_some (p : Buf) (fib : Nat) : ∃ r, figScan p fib = some r := by
  obtain ⟨r, h⟩ := figScanLoop_terminates p 29 fib 0 (by omega) (by omega)
  exact ⟨r, figScanLoop_fuel_mono p 29 fib 0 r h 3⟩

/-- The loop over the FIBs: iteration `k` works on the pointer `fib + 32 * k`. -/
theorem fibLoop_spec (upd : Nat → Nat → Nat) (p : Buf) :
    ∀ (n i fib : Nat), ∃ reps, fibLoop upd p n i fib = some reps ∧ reps.length = n ∧
      ∀ k, k < n → ∃ rep, reps[k]? = some rep ∧ rep.fibIndex = i + k ∧
        rep.fib = fib + 32 * k ∧ figScan p (fib + 32 * k) = some rep.scan ∧
        rep.crcDesc = fibCrcDesc upd p (fib + 32 * k) := by
  intro n
  induction n with
  | zero => intro i fib; exact ⟨[], rfl, rfl, fun k hk => absurd hk (by omega)⟩
  | succ n ih =>
    intro i fib
    obtain ⟨scan, hscan⟩ := figScan_some p fib
    obtain ⟨reps, hreps, hlen, hk⟩ := ih (i + 1) (fib + 32)
    refine ⟨⟨i, fib, scan, fibCrcDesc upd p fib⟩ :: reps, ?_, by simp [hlen], ?_⟩
    · simp [fibLoop, hscan, hreps]
    · intro k hkn
      cases k with
      | zero => exact ⟨⟨i, fib, scan, fibCrcDesc upd p fib⟩, by simp, rfl, rfl, by simpa using hscan, rfl⟩
      | succ k =>
        obtain ⟨rep, h1, h2, h3, h4, h5⟩ := hk k (by omega)
        refine ⟨rep, by simpa using h1, by omega, by omega, ?_, ?_⟩
        · rw [show fib + 32 * (k + 1) = fib + 32 + 32 * k by omega]; exact h4
        · rw [show fib + 32 * (k + 1) = fib + 32 + 32 * k by omega]; exact h5

/-! ## Lemmas on the CRC-CCITT byte update -/

theorem xor_mod_two_pow (a b n : Nat) : (a ^^^ b) % 2 ^ n = (a % 2 ^ n) ^^^ (b % 2 ^ n) := by
  apply Nat.eq_of_testBit_eq
  intro i
  simp only [Nat.testBit_mod_two_pow, Nat.testBit_xor]
  by_cases h : i < n <;> simp [h]

theorem xor_mod_65536 (a b : Nat) : (a ^^^ b) % 65536 = (a % 65536) ^^^ (b % 65536) := by
  have := xor_mod_two_pow a b 16
  simpa using this

theorem and_top_bit (x : Nat) (hx : x < 0x10000) : x &&& 0x8000 ≠ 0 ↔ 0x8000 ≤ x := by
  have h : x &&& 2 ^ 15 = (x.testBit 15).toNat * 2 ^ 15 := Nat.and_two_pow x 15
  rw [show (0x8000 : Nat) = 2 ^ 15 by norm_num, h, Nat.testBit_to_div_mod]
  by_cases h2 : x / 2 ^ 15 % 2 = 1
  · simp [h2]; omega
  · simp [h2]; omega

theorem crcShift_lt (x : Nat) : crcShift x < 0x10000 := by
  unfold crcShift
  split <;> exact Nat.mod_lt _ (by norm_num)

theorem crcShift_hi (x : Nat) (hx : x < 0x10000) (h : 0x8000 ≤ x) :
    crcShift x = (2 * x - 0x10000) ^^^ 0x1021 := by
  unfold crcShift
  rw [if_pos ((and_top_bit x hx).mpr h), xor_mod_65536, Nat.shiftLeft_eq]
  have e1 : x * 2 ^ 1 % 65536 = 2 * x - 65536 := by omega
  have e2 : 4129 % 65536 = 4129 := by norm_num
  rw [e1, e2]

theorem crcShift_lo (x : Nat) (hx : x < 0x10000) (h : x < 0x8000) :
    crcShift x = 2 * x := by
  unfold crcShift
  have : ¬ (x &&& 0x8000 ≠ 0) := fun hc => by
    have := (and_top_bit x hx).mp hc; omega
  rw [if_neg this, Nat.shiftLeft_eq]
  omega

theorem xor_odd (a : Nat) (ha : a % 2 = 0) : (a ^^^ 0x1021) % 2 = 1 := by
  have := xor_mod_two_pow a 0x1021 1
  simp only [pow_one] at this
  rw [this, ha]
  decide

theorem crcShift_inj (x y : Nat) (hx : x < 0x10000) (hy : y < 0x10000)
    (h : crcShift x = crcShift y) : x = y := by
  by_cases h1 : 0x8000 ≤ x <;> by_cases h2 : 0x8000 ≤ y
  · rw [crcShift_hi x hx h1, crcShift_hi y hy h2, Nat.xor_left_inj] at h
    omega
  · rw [crcShift_hi x hx h1, crcShift_lo y hy (by omega)] at h
    have := xor_odd (2 * x - 0x10000) (by omega)
    omega
  · rw [crcShift_lo x hx (by omega), crcShift_hi y hy h2] at h
    have := xor_odd (2 * y - 0x10000) (by omega)
    omega
  · rw [crcShift_lo x hx (by omega), crcShift_lo y hy (by omega)] at h
    omega

theorem crcShift_iter_lt (n x : Nat) (hx : x < 0x10000) : crcShift^[n] x < 0x10000 := by
  cases n with
  | zero => simpa using hx
  | succ n => rw [Function.iterate_succ_apply']; exact crcShift_lt _

theorem crcShift_iter_inj (n : Nat) : ∀ x y, x < 0x10000 → y < 0x10000 →
    crcShift^[n] x = crcShift^[n] y → x = y := by
  induction n with
  | zero => intro x y _ _ h; simpa using h
  | succ n ih =>
    intro x y hx hy h
    rw [Function.iterate_succ_apply, Function.iterate_succ_apply] at h
    exact crcShift_inj x y hx hy (ih _ _ (crcShift_lt x) (crcShift_lt y) h)

theorem byte_shift_lt (c : Nat) : (c &&& 0xFF) <<< 8 < 0x10000 := by
  have h : c &&& 0xFF = c % 256 := Nat.and_pow_two_sub_one_eq_mod c 8
  rw [h, Nat.shiftLeft_eq]
  omega

theorem update_crc_ccitt_lt (s c : Nat) : update_crc_ccitt s c < 0x10000 :=
  crcShift_iter_lt 8 _ (Nat.mod_lt _ (by norm_num))

theorem update_crc_ccitt_inj_state (c s1 s2 : Nat) (h1 : s1 < 0x10000) (h2 : s2 < 0x10000)
    (h : update_crc_ccitt s1 c = update_crc_ccitt s2 c) : s1 = s2 := by
  unfold update_crc_ccitt at h
  have hm := byte_shift_lt c
  have b1 : s1 ^^^ (c &&& 0xFF) <<< 8 < 2 ^ 16 := Nat.xor_lt_two_pow (by simpa using h1) (by simpa using hm)
  have b2 : s2 ^^^ (c &&& 0xFF) <<< 8 < 2 ^ 16 := Nat.xor_lt_two_pow (by simpa using h2) (by simpa using hm)
  have := crcShift_iter_inj 8 _ _ (Nat.mod_lt _ (by norm_num)) (Nat.mod_lt _ (by norm_num)) h
  rw [Nat.mod_eq_of_lt (by simpa using b1), Nat.mod_eq_of_lt (by simpa using b2)] at this
  exact Nat.xor_left_inj.mp this

theorem update_crc_ccitt_inj_byte (s c1 c2 : Nat) (hs : s < 0x10000) (h1 : c1 < 256) (h2 : c2 < 256)
    (h : update_crc_ccitt s c1 = update_crc_ccitt s c2) : c1 = c2 := by
  unfold update_crc_ccitt at h
  have hs' : s < 2 ^ 16 := by simpa using hs
  have b1 : s ^^^ (c1 &&& 0xFF) <<< 8 < 2 ^ 16 := Nat.xor_lt_two_pow hs' (by simpa using byte_shift_lt c1)
  have b2 : s ^^^ (c2 &&& 0xFF) <<< 8 < 2 ^ 16 := Nat.xor_lt_two_pow hs' (by simpa using byte_shift_lt c2)
  have := crcShift_iter_inj 8 _ _ (Nat.mod_lt _ (by norm_num)) (Nat.mod_lt _ (by norm_num)) h
  rw [Nat.mod_eq_of_lt (by simpa using b1), Nat.mod_eq_of_lt (by simpa using b2)] at this
  have h3 := Nat.xor_right_inj.mp this
  have e1 : c1 &&& 0xFF = c1 % 256 := Nat.and_pow_two_sub_one_eq_mod c1 8
  have e2 : c2 &&& 0xFF = c2 % 256 := Nat.and_pow_two_sub_one_eq_mod c2 8
  rw [e1, e2, Nat.shiftLeft_eq, Nat.shiftLeft_eq] at h3
  omega

theorem crc16_ccitt_inj (l : List Nat) :
    ∀ s1 s2, s1 < 0x10000 → s2 < 0x10000 →
      crc16 update_crc_ccitt s1 l = crc16 update_crc_ccitt s2 l → s1 = s2 := by
  induction l with
  | nil => intro s1 s2 _ _ h; simpa [crc16] using h
  | cons b l ih =>
    intro s1 s2 h1 h2 h
    simp only [crc16, List.foldl_cons] at h
    have := ih _ _ (Nat.mod_lt _ (by norm_num)) (Nat.mod_lt _ (by norm_num)) h
    rw [Nat.mod_eq_of_lt (update_crc_ccitt_lt s1 b),
      Nat.mod_eq_of_lt (update_crc_ccitt_lt s2 b)] at this
    exact update_crc_ccitt_inj_state b s1 s2 h1 h2 this

theorem window_setByte_before (p : Buf) (k v lo n : Nat) (h : lo + n ≤ k) :
    window (setByte p k v) lo n = window p lo n := by
  apply window_congr
  intro i _ h2
  simp [setByte, show i ≠ k by omega]

theorem window_setByte_after (p : Buf) (k v lo n : Nat) (h : k < lo) :
    window (setByte p k v) lo n = window p lo n := by
  apply window_congr
  intro i h1 _
  simp [setByte, show i ≠ k by omega]

/-- Replacing one byte inside a window changes the CRC-CCITT accumulator. -/
theorem crc16_window_setByte_ne (p : Buf) (hb : IsBytes p) (lo n k v : Nat)
    (h1 : lo ≤ k) (h2 : k < lo + n) (hv : v < 256) (hne : v ≠ p k) :
    crc16 update_crc_ccitt 0xFFFF (window (setByte p k v) lo n)
      ≠ crc16 update_crc_ccitt 0xFFFF (window p lo n) := by
  have hn : n = (k - lo) + (1 + (lo + n - k - 1)) := by omega
  intro h
  rw [hn, window_append, window_append, window_append, window_append] at h
  rw [window_setByte_before p k v lo (k - lo) (by omega),
    window_setByte_after p k v (lo + (k - lo) + 1) _ (by omega)] at h
  rw [crc16_append, crc16_append, crc16_append, crc16_append] at h
  have hs := crc16_lt update_crc_ccitt (window p lo (k - lo)) 0xFFFF (by norm_num)
  have hmid := crc16_ccitt_inj _ _ _ (crc16_lt _ _ _ hs) (crc16_lt _ _ _ hs) h
  rw [show lo + (k - lo) = k by omega, window_one, window_one] at hmid
  simp only [crc16, List.foldl_cons, List.foldl_nil] at hmid
  rw [Nat.mod_eq_of_lt (update_crc_ccitt_lt _ _),
    Nat.mod_eq_of_lt (update_crc_ccitt_lt _ _)] at hmid
  have := update_crc_ccitt_inj_byte _ _ _ hs (by simpa [setByte] using hv) (hb k) hmid
  simp [setByte] at this
  exact hne this

theorem isBytes_sampleFrame : IsBytes sampleFrame :=
  isBytes_bufOf _ (by decide)

/-! ## CRC windows (C8 - C10) -/

/-- C8: for every frame with `nst` = n, the header check prints "CRC OK" exactly
when the 16-bit complement of the accumulator seeded with 0xFFFF and fed the
frame bytes 4 .. 8+4n+1 in order, these and no others, equals the big-endian
16-bit value of the frame bytes 8+4n+2 and 8+4n+3. -/
theorem header_crc_window (upd : Nat → Nat → Nat) (p : Buf) (n : Nat)
    (hb : IsBytes p) (hn : nst p = n) :
    headerCrcDesc upd p = "CRC OK" ↔
      finalize (crc16 upd 0xFFFF (span p 4 (8 + 4 * n + 1)))
        = read_u16_be p (8 + 4 * n + 2) := by
  subst hn
  rw [headerCrcDesc_ok_iff, headerCrc_eq, ← u16_of_bytes p hb]
  rfl

/-- C8 at the sample frame, whose header CRC is right. -/
theorem header_crc_window_witness :
    IsBytes sampleFrame ∧ nst sampleFrame = 0 ∧
    (headerCrcDesc update_crc_ccitt sampleFrame = "CRC OK" ↔
      finalize (crc16 update_crc_ccitt 0xFFFF (span sampleFrame 4 (8 + 4 * 0 + 1)))
        = read_u16_be sampleFrame (8 + 4 * 0 + 2)) :=
  ⟨isBytes_sampleFrame, by decide,
   header_crc_window update_crc_ccitt sampleFrame 0 isBytes_sampleFrame (by decide)⟩

/-- C9: with the standard CRC-CCITT byte update as the CRC primitive, for every
frame and every position k in the header CRC window 4 .. 8+4*nst+1, replacing
the byte at k by a different byte value that leaves `nst` as it was changes the
computed header CRC, so that a frame whose header check printed "CRC OK" does
not print it after the change. -/
theorem header_crc_detects_change (p : Buf) (hb : IsBytes p) (k v : Nat)
    (hk1 : 4 ≤ k) (hk2 : k ≤ 8 + 4 * nst p + 1) (hv : v < 256) (hne : v ≠ p k)
    (hn : nst (setByte p k v) = nst p) :
    headerCrc update_crc_ccitt (setByte p k v) ≠ headerCrc update_crc_ccitt p ∧
    (headerCrcDesc update_crc_ccitt p = "CRC OK" →
      headerCrcDesc update_crc_ccitt (setByte p k v) ≠ "CRC OK") := by
  have hcrc : headerCrc update_crc_ccitt (setByte p k v) ≠ headerCrc update_crc_ccitt p := by
    unfold headerCrc
    rw [hn, crcLoop_eq_crc16, crcLoop_eq_crc16]
    intro h
    have h2 := not16_inj _ _ (crc16_lt _ _ _ (by norm_num)) (crc16_lt _ _ _ (by norm_num)) h
    exact crc16_window_setByte_ne p hb 4 _ k v hk1 (by omega) hv hne h2
  have hch : headerCrch (setByte p k v) = headerCrch p := by
    unfold headerCrch
    rw [hn]
    simp [setByte, show 8 + 4 * nst p + 2 ≠ k by omega, show 8 + 4 * nst p + 3 ≠ k by omega]
  refine ⟨hcrc, fun hok hok2 => ?_⟩
  rw [headerCrcDesc_ok_iff] at hok hok2
  rw [hch, ← hok] at hok2
  exact hcrc hok2

/-- C9 at the sample frame with its frame count byte changed from 1 to 2. -/
theorem header_crc_detects_change_witness :
    IsBytes sampleFrame ∧ 4 ≤ 4 ∧ 4 ≤ 8 + 4 * nst sampleFrame + 1 ∧ 2 < 256 ∧
    2 ≠ sampleFrame 4 ∧ nst (setByte sampleFrame 4 2) = nst sampleFrame ∧
    (headerCrc update_crc_ccitt (setByte sampleFrame 4 2)
        ≠ headerCrc update_crc_ccitt sampleFrame ∧
      (headerCrcDesc update_crc_ccitt sampleFrame = "CRC OK" →
        headerCrcDesc update_crc_ccitt (setByte sampleFrame 4 2) ≠ "CRC OK")) :=
  ⟨isBytes_sampleFrame, by decide, by decide, by decide, by decide, by decide,
   header_crc_detects_change sampleFrame isBytes_sampleFrame 4 2 (by decide) (by decide)
     (by decide) (by decide) (by decide)⟩

/-- C10: for every frame with FIC present the walk over the FIBs ends and
reports `ficl*4/32` FIBs; the report of FIB i prints "FIB CRC OK" exactly when
the 16-bit complement of the accumulator seeded with 0xFFFF and fed the 30
frame bytes from 12 + 4*nst + 32*i on equals the big-endian 16-bit value of the
two bytes after them; the pointer of FIB i is 12 + 4*nst + 32*i whatever the
FIG scans of this and the earlier FIBs found. -/
theorem fib_crc_window (upd : Nat → Nat → Nat) (p : Buf) (hb : IsBytes p)
    (hf : ficf p = 1) :
    ∃ reps, ficWalk upd p = some reps ∧ reps.length = ficl p * 4 / 32 ∧
      ∀ i, i < ficl p * 4 / 32 →
        ∃ rep, reps[i]? = some rep ∧ rep.fibIndex = i ∧
          rep.fib = 12 + 4 * nst p + 32 * i ∧
          (rep.crcDesc = "FIB CRC OK" ↔
            finalize (crc16 upd 0xFFFF (window p (12 + 4 * nst p + 32 * i) 30))
              = read_u16_be p (12 + 4 * nst p + 32 * i + 30)) := by
  obtain ⟨reps, h1, h2, h3⟩ := fibLoop_spec upd p (ficl p * 4 / 32) 0 (12 + 4 * nst p)
  refine ⟨reps, by simp [ficWalk, hf, h1], h2, fun i hi => ?_⟩
  obtain ⟨rep, r1, r2, r3, -, r5⟩ := h3 i hi
  refine ⟨rep, r1, by omega, r3, ?_⟩
  rw [r5, fibCrcDesc_ok_iff, fibCrc_eq, ← u16_of_bytes p hb]
  rfl

/-- C10 at the sample frame. -/
theorem fib_crc_window_witness :
    IsBytes sampleFrame ∧ ficf sampleFrame = 1 ∧
    ∃ reps, ficWalk update_crc_ccitt sampleFrame = some reps ∧
      reps.length = ficl sampleFrame * 4 / 32 ∧
      ∀ i, i < ficl sampleFrame * 4 / 32 →
        ∃ rep, reps[i]? = some rep ∧ rep.fibIndex = i ∧
          rep.fib = 12 + 4 * nst sampleFrame + 32 * i ∧
          (rep.crcDesc = "FIB CRC OK" ↔
            finalize (crc16 update_crc_ccitt 0xFFFF
                (window sampleFrame (12 + 4 * nst sampleFrame + 32 * i) 30))
              = read_u16_be sampleFrame (12 + 4 * nst sampleFrame + 32 * i + 30)) :=
  ⟨isBytes_sampleFrame, by decide,
   fib_crc_window update_crc_ccitt sampleFrame isBytes_sampleFrame (by decide)⟩

/-! ## Lemmas on the frame characterisation -/

theorem and_0x80_cases (x : Nat) : x &&& 0x80 = 0 ∨ x &&& 0x80 = 0x80 := by
  have h : x &&& 2 ^ 7 = (x.testBit 7).toNat * 2 ^ 7 := Nat.and_two_pow x 7
  rw [show (0x80 : Nat) = 2 ^ 7 by norm_num, h]
  cases x.testBit 7 <;> simp

theorem ficf_cases (p : Buf) : ficf p = 0 ∨ ficf p = 1 := by
  unfold ficf
  rcases and_0x80_cases (p 5) with h | h <;> rw [h] <;> simp

theorem mid_le (p : Buf) : mid p ≤ 3 := by
  unfold mid
  have h : p 6 &&& 0x18 ≤ 0x18 := Nat.and_le_right
  rw [Nat.shiftRight_eq_div_pow]
  omega

theorem nst_le (p : Buf) : nst p ≤ 127 := by
  unfold nst
  exact Nat.and_le_right

theorem tpl_lt (p : Buf) (i : Nat) : tpl p i < 64 := by
  unfold tpl
  have h : p (10 + 4 * i) &&& 0xFC ≤ 0xFC := Nat.and_le_right
  rw [Nat.shiftRight_eq_div_pow]
  omega

theorem ficWalk_length (upd : Nat → Nat → Nat) (p : Buf) :
    ∃ reps, ficWalk upd p = some reps ∧
      reps.length = if ficf p = 1 then ficl p * 4 / 32 else 0 := by
  unfold ficWalk
  by_cases h : ficf p = 1
  · obtain ⟨reps, h1, h2, -⟩ := fibLoop_spec upd p (ficl p * 4 / 32) 0 (12 + 4 * nst p)
    exact ⟨reps, by rw [if_pos h]; exact h1, by rw [if_pos h]; exact h2⟩
  · exact ⟨[], by rw [if_neg h], by rw [if_neg h]; rfl⟩

/-! ## Frame characterisation (C11) -/

/-- C11: for every frame `ficl` is 0 when `ficf` is 0, 32 when `ficf` is 1 and the
mode identity field is 3, and 24 when `ficf` is 1 and the mode identity field
has any other value (`ficf` is 0 or 1, the mode identity field at most 3); the
number of FIBs `ficl*4/32` is then 0, 4 and 3, and it is the number of FIBs the
walk over the FIC reports (none without FIC). -/
theorem ficl_by_mode (p : Buf) :
    (ficf p = 0 ∨ ficf p = 1) ∧ mid p ≤ 3 ∧
    (ficf p = 0 → ficl p = 0 ∧ ficl p * 4 / 32 = 0) ∧
    (ficf p = 1 → mid p = 3 → ficl p = 32 ∧ ficl p * 4 / 32 = 4) ∧
    (ficf p = 1 → mid p ≠ 3 → ficl p = 24 ∧ ficl p * 4 / 32 = 3) ∧
    (∀ upd, ∃ reps, ficWalk upd p = some reps ∧
      reps.length = if ficf p = 1 then ficl p * 4 / 32 else 0) := by
  refine ⟨ficf_cases p, mid_le p, ?_, ?_, ?_, fun upd => ficWalk_length upd p⟩
  · intro h; simp [ficl, h]
  · intro h hm; simp [ficl, h, hm]
  · intro h hm; simp [ficl, h, hm]

/-! ## Lemmas on the stream characterisation and the demultiplexer -/

theorem table_set_same (t : Table) (i v : Nat) : t.set i v i = v := by
  simp [Table.set]

theorem table_set_other (t : Table) (i v j : Nat) (h : j ≠ i) : t.set i v j = t j := by
  simp [Table.set, h]

/-- The loop over the streams: what it has written and reported when it ends. -/
theorem stcLoop_spec (p : Buf) (selected : Nat → Bool) :
    ∀ (n i : Nat) (st : StcState),
      (stcLoop p selected n i st).writes = st.writes ++ List.range' i n ∧
      (stcLoop p selected n i st).reports
        = st.reports ++ (List.range' i n).map (stcReportOf p selected) ∧
      (∀ j, i ≤ j → j < i + n →
        (stcLoop p selected n i st).stl j = stlField p j ∧
        (stcLoop p selected n i st).sad j = sadField p j) ∧
      (∀ j, j < i → (stcLoop p selected n i st).stl j = st.stl j ∧
        (stcLoop p selected n i st).sad j = st.sad j) := by
  intro n
  induction n with
  | zero =>
    intro i st
    refine ⟨by simp [stcLoop], by simp [stcLoop], fun j h1 h2 => by omega, fun j _ => ⟨rfl, rfl⟩⟩
  | succ n ih =>
    intro i st
    obtain ⟨st1, hst1⟩ : ∃ st1 : StcState, st1 =
        ⟨st.sad.set i (sadField p i), st.stl.set i (stlField p i), st.writes ++ [i],
          st.reports ++ [⟨i, scid p i, (st.sad.set i (sadField p i)) i, tplDesc (tpl p i),
            stlDesc ((st.stl.set i (stlField p i)) i),
            if selected i then some ((st.stl.set i (stlField p i)) i / 3, i) else none⟩]⟩ :=
      ⟨_, rfl⟩
    have hstep : stcLoop p selected (n + 1) i st = stcLoop p selected n (i + 1) st1 := by
      rw [hst1]; rfl
    have e1 : st1.sad = st.sad.set i (sadField p i) := by rw [hst1]
    have e2 : st1.stl = st.stl.set i (stlField p i) := by rw [hst1]
    have e3 : st1.writes = st.writes ++ [i] := by rw [hst1]
    have e4 : st1.reports = st.reports ++ [stcReportOf p selected i] := by
      rw [hst1]; simp [stcReportOf, table_set_same]
    obtain ⟨h1, h2, h3, h4⟩ := ih (i + 1) st1
    rw [hstep]
    refine ⟨?_, ?_, ?_, ?_⟩
    · rw [h1, e3, List.range'_succ]; simp
    · rw [h2, e4, List.range'_succ]; simp
    · intro j hj1 hj2
      by_cases hji : j = i
      · subst hji
        have := h4 j (by omega)
        rw [e1, e2, table_set_same, table_set_same] at this
        exact this
      · exact h3 j (by omega) (by omega)
    · intro j hj
      have := h4 j (by omega)
      rw [e1, e2, table_set_other _ _ _ _ (by omega), table_set_other _ _ _ _ (by omega)] at this
      exact this

theorem stcParse_writes (p : Buf) (selected : Nat → Bool) (sad0 stl0 : Table) :
    (stcParse p selected sad0 stl0).writes = List.range (nst p) := by
  unfold stcParse
  rw [(stcLoop_spec p selected (nst p) 0 _).1, List.range_eq_range']
  simp

theorem stcParse_reports (p : Buf) (selected : Nat → Bool) (sad0 stl0 : Table) :
    (stcParse p selected sad0 stl0).reports
      = (List.range (nst p)).map (stcReportOf p selected) := by
  unfold stcParse
  rw [(stcLoop_spec p selected (nst p) 0 _).2.1, List.range_eq_range']
  simp

theorem stcParse_report_at (p : Buf) (selected : Nat → Bool) (sad0 stl0 : Table)
    (i : Nat) (hi : i < nst p) :
    (stcParse p selected sad0 stl0).reports[i]? = some (stcReportOf p selected i) := by
  rw [stcParse_reports]
  simp [List.getElem?_map, List.getElem?_range hi]

theorem stcParse_stl (p : Buf) (selected : Nat → Bool) (sad0 stl0 : Table)
    (j : Nat) (hj : j < nst p) :
    (stcParse p selected sad0 stl0).stl j = stlField p j := by
  unfold stcParse
  exact ((stcLoop_spec p selected (nst p) 0 _).2.2.1 j (by omega) (by omega)).1

theorem plevelstr_table :
    ∀ t, t < 64 → (t &&& 0x20) >>> 5 = 1 →
      t &&& 0x03 ≤ 3 ∧ (t &&& 0x1c) >>> 2 ≤ 7 ∧
      ((t &&& 0x1c) >>> 2 ≤ 1 →
        eepProfile ((t &&& 0x1c) >>> 2) (t &&& 0x03) = some (plevelstr t)) ∧
      (2 ≤ (t &&& 0x1c) >>> 2 →
        eepProfile ((t &&& 0x1c) >>> 2) (t &&& 0x03) = none ∧
        plevelstr t = "Unknown option " ++ String.singleton (Char.ofNat ((t &&& 0x1c) >>> 2))) := by
  decide

theorem tsw_zero_iff : ∀ t, t < 64 → (tsw t = 0 ↔ (t >>> 3) &&& 1 = 0) := by
  decide

theorem uepidx_eq_mod (t : Nat) : uepidx t = t % 8 :=
  Nat.and_pow_two_sub_one_eq_mod t 3

/-- With at most 64 streams every index the loop over the streams writes is an
index of the declared tables. -/
theorem stcParse_writes_valid (p : Buf) (selected : Nat → Bool) (sad0 stl0 : Table)
    (h : nst p ≤ tableEntries) :
    ∀ i ∈ (stcParse p selected sad0 stl0).writes, i < tableEntries := by
  intro i hi
  rw [stcParse_writes] at hi
  exact lt_of_lt_of_le (List.mem_range.mp hi) h

/-! ## Frame Characterization Parser and Subchannel Demultiplexer (C12 - C15) -/

/-- C12 fails on the code at the frame whose NST field is 127: `nst` is decoded
as 127, above 64, and the loop over the streams assigns `sad[i]` and `stl[i]` at
every index 0..126, of which 64..126 are not indices of the 64 declared
entries. -/
theorem stc_table_overflow :
    nst overflowFrame = 127 ∧
    (stcParse overflowFrame (fun _ => false) (fun _ => 0) (fun _ => 0)).writes
      = List.range 127 ∧
    (64 ∈ (stcParse overflowFrame (fun _ => false) (fun _ => 0) (fun _ => 0)).writes ∧
      ¬ 64 < tableEntries) ∧
    ¬ ∀ i ∈ (stcParse overflowFrame (fun _ => false) (fun _ => 0) (fun _ => 0)).writes,
        i < tableEntries := by
  have hn : nst overflowFrame = 127 := by decide
  have hw := stcParse_writes overflowFrame (fun _ => false) (fun _ => 0) (fun _ => 0)
  rw [hn] at hw
  refine ⟨hn, hw, ⟨by rw [hw]; simp, by decide⟩, ?_⟩
  intro h
  have := h 64 (by rw [hw]; simp)
  revert this
  decide

/-- C13: for every stream `i` of a frame whose TPL field selects Equal Error
Protection (bit 5 set), the level is one of 0..3 and the option one of 0..7;
for option 0 and option 1 the profile printed is the entry of the fixed table
for that option and level, for every other option it is the label "Unknown
option" followed by the option written as one character; the report of the
stream carries this profile, and the loop reports every one of the `nst`
streams whatever their options are. -/
theorem eep_profile_table (p : Buf) (selected : Nat → Bool) (sad0 stl0 : Table) (i : Nat)
    (hi : i < nst p) (heep : (tpl p i &&& 0x20) >>> 5 = 1) :
    tpl p i &&& 0x03 ≤ 3 ∧ (tpl p i &&& 0x1c) >>> 2 ≤ 7 ∧
    ((tpl p i &&& 0x1c) >>> 2 ≤ 1 →
      eepProfile ((tpl p i &&& 0x1c) >>> 2) (tpl p i &&& 0x03)
        = some (plevelstr (tpl p i))) ∧
    (2 ≤ (tpl p i &&& 0x1c) >>> 2 →
      eepProfile ((tpl p i &&& 0x1c) >>> 2) (tpl p i &&& 0x03) = none ∧
      plevelstr (tpl p i)
        = "Unknown option " ++ String.singleton (Char.ofNat ((tpl p i &&& 0x1c) >>> 2))) ∧
    (∃ r, (stcParse p selected sad0 stl0).reports[i]? = some r ∧ r.index = i ∧
      r.tplDesc = "0x" ++ hex02 (tpl p i) ++ " - Equal Error Protection. "
        ++ plevelstr (tpl p i)) ∧
    (stcParse p selected sad0 stl0).reports.length = nst p := by
  obtain ⟨h1, h2, h3, h4⟩ := plevelstr_table (tpl p i) (tpl_lt p i) heep
  refine ⟨h1, h2, h3, h4, ⟨stcReportOf p selected i,
    stcParse_report_at p selected sad0 stl0 i hi, rfl, ?_⟩, ?_⟩
  · simp [stcReportOf, tplDesc, heep]
  · rw [stcParse_reports]; simp

/-- C13 at the frame with one stream of option 0 and level 0. -/
theorem eep_profile_table_witness :
    0 < nst oneStreamFrame ∧ (tpl oneStreamFrame 0 &&& 0x20) >>> 5 = 1 ∧
    (tpl oneStreamFrame 0 &&& 0x03 ≤ 3 ∧ (tpl oneStreamFrame 0 &&& 0x1c) >>> 2 ≤ 7 ∧
    ((tpl oneStreamFrame 0 &&& 0x1c) >>> 2 ≤ 1 →
      eepProfile ((tpl oneStreamFrame 0 &&& 0x1c) >>> 2) (tpl oneStreamFrame 0 &&& 0x03)
        = some (plevelstr (tpl oneStreamFrame 0))) ∧
    (2 ≤ (tpl oneStreamFrame 0 &&& 0x1c) >>> 2 →
      eepProfile ((tpl oneStreamFrame 0 &&& 0x1c) >>> 2) (tpl oneStreamFrame 0 &&& 0x03)
        = none ∧
      plevelstr (tpl oneStreamFrame 0) = "Unknown option "
        ++ String.singleton (Char.ofNat ((tpl oneStreamFrame 0 &&& 0x1c) >>> 2))) ∧
    (∃ r, (stcParse oneStreamFrame (fun _ => false) (fun _ => 0) (fun _ => 0)).reports[0]?
        = some r ∧ r.index = 0 ∧
      r.tplDesc = "0x" ++ hex02 (tpl oneStreamFrame 0) ++ " - Equal Error Protection. "
        ++ plevelstr (tpl oneStreamFrame 0)) ∧
    (stcParse oneStreamFrame (fun _ => false) (fun _ => 0) (fun _ => 0)).reports.length
      = nst oneStreamFrame) :=
  ⟨by decide, by decide,
   eep_profile_table oneStreamFrame (fun _ => false) (fun _ => 0) (fun _ => 0) 0
     (by decide) (by decide)⟩

/-- C14 (as stated) fails on the code.  The one stream of this frame has the TPL
field 0x09: Unequal Error Protection, bit 3 (the table switch) set, 1 in the low
three bits.  The table switch is printed as 8, not as the bit value 1, and the
index printed is 1, the low three bits, not a 6-bit value of the field. -/
theorem uep_report_counterexample :
    nst uepFrame = 1 ∧ tpl uepFrame 0 = 0x09 ∧ (tpl uepFrame 0 &&& 0x20) >>> 5 ≠ 1 ∧
    (tpl uepFrame 0 >>> 3) &&& 1 = 1 ∧
    (stcParse uepFrame (fun _ => false) (fun _ => 0) (fun _ => 0)).reports.map (·.tplDesc)
      = ["0x09 - Unequal Error Protection. Table switch 8,  UEP index 1"] := by
  decide

/-- C14 (amended): for every stream `i` of a frame whose TPL field selects
Unequal Error Protection (bit 5 clear), the report prints as UEP index the low
three bits of the field unchanged (the field modulo 8, a value in 0..7) and as
table switch a value that is 0 exactly when bit 3 of the field is 0. -/
theorem uep_report (p : Buf) (selected : Nat → Bool) (sad0 stl0 : Table) (i : Nat)
    (hi : i < nst p) (huep : (tpl p i &&& 0x20) >>> 5 ≠ 1) :
    (∃ r, (stcParse p selected sad0 stl0).reports[i]? = some r ∧ r.index = i ∧
      r.tplDesc = "0x" ++ hex02 (tpl p i) ++ " - Unequal Error Protection. Table switch "
        ++ toString (tsw (tpl p i)) ++ ",  UEP index " ++ toString (uepidx (tpl p i))) ∧
    uepidx (tpl p i) = tpl p i % 8 ∧ uepidx (tpl p i) ≤ 7 ∧
    (tsw (tpl p i) = 0 ↔ (tpl p i >>> 3) &&& 1 = 0) := by
  refine ⟨⟨stcReportOf p selected i, stcParse_report_at p selected sad0 stl0 i hi, rfl, ?_⟩,
    uepidx_eq_mod _, ?_, tsw_zero_iff _ (tpl_lt p i)⟩
  · simp [stcReportOf, tplDesc, huep]
  · rw [uepidx_eq_mod]; omega

/-- C14 (amended) at the frame with one stream of TPL 0x09. -/
theorem uep_report_witness :
    0 < nst uepFrame ∧ (tpl uepFrame 0 &&& 0x20) >>> 5 ≠ 1 ∧
    ((∃ r, (stcParse uepFrame (fun _ => false) (fun _ => 0) (fun _ => 0)).reports[0]?
        = some r ∧ r.index = 0 ∧
      r.tplDesc = "0x" ++ hex02 (tpl uepFrame 0)
        ++ " - Unequal Error Protection. Table switch "
        ++ toString (tsw (tpl uepFrame 0)) ++ ",  UEP index "
        ++ toString (uepidx (tpl uepFrame 0))) ∧
    uepidx (tpl uepFrame 0) = tpl uepFrame 0 % 8 ∧ uepidx (tpl uepFrame 0) ≤ 7 ∧
    (tsw (tpl uepFrame 0) = 0 ↔ (tpl uepFrame 0 >>> 3) &&& 1 = 0)) :=
  ⟨by decide, by decide,
   uep_report uepFrame (fun _ => false) (fun _ => 0) (fun _ => 0) 0 (by decide) (by decide)⟩

theorem push_back_valid (s : FIGalyser) (type ext len : Int) (i : Nat)
    (hfib : s.m_fib = i) (hi : i < s.m_figs.length) :
    s.push_back type ext len
      = some ⟨s.m_fib, s.m_figs.set i (s.m_figs.getD i [] ++ [⟨type, ext, len⟩])⟩ := by
  unfold FIGalyser.push_back
  have h0 : 0 ≤ s.m_fib := by rw [hfib]; exact Int.ofNat_nonneg i
  have h1 : s.m_fib.toNat = i := by rw [hfib]; exact Int.toNat_ofNat i
  rw [h1, if_pos ⟨h0, hi⟩]

theorem push_back_invalid (s : FIGalyser) (type ext len : Int)
    (h : s.m_fib < 0 ∨ (s.m_figs.length : Int) ≤ s.m_fib) :
    s.push_back type ext len = none := by
  unfold FIGalyser.push_back
  rw [if_neg]
  rintro ⟨h0, h1⟩
  rcases h with h | h
  · omega
  · have : (s.m_fib.toNat : Int) = s.m_fib := Int.toNat_of_nonneg h0
    omega

theorem clear_figs (s : FIGalyser) : s.clear.m_figs = [[], [], []] := rfl

theorem construct_figs (m0 : Int) : (FIGalyser.construct m0).m_figs = [[], [], []] := rfl

/-- A `decodeFIG` call records the entry `figEntry` gives for it, or nothing. -/
theorem decodeFIG_figs_entry (p : Buf) (figs : FIGalyser) (c : FigCall) :
    decodeFIG_figs figs (fun k => p (c.figdata + k)) c.figlen c.figtype =
      match figEntry p c with
      | some e => figs.push_back e.type e.ext e.len
      | none => some figs := by
  unfold decodeFIG_figs figEntry
  split <;> simp_all

/-- The calls of one scan append their entries, in order, to the sequence of
the current FIB. -/
theorem figsOfCalls_spec (p : Buf) (i : Nat) :
    ∀ (calls : List FigCall) (figs : FIGalyser),
      figs.m_fib = i → i < figs.m_figs.length →
      figsOfCalls p calls figs = some ⟨figs.m_fib,
        figs.m_figs.set i (figs.m_figs.getD i [] ++ calls.filterMap (figEntry p))⟩ := by
  intro calls
  induction calls with
  | nil =>
    intro figs hfib hi
    have h1 : figs.m_figs.getD i [] = figs.m_figs[i] := by
      rw [List.getD_eq_getElem?_getD, List.getElem?_eq_getElem hi]; rfl
    have h2 : figs.m_figs.set i (figs.m_figs.getD i [] ++ []) = figs.m_figs := by
      rw [List.append_nil, h1]
      apply List.ext_getElem (by simp)
      intro n hn1 hn2
      rw [List.getElem_set]
      split
      · next h => subst h; rfl
      · rfl
    simp only [figsOfCalls, List.filterMap_nil, h2]
  | cons c cs ih =>
    intro figs hfib hi
    unfold figsOfCalls
    rw [decodeFIG_figs_entry]
    cases he : figEntry p c with
    | none =>
      simp only [List.filterMap_cons, he]
      exact ih figs hfib hi
    | some e =>
      simp only [List.filterMap_cons, he]
      rw [push_back_valid figs e.type e.ext e.len i hfib hi]
      simp only
      have key := ih (FIGalyser.mk figs.m_fib
        (figs.m_figs.set i (figs.m_figs.getD i [] ++ [FIG.mk e.type e.ext e.len])))
        hfib (by simpa using hi)
      refine key.trans ?_
      simp [List.getD_eq_getElem?_getD, List.getElem?_set_self hi]

/-- One iteration of the loop over the FIBs appends the entries of its FIB to
the sequence with the index of the iteration. -/
theorem ficFigsLoop_step (p : Buf) (n i fib : Nat) (figs : FIGalyser)
    (hi : i < figs.m_figs.length) :
    ficFigsLoop p (n + 1) i fib figs = ficFigsLoop p n (i + 1) (fib + 32)
      ⟨i, figs.m_figs.set i (figs.m_figs.getD i [] ++ fibEntries p fib)⟩ := by
  obtain ⟨scan, hscan⟩ := figScan_some p fib
  have h := figsOfCalls_spec p i scan.calls (figs.set_fib i) rfl hi
  simp only [ficFigsLoop, hscan, h, fibEntries]
  rfl

/-- The accumulator of a frame whose FIC has three FIBs. -/
theorem ficFigs_three (p : Buf) (m0 : Int) (h : ficl p * 4 / 32 = 3) :
    ficFigs p m0 = some ⟨2, [fibEntries p (12 + 4 * nst p),
      fibEntries p (12 + 4 * nst p + 32), fibEntries p (12 + 4 * nst p + 32 + 32)]⟩ := by
  unfold ficFigs
  rw [h, ficFigsLoop_step p 2 0 _ _ (by simp [construct_figs]),
    ficFigsLoop_step p 1 1 _ _ (by simp [construct_figs]),
    ficFigsLoop_step p 0 2 _ _ (by simp [construct_figs])]
  simp [ficFigsLoop, construct_figs]

/-! ## Carousel Accumulator and what the FIG Decoder records (C16 - C19) -/

/-- C16: for every accumulator with three FIB sequences whose current FIB index is
`i` in 0..2 and every (type, extension, length), `push_back` appends the one
entry (type, extension, length) at the end of the sequence of FIB `i`, keeps
the entries that sequence had, the other two sequences and the current index;
a second `push_back` of the same tuple appends a second entry, so that the
sequence is two entries longer than at the start. -/
theorem push_back_appends (s : FIGalyser) (type ext len : Int) (i : Nat)
    (hi : i ≤ 2) (hfib : s.m_fib = i) (hsz : s.m_figs.length = 3) :
    ∃ s1, s.push_back type ext len = some s1 ∧
      s1.m_fib = s.m_fib ∧ s1.m_figs.length = 3 ∧
      s1.m_figs[i]? = some (s.m_figs.getD i [] ++ [⟨type, ext, len⟩]) ∧
      (∀ j, j ≠ i → s1.m_figs[j]? = s.m_figs[j]?) ∧
      ∃ s2, s1.push_back type ext len = some s2 ∧
        s2.m_figs[i]? = some (s.m_figs.getD i [] ++ [⟨type, ext, len⟩, ⟨type, ext, len⟩]) ∧
        (∀ j, j ≠ i → s2.m_figs[j]? = s.m_figs[j]?) ∧
        (s2.m_figs.getD i []).length = (s.m_figs.getD i []).length + 2 := by
  have hlt : i < s.m_figs.length := by omega
  have h1 := push_back_valid s type ext len i hfib hlt
  have hlt1 : i < (s.m_figs.set i (s.m_figs.getD i [] ++ [⟨type, ext, len⟩])).length := by
    simpa using hlt
  have h2 := push_back_valid
    ⟨s.m_fib, s.m_figs.set i (s.m_figs.getD i [] ++ [⟨type, ext, len⟩])⟩ type ext len i hfib hlt1
  refine ⟨_, h1, rfl, by simp [hsz], by simp [List.getElem?_set_self hlt], ?_, _, h2, ?_, ?_, ?_⟩
  · intro j hj
    simp [List.getElem?_set_ne (Ne.symm hj)]
  · simp [List.getD_eq_getElem?_getD, List.getElem?_set_self hlt]
  · intro j hj
    simp [List.getElem?_set_ne (Ne.symm hj)]
  · simp [List.getD_eq_getElem?_getD, List.getElem?_set_self hlt]

/-- C16 at the empty accumulator with FIB 0 current and the tuple (0, 0, 5). -/
theorem push_back_appends_witness :
    (0 : Nat) ≤ 2 ∧ emptyFigs.m_fib = (0 : Nat) ∧ emptyFigs.m_figs.length = 3 ∧
    ∃ s1, emptyFigs.push_back 0 0 5 = some s1 ∧
      s1.m_fib = emptyFigs.m_fib ∧ s1.m_figs.length = 3 ∧
      s1.m_figs[0]? = some (emptyFigs.m_figs.getD 0 [] ++ [⟨0, 0, 5⟩]) ∧
      (∀ j, j ≠ 0 → s1.m_figs[j]? = emptyFigs.m_figs[j]?) ∧
      ∃ s2, s1.push_back 0 0 5 = some s2 ∧
        s2.m_figs[0]? = some (emptyFigs.m_figs.getD 0 [] ++ [⟨0, 0, 5⟩, ⟨0, 0, 5⟩]) ∧
        (∀ j, j ≠ 0 → s2.m_figs[j]? = emptyFigs.m_figs[j]?) ∧
        (s2.m_figs.getD 0 []).length = (emptyFigs.m_figs.getD 0 []).length + 2 :=
  ⟨by decide, by decide, by decide,
   push_back_appends emptyFigs 0 0 5 0 (by decide) (by decide) (by decide)⟩

/-- C17: for every accumulator `clear()` leaves exactly three FIB sequences, at the
indices 0, 1 and 2, all empty (and keeps the current index); a freshly
constructed accumulator holds the same three empty sequences. -/
theorem clear_resets (s : FIGalyser) :
    s.clear.m_figs = [[], [], []] ∧ s.clear.m_figs.length = 3 ∧
    (∀ i, i < 3 → s.clear.m_figs[i]? = some []) ∧
    (∀ i, 3 ≤ i → s.clear.m_figs[i]? = none) ∧
    s.clear.m_fib = s.m_fib ∧
    ∀ m0, (FIGalyser.construct m0).m_figs = s.clear.m_figs := by
  refine ⟨rfl, rfl, ?_, ?_, rfl, fun _ => rfl⟩
  · intro i hi
    rw [clear_figs]
    interval_cases i <;> rfl
  · intro i hi
    rw [clear_figs]
    exact List.getElem?_eq_none (by simpa using hi)

/-- C18 (as stated) fails on the code.  In a run of two frames that each carry one
FIG 0/1 of length 2 in FIB 0, the accumulator at the end of the second frame
holds one entry for FIB 0, not the two recorded for FIB 0 over the run: each
frame has an accumulator of its own. -/
theorem carousel_run_counterexample :
    ficf sampleFrame = 1 ∧ fibEntries sampleFrame 12 = [⟨0, 1, 2⟩] ∧
    figsRun [sampleFrame, sampleFrame] 0
      = [some ⟨2, [[⟨0, 1, 2⟩], [], []]⟩, some ⟨2, [[⟨0, 1, 2⟩], [], []]⟩] := by
  decide

/-- C18 (amended): the accumulator is additive within one frame.  For every run
and every frame `p` of it that carries a FIC of three FIBs (mode identity other
than 3), the accumulator at the end of the FIC block of that frame holds for
FIB i exactly the entries recorded for FIB i in that frame, in the order of its
FIGs, whatever the frames before it recorded. -/
theorem carousel_per_frame (frames : List Buf) (m0 : Int) (k : Nat) (p : Buf)
    (hk : frames[k]? = some p) (hf : ficf p = 1) (hm : mid p ≠ 3) :
    (figsRun frames m0)[k]? = some (ficFigs p m0) ∧
    ∃ figs, ficFigs p m0 = some figs ∧
      figs.m_figs = (List.range 3).map (fun i => fibEntries p (12 + 4 * nst p + 32 * i)) := by
  have h3 : ficl p * 4 / 32 = 3 := by simp [ficl, hf, hm]
  refine ⟨?_, _, ficFigs_three p m0 h3, ?_⟩
  · unfold figsRun
    rw [List.getElem?_map, hk]
    simp [hf]
  · simp [List.range_succ]

/-- C18 (amended) at the second of two sample frames. -/
theorem carousel_per_frame_witness :
    [sampleFrame, sampleFrame][1]? = some sampleFrame ∧ ficf sampleFrame = 1 ∧
    mid sampleFrame ≠ 3 ∧
    ((figsRun [sampleFrame, sampleFrame] 0)[1]? = some (ficFigs sampleFrame 0) ∧
    ∃ figs, ficFigs sampleFrame 0 = some figs ∧
      figs.m_figs = (List.range 3).map
        (fun i => fibEntries sampleFrame (12 + 4 * nst sampleFrame + 32 * i))) :=
  ⟨rfl, by decide, by decide,
   carousel_per_frame [sampleFrame, sampleFrame] 0 1 sampleFrame rfl (by decide) (by decide)⟩

theorem rd_within (k L : Nat) (h : k < L) : (rd k).Within L := by
  right
  simp only [rd]
  omega

theorem within_of_bounds (r : ReadRange) (lo hi L : Nat) (h1 : (lo : Int) ≤ r.start)
    (h2 : r.start + r.size ≤ hi) (h3 : hi ≤ L) : r.Within L := by
  right
  omega

theorem sizeT_of_nonneg (n : Nat) (h : n < 2 ^ 64) : sizeT n = n := by
  unfold sizeT
  rw [Int.emod_eq_of_lt (Int.ofNat_nonneg n) (by exact_mod_cast h)]
  exact Int.toNat_ofNat n

theorem printbufReads_within (verbosity L : Nat) (h1 : 1 ≤ L) (h2 : L < 2 ^ 64) :
    ∀ r ∈ printbufReads verbosity 1 ((L : Int) - 1), r.Within L := by
  intro r hr
  unfold printbufReads at hr
  have hs : sizeT ((L : Int) - 1) = L - 1 := by
    have : ((L : Int) - 1) = ((L - 1 : Nat) : Int) := by omega
    rw [this, sizeT_of_nonneg _ (by omega)]
  split at hr
  · split at hr
    · simp only [List.mem_singleton] at hr
      subst hr
      right
      simp only [hs]
      omega
    · simp at hr
  · simp at hr

/-- The loop of FIG 0/1 ends, and reads only payload bytes. -/
theorem fig0_1Reads_spec (f : Buf) (figlen : Nat) :
    ∀ (fuel i : Nat), 0 < fuel → figlen < fuel + i →
      ∃ rs, fig0_1Reads f figlen fuel i = some rs ∧ ∀ r ∈ rs, r.Within figlen := by
  intro fuel
  induction fuel with
  | zero => intro i h0; omega
  | succ fuel ih =>
    intro i _ h
    unfold fig0_1Reads
    by_cases hc : (i : Int) < (figlen : Int) - 3
    · rw [if_pos hc]
      by_cases hl : f (i + 2) >>> 7 ≠ 0
      · rw [if_pos hl]
        obtain ⟨rs, h1, h2⟩ := ih (i + 4) (by omega) (by omega)
        refine ⟨_, by rw [h1]; rfl, ?_⟩
        intro r hr
        simp only [List.cons_append, List.nil_append, List.mem_cons] at hr
        rcases hr with rfl | rfl | rfl | rfl | hr
        · exact rd_within _ _ (by omega)
        · exact rd_within _ _ (by omega)
        · exact rd_within _ _ (by omega)
        · exact rd_within _ _ (by omega)
        · exact h2 r hr
      · rw [if_neg hl]
        obtain ⟨rs, h1, h2⟩ := ih (i + 3) (by omega) (by omega)
        refine ⟨_, by rw [h1]; rfl, ?_⟩
        intro r hr
        simp only [List.cons_append, List.nil_append, List.mem_cons] at hr
        rcases hr with rfl | rfl | rfl | hr
        · exact rd_within _ _ (by omega)
        · exact rd_within _ _ (by omega)
        · exact rd_within _ _ (by omega)
        · exact h2 r hr
    · rw [if_neg hc]
      exact ⟨[], rfl, by simp⟩

theorem scompReads_bounds : ∀ (n k : Nat), ∀ r ∈ scompReads n k,
    (k : Int) ≤ r.start ∧ r.start + r.size ≤ k + 2 * n := by
  intro n
  induction n with
  | zero => intro k r hr; simp [scompReads] at hr
  | succ n ih =>
    intro k r hr
    simp only [scompReads, List.mem_cons] at hr
    rcases hr with rfl | hr
    · constructor <;> simp only <;> omega
    · have := ih (k + 2) r hr
      constructor <;> omega

theorem userAppReads_bounds : ∀ (n k : Nat), ∀ r ∈ userAppReads n k,
    (k : Int) ≤ r.start ∧ r.start + r.size ≤ k + 2 * n := by
  intro n
  induction n with
  | zero => intro k r hr; simp [userAppReads] at hr
  | succ n ih =>
    intro k r hr
    simp only [userAppReads, List.mem_cons] at hr
    rcases hr with rfl | rfl | hr
    · constructor <;> simp only [rd] <;> omega
    · constructor <;> simp only [rd] <;> omega
    · have := ih (k + 2) r hr
      constructor <;> omega

/-- The loop of FIG 0/2 ends, and reads bytes from its entry index up to the
index it ends at. -/
theorem fig0_2Reads_spec (f : Buf) (figlen pd : Nat) :
    ∀ (fuel k : Nat), 0 < fuel → figlen < fuel + k →
      ∃ rs e, fig0_2Reads f figlen pd fuel k = some rs ∧
        fig0_2End f figlen pd fuel k = some e ∧ k ≤ e ∧
        ∀ r ∈ rs, (k : Int) ≤ r.start ∧ r.start + r.size ≤ e := by
  intro fuel
  induction fuel with
  | zero => intro k h0; omega
  | succ fuel ih =>
    intro k _ h
    unfold fig0_2Reads fig0_2End
    by_cases hc : k < figlen
    · rw [if_pos hc, if_pos hc]
      by_cases hpd : pd = 0
      · simp only [if_pos hpd]
        obtain ⟨rs, e, h1, h2, h3, h4⟩ :=
          ih (k + 2 + 1 + 2 * (f (k + 2) &&& 0x0F)) (by omega) (by omega)
        refine ⟨_, e, by rw [h1]; rfl, h2, by omega, ?_⟩
        intro r hr
        simp only [List.cons_append, List.nil_append, List.mem_cons, List.mem_append] at hr
        rcases hr with rfl | rfl | rfl | hr | hr
        · constructor <;> simp only [rd] <;> omega
        · constructor <;> simp only [rd] <;> omega
        · constructor <;> simp only [rd] <;> omega
        · have := scompReads_bounds _ _ r hr
          constructor <;> omega
        · have := h4 r hr
          constructor <;> omega
      · simp only [if_neg hpd]
        obtain ⟨rs, e, h1, h2, h3, h4⟩ :=
          ih (k + 4 + 1 + 2 * (f (k + 4) &&& 0x0F)) (by omega) (by omega)
        refine ⟨_, e, by rw [h1]; rfl, h2, by omega, ?_⟩
        intro r hr
        simp only [List.cons_append, List.nil_append, List.mem_cons, List.mem_append] at hr
        rcases hr with rfl | rfl | rfl | rfl | rfl | hr | hr
        · constructor <;> simp only [rd] <;> omega
        · constructor <;> simp only [rd] <;> omega
        · constructor <;> simp only [rd] <;> omega
        · constructor <;> simp only [rd] <;> omega
        · constructor <;> simp only [rd] <;> omega
        · have := scompReads_bounds _ _ r hr
          constructor <;> omega
        · have := h4 r hr
          constructor <;> omega
    · rw [if_neg hc, if_neg hc]
      exact ⟨[], k, rfl, rfl, le_refl _, by simp⟩

theorem fig0_0Reads_within (f : Buf) (figlen : Nat)
    (h : if (f 3 &&& 0xC0) >>> 6 ≠ 0 then 6 ≤ figlen else 5 ≤ figlen) :
    ∀ r ∈ fig0_0Reads f, r.Within figlen := by
  intro r hr
  unfold fig0_0Reads at hr
  by_cases hc : (f 3 &&& 0xC0) >>> 6 ≠ 0
  · rw [if_pos hc] at h hr
    simp only [List.cons_append, List.nil_append, List.mem_cons, List.mem_singleton,
      List.not_mem_nil, or_false] at hr
    rcases hr with rfl | rfl | rfl | rfl | rfl <;> exact rd_within _ _ (by omega)
  · rw [if_neg hc] at h hr
    simp only [List.append_nil, List.mem_cons, List.not_mem_nil, or_false] at hr
    rcases hr with rfl | rfl | rfl | rfl <;> exact rd_within _ _ (by omega)

theorem fig0_13Reads_within (f : Buf) (figlen : Nat)
    (h : if (f 0 &&& 0x20) >>> 5 = 0 then 4 + 2 * (f 3 &&& 0x0F) ≤ figlen
      else 6 + 2 * (f 5 &&& 0x0F) ≤ figlen) :
    ∀ r ∈ fig0_13Reads f ((f 0 &&& 0x20) >>> 5), r.Within figlen := by
  intro r hr
  unfold fig0_13Reads at hr
  by_cases hc : (f 0 &&& 0x20) >>> 5 = 0
  · rw [if_pos hc] at h hr
    simp only [List.cons_append, List.nil_append, List.mem_cons] at hr
    rcases hr with rfl | rfl | rfl | hr
    · exact rd_within _ _ (by omega)
    · exact rd_within _ _ (by omega)
    · exact rd_within _ _ (by omega)
    · have := userAppReads_bounds _ _ r hr
      exact within_of_bounds r 4 (4 + 2 * (f 3 &&& 0x0F)) figlen this.1
        (by have := this.2; omega) h
  · rw [if_neg hc] at h hr
    simp only [List.cons_append, List.nil_append, List.mem_cons] at hr
    rcases hr with rfl | rfl | rfl | rfl | rfl | hr
    · exact rd_within _ _ (by omega)
    · exact rd_within _ _ (by omega)
    · exact rd_within _ _ (by omega)
    · exact rd_within _ _ (by omega)
    · exact rd_within _ _ (by omega)
    · have := userAppReads_bounds _ _ r hr
      exact within_of_bounds r 6 (6 + 2 * (f 5 &&& 0x0F)) figlen this.1
        (by have := this.2; omega) h

/-- The branches of FIG type 0 below the header. -/
theorem fig0ExtReads_covered (f : Buf) (figlen : Nat) :
    ∃ rs, fig0ExtReads f figlen = some rs ∧
      (Fig0Covered f figlen → ∀ r ∈ rs, r.Within figlen) := by
  unfold fig0ExtReads Fig0Covered
  split
  · next h0 =>
    refine ⟨_, rfl, fun hcov => ?_⟩
    exact fig0_0Reads_within f figlen hcov
  · next h1 =>
    obtain ⟨rs, hrs, hw⟩ := fig0_1Reads_spec f figlen (figlen + 1) 1 (by omega) (by omega)
    exact ⟨rs, hrs, fun _ => hw⟩
  · next h2 =>
    obtain ⟨rs, e, hrs, he, hke, hw⟩ :=
      fig0_2Reads_spec f figlen ((f 0 &&& 0x20) >>> 5) (figlen + 1) 1 (by omega) (by omega)
    refine ⟨rs, hrs, fun hcov r hr => ?_⟩
    rw [he] at hcov
    have := hw r hr
    exact within_of_bounds r 1 e figlen this.1 this.2 hcov
  · next h13 =>
    refine ⟨_, rfl, fun hcov => ?_⟩
    exact fig0_13Reads_within f figlen hcov
  · exact ⟨[], rfl, fun _ r hr => by simp at hr⟩

theorem fig1Reads_within (f : Buf) (figlen : Nat) (h : 18 ≤ figlen) :
    ∀ r ∈ fig1Reads f figlen, r.Within figlen := by
  intro r hr
  unfold fig1Reads at hr
  simp only [List.cons_append, List.nil_append, List.mem_cons] at hr
  rcases hr with rfl | rfl | rfl | hr
  · right; constructor <;> simp only <;> omega
  · right; constructor <;> simp only <;> omega
  · right; constructor <;> simp only <;> omega
  · split at hr
    · simp only [List.mem_cons, List.not_mem_nil, or_false] at hr
      rcases hr with rfl | rfl <;> exact rd_within _ _ (by omega)
    · simp only [List.mem_cons, List.not_mem_nil, or_false] at hr
      rcases hr with rfl | rfl <;> exact rd_within _ _ (by omega)
    · simp only [List.mem_cons] at hr
      rcases hr with rfl | hr
      · exact rd_within _ _ (by omega)
      · split at hr
        · simp only [List.mem_cons, List.not_mem_nil, or_false] at hr
          rcases hr with rfl | rfl <;> exact rd_within _ _ (by omega)
        · simp only [List.mem_cons, List.not_mem_nil, or_false] at hr
          rcases hr with rfl | rfl | rfl | rfl <;> exact rd_within _ _ (by omega)
    · simp only [List.mem_cons, List.not_mem_nil, or_false] at hr
      rcases hr with rfl | rfl | rfl | rfl <;> exact rd_within _ _ (by omega)
    · simp only [List.mem_cons] at hr
      rcases hr with rfl | hr
      · exact rd_within _ _ (by omega)
      · split at hr
        · simp only [List.mem_cons, List.not_mem_nil, or_false] at hr
          rcases hr with rfl | rfl | rfl <;> exact rd_within _ _ (by omega)
        · simp only [List.mem_cons, List.not_mem_nil, or_false] at hr
          rcases hr with rfl | rfl | rfl | rfl | rfl <;> exact rd_within _ _ (by omega)
    · simp at hr

theorem header_reads_within (verbosity figlen : Nat) (h1 : 1 ≤ figlen) (h2 : figlen ≤ 255) :
    ∀ r ∈ rd 0 :: printbufReads verbosity 1 ((figlen : Int) - 1), r.Within figlen := by
  intro r hr
  simp only [List.mem_cons] at hr
  rcases hr with rfl | hr
  · exact rd_within _ _ (by omega)
  · exact printbufReads_within verbosity figlen h1
      (lt_of_le_of_lt h2 (by norm_num)) r hr

theorem layoutCovered_fig0_2Payload : LayoutCovered fig0_2Payload 6 0 := by
  have h : fig0_2Payload 0 &&& 0x1F = 2 := by decide
  have he : fig0_2End fig0_2Payload 6 ((fig0_2Payload 0 &&& 0x20) >>> 5) (6 + 1) 1 = some 6 := by
    decide
  simp only [LayoutCovered, Fig0Covered, h, he]
  decide

/-! ## FIG Decoder: the payload bytes read (C20) -/

/-- C20 (as stated) fails on the code.  A call for a FIG of type 1 with declared
length 2 reads the 16 label bytes from index -16 on and the identifier byte at
index 2; a call for FIG 0/0 with declared length 1 reads the bytes at the
indices 1 to 4.  No branch compares the length with its layout first. -/
theorem decodeFIG_reads_counterexample :
    decodeFIG_reads 0 zeroFib 2 1
      = some [rd 0, ⟨-16, 16⟩, ⟨0, 1⟩, ⟨1, 1⟩, rd 1, rd 2] ∧
    ¬ (⟨-16, 16⟩ : ReadRange).Within 2 ∧ ¬ (rd 2).Within 2 ∧
    decodeFIG_reads 0 zeroFib 1 0 = some [rd 0, rd 1, rd 2, rd 3, rd 4] ∧
    ¬ (rd 4).Within 1 := by
  decide

/-- C20 (amended): for every FIG type, extension, declared length L (a value of
`unsigned char`) and payload, the decoder's reads are determined (its loops
end), and it reads only payload bytes at the indices 0 .. L-1 provided L covers
the layout of the branch taken: L >= 1 for the types 0, 2 and 5; for FIG 0/0
L >= 5, or 6 with a change flag; for FIG 0/2 the service entries end at or
before L; for FIG 0/13 L >= 4 + 2*No (6 + 2*No for a data service); for type 1
L >= 18; the types 3, 4 and 6 read nothing. -/
theorem decodeFIG_reads_covered (verbosity : Nat) (f : Buf) (figlen figtype : Nat)
    (hlen : figlen ≤ 255) :
    ∃ rs, decodeFIG_reads verbosity f figlen figtype = some rs ∧
      (LayoutCovered f figlen figtype → ∀ r ∈ rs, r.Within figlen) := by
  unfold decodeFIG_reads LayoutCovered
  split
  · obtain ⟨rs, hrs, hw⟩ := fig0ExtReads_covered f figlen
    refine ⟨_, by rw [hrs]; rfl, ?_⟩
    rintro ⟨h1, hcov⟩ r hr
    rcases List.mem_append.mp hr with hr | hr
    · exact header_reads_within verbosity figlen h1 hlen r hr
    · exact hw hcov r hr
  · refine ⟨_, rfl, ?_⟩
    intro h r hr
    have h18 : 18 ≤ figlen := h
    rcases List.mem_append.mp hr with hr | hr
    · exact header_reads_within verbosity figlen (by omega) hlen r hr
    · exact fig1Reads_within f figlen h18 r hr
  · exact ⟨_, rfl, fun h r hr => header_reads_within verbosity figlen h hlen r hr⟩
  · exact ⟨_, rfl, fun h r hr => header_reads_within verbosity figlen h hlen r hr⟩
  · exact ⟨[], rfl, fun _ r hr => by simp at hr⟩
  · exact ⟨[], rfl, fun _ r hr => by simp at hr⟩

/-- C20 (amended) at a FIG 0/2 of length 6 with one service of one component,
with the hex dump of the payload on. -/
theorem decodeFIG_reads_covered_witness :
    6 ≤ 255 ∧ LayoutCovered fig0_2Payload 6 0 ∧
    decodeFIG_reads 2 fig0_2Payload 6 0
      = some [rd 0, ⟨1, 5⟩, rd 1, rd 2, rd 3, ⟨4, 2⟩] ∧
    ∃ rs, decodeFIG_reads 2 fig0_2Payload 6 0 = some rs ∧
      (LayoutCovered fig0_2Payload 6 0 → ∀ r ∈ rs, r.Within 6) :=
  ⟨by decide, layoutCovered_fig0_2Payload, by decide,
   decodeFIG_reads_covered 2 fig0_2Payload 6 0 (by decide)⟩

/-! ## Lemmas on the bit fields of the FIG decoder -/

theorem or_shl8 (a b : Nat) (h : b < 256) : (a <<< 8) ||| b = a * 256 + b := by
  rw [Nat.shiftLeft_eq, show (2 : Nat) ^ 8 = 256 by norm_num, Nat.mul_comm a 256]
  exact (Nat.mul_add_lt_is_or (show b < 2 ^ 8 by simpa using h) a).symm

theorem and_3 (x : Nat) : x &&& 0x03 = x % 4 := Nat.and_pow_two_sub_one_eq_mod x 2

theorem and_7 (x : Nat) : x &&& 0x07 = x % 8 := Nat.and_pow_two_sub_one_eq_mod x 3

theorem and_1 (x : Nat) : x &&& 0x01 = x % 2 := Nat.and_pow_two_sub_one_eq_mod x 1

theorem and_0F (x : Nat) : x &&& 0x0F = x % 16 := Nat.and_pow_two_sub_one_eq_mod x 4

theorem and_1F (x : Nat) : x &&& 0x1F = x % 32 := Nat.and_pow_two_sub_one_eq_mod x 5

theorem and_3F (x : Nat) : x &&& 0x3F = x % 64 := Nat.and_pow_two_sub_one_eq_mod x 6

theorem shr_2 (x : Nat) : x >>> 2 = x / 4 := Nat.shiftRight_eq_div_pow x 2

theorem shr_4 (x : Nat) : x >>> 4 = x / 16 := Nat.shiftRight_eq_div_pow x 4

theorem shr_5 (x : Nat) : x >>> 5 = x / 32 := Nat.shiftRight_eq_div_pow x 5

theorem shr_6 (x : Nat) : x >>> 6 = x / 64 := Nat.shiftRight_eq_div_pow x 6

theorem shr_7 (x : Nat) : x >>> 7 = x / 128 := Nat.shiftRight_eq_div_pow x 7

/-- What the FIG 0/1 loop decodes from the four bytes of a long form. -/
theorem subch_long_fields (subch_id start_addr option protection_level subchannel_size : Nat)
    (h : (Subch.long subch_id start_addr option protection_level subchannel_size).InRange) :
    (subch_id * 4 + start_addr / 256) >>> 2 = subch_id ∧
    (((subch_id * 4 + start_addr / 256) &&& 0x03) <<< 8) ||| (start_addr % 256) = start_addr ∧
    (0x80 + option * 16 + protection_level * 4 + subchannel_size / 256) >>> 7 ≠ 0 ∧
    ((0x80 + option * 16 + protection_level * 4 + subchannel_size / 256) >>> 4) &&& 0x07
      = option ∧
    ((0x80 + option * 16 + protection_level * 4 + subchannel_size / 256) >>> 2) &&& 0x03
      = protection_level ∧
    (((0x80 + option * 16 + protection_level * 4 + subchannel_size / 256) &&& 0x03) <<< 8)
      ||| (subchannel_size % 256) = subchannel_size := by
  obtain ⟨h1, h2, h3, h4, h5⟩ := h
  rw [or_shl8 _ _ (Nat.mod_lt _ (by norm_num)), or_shl8 _ _ (Nat.mod_lt _ (by norm_num))]
  simp only [and_3, and_7, shr_2, shr_4, shr_7]
  refine ⟨?_, ?_, ?_, ?_, ?_, ?_⟩ <;> omega

/-- What the FIG 0/1 loop decodes from the three bytes of a short form. -/
theorem subch_short_fields (subch_id start_addr table_switch table_index : Nat)
    (h : (Subch.short subch_id start_addr table_switch table_index).InRange) :
    (subch_id * 4 + start_addr / 256) >>> 2 = subch_id ∧
    (((subch_id * 4 + start_addr / 256) &&& 0x03) <<< 8) ||| (start_addr % 256) = start_addr ∧
    (table_switch * 64 + table_index) >>> 7 = 0 ∧
    ((table_switch * 64 + table_index) >>> 6) &&& 0x01 = table_switch ∧
    (table_switch * 64 + table_index) &&& 0x3F = table_index := by
  obtain ⟨h1, h2, h3, h4⟩ := h
  rw [or_shl8 _ _ (Nat.mod_lt _ (by norm_num))]
  simp only [and_3, and_1, and_3F, shr_2, shr_6, shr_7]
  refine ⟨?_, ?_, ?_, ?_, ?_⟩ <;> omega
/-! ## Lemmas on the FIG 0/1 loop -/

theorem packSubchs_cons (r : Subch) (rs : List Subch) :
    packSubchs (r :: rs) = r.bytes ++ packSubchs rs := by
  simp [packSubchs]

theorem packSubchs_length_ge (rs : List Subch) : 3 * rs.length ≤ (packSubchs rs).length := by
  induction rs with
  | nil => simp [packSubchs]
  | cons r rs ih =>
    rw [packSubchs_cons, List.length_append, List.length_cons]
    cases r <;> simp only [Subch.bytes, List.length_cons, List.length_nil] <;> omega

theorem reachedSubchs_cons_cons (r r1 : Subch) (rs : List Subch) :
    reachedSubchs (r :: r1 :: rs) = r :: reachedSubchs (r1 :: rs) := by
  unfold reachedSubchs
  rw [List.getLast?_cons_cons]
  cases h : (r1 :: rs).getLast? with
  | none => simp at h
  | some l =>
    simp only
    split
    · rw [List.dropLast_cons₂]
    · rfl

theorem reachedSubchs_cons_long (subch_id start_addr option protection_level subchannel_size : Nat)
    (rs : List Subch) :
    reachedSubchs (Subch.long subch_id start_addr option protection_level subchannel_size :: rs)
      = Subch.long subch_id start_addr option protection_level subchannel_size
        :: reachedSubchs rs := by
  cases rs with
  | nil => simp [reachedSubchs, Subch.isShort]
  | cons r1 rs => exact reachedSubchs_cons_cons _ _ _

/-- The FIG 0/1 loop over a payload region that holds exactly the sub-records
`rs`: it decodes them in order with the fields they were packed from and stops
before a short form in last place. -/
theorem fig0_1Decode_packed (rs : List Subch) :
    (∀ r ∈ rs, r.InRange) → ∀ (f : Buf) (i fuel : Nat),
      (∀ k, k < (packSubchs rs).length → f (i + k) = (packSubchs rs).getD k 0) →
      rs.length < fuel →
      (fig0_1Decode f (i + (packSubchs rs).length) fuel i).map (fun ds => ds.map Prod.snd)
        = some (reachedSubchs rs) := by
  induction rs with
  | nil =>
    intro _ f i fuel _ hfuel
    cases fuel with
    | zero => simp at hfuel
    | succ fuel =>
      have hc : ¬ ((i : Int) < ((i + (packSubchs []).length : Nat) : Int) - 3) := by
        simp [packSubchs]
      unfold fig0_1Decode
      rw [if_neg hc]
      rfl
  | cons r rest ih =>
    intro hall f i fuel hf hfuel
    have hrest : ∀ r ∈ rest, r.InRange := fun x hx => hall x (List.mem_cons_of_mem _ hx)
    have hr : r.InRange := hall r (List.mem_cons_self _ _)
    cases fuel with
    | zero => simp at hfuel
    | succ fuel =>
      have hfuel1 : rest.length < fuel := by simpa using hfuel
      rw [packSubchs_cons] at hf ⊢
      have hge := packSubchs_length_ge rest
      cases r with
      | long subch_id start_addr option protection_level subchannel_size =>
        obtain ⟨e1, e2, e3, e4, e5, e6⟩ :=
          subch_long_fields subch_id start_addr option protection_level subchannel_size hr
        have h0 := hf 0 (by simp [Subch.bytes])
        have h1 := hf 1 (by simp [Subch.bytes])
        have h2 := hf 2 (by simp [Subch.bytes])
        have h3 := hf 3 (by simp [Subch.bytes])
        simp only [Subch.bytes, List.cons_append, List.nil_append, List.getD_cons_zero,
          List.getD_cons_succ, Nat.add_zero] at h0 h1 h2 h3
        have hnext : ∀ k, k < (packSubchs rest).length →
            f (i + 4 + k) = (packSubchs rest).getD k 0 := by
          intro k hk
          have := hf (4 + k) (by simp [Subch.bytes]; omega)
          rw [show i + 4 + k = i + (4 + k) by omega, this]
          simp [Subch.bytes, List.getD_cons_succ, show 4 + k = k + 1 + 1 + 1 + 1 by omega]
        have key := ih hrest f (i + 4) fuel hnext hfuel1
        have hlen : i + ((Subch.long subch_id start_addr option protection_level
            subchannel_size).bytes ++ packSubchs rest).length
            = i + 4 + (packSubchs rest).length := by
          simp [Subch.bytes]; omega
        rw [hlen]
        have hc : (i : Int) < ((i + 4 + (packSubchs rest).length : Nat) : Int) - 3 := by
          push_cast; omega
        unfold fig0_1Decode
        rw [if_pos hc]
        simp only [h0, h1, h2, h3, e1, e2, e4, e5, e6]
        rw [if_pos e3, reachedSubchs_cons_long]
        cases hd : fig0_1Decode f (i + 4 + (packSubchs rest).length) fuel (i + 4) with
        | none => rw [hd] at key; simp at key
        | some ds =>
          rw [hd] at key
          simp only [Option.map_some', Option.some.injEq] at key
          simp [key]
      | short subch_id start_addr table_switch table_index =>
        obtain ⟨e1, e2, e3, e4, e5⟩ :=
          subch_short_fields subch_id start_addr table_switch table_index hr
        cases rest with
        | nil =>
          have hc : ¬ ((i : Int) < ((i + ((Subch.short subch_id start_addr table_switch
              table_index).bytes ++ packSubchs []).length : Nat) : Int) - 3) := by
            simp [Subch.bytes, packSubchs]
          unfold fig0_1Decode
          rw [if_neg hc]
          simp [reachedSubchs, Subch.isShort]
        | cons r1 rest1 =>
          have h0 := hf 0 (by simp [Subch.bytes])
          have h1 := hf 1 (by simp [Subch.bytes])
          have h2 := hf 2 (by simp [Subch.bytes])
          simp only [Subch.bytes, List.cons_append, List.nil_append, List.getD_cons_zero,
            List.getD_cons_succ, Nat.add_zero] at h0 h1 h2
          have hnext : ∀ k, k < (packSubchs (r1 :: rest1)).length →
              f (i + 3 + k) = (packSubchs (r1 :: rest1)).getD k 0 := by
            intro k hk
            have := hf (3 + k) (by simp [Subch.bytes]; omega)
            rw [show i + 3 + k = i + (3 + k) by omega, this]
            simp [Subch.bytes, List.getD_cons_succ, show 3 + k = k + 1 + 1 + 1 by omega]
          have key := ih hrest f (i + 3) fuel hnext hfuel1
          have hlen : i + ((Subch.short subch_id start_addr table_switch
              table_index).bytes ++ packSubchs (r1 :: rest1)).length
              = i + 3 + (packSubchs (r1 :: rest1)).length := by
            simp [Subch.bytes]; omega
          rw [hlen]
          have hge1 : 3 ≤ (packSubchs (r1 :: rest1)).length := by
            rw [List.length_cons] at hge
            omega
          have hc : (i : Int) < ((i + 3 + (packSubchs (r1 :: rest1)).length : Nat) : Int) - 3 := by
            push_cast; omega
          unfold fig0_1Decode
          rw [if_pos hc]
          simp only [h0, h1, h2, e1, e2, e4, e5]
          rw [if_neg (by rw [e3]; simp), reachedSubchs_cons_cons]
          cases hd : fig0_1Decode f (i + 3 + (packSubchs (r1 :: rest1)).length) fuel (i + 3) with
          | none => rw [hd] at key; simp at key
          | some ds =>
            rw [hd] at key
            simp only [Option.map_some', Option.some.injEq] at key
            simp [key]

/-- A FIG 0/1 payload made of the header byte and the sub-records `rs`, with
the FIG length 1 plus their total size: the decoder reports them in order, but
for a short form in last place, which the loop `while (i < figlen-3)` does not
reach. -/
theorem fig0_1Subchs_packed (hdr : Nat) (rs : List Subch) (hall : ∀ r ∈ rs, r.InRange) :
    fig0_1Subchs (bufOf (fig0_1Payload hdr rs)) (1 + (packSubchs rs).length)
      = some (reachedSubchs rs) := by
  unfold fig0_1Subchs
  apply fig0_1Decode_packed rs hall
  · intro k _
    simp [bufOf, fig0_1Payload, show 1 + k = k + 1 by omega]
  · have := packSubchs_length_ge rs
    omega
/-- The loop of FIG 0/1 ends; each iteration decodes at an index with three
more payload bytes after it, reads the bytes of its sub-record, and moves the
index by 4 after a long form and by 3 after a short form. -/
theorem fig0_1Decode_spec (f : Buf) (figlen : Nat) :
    ∀ (fuel i : Nat), 0 < fuel → figlen < fuel + i →
      ∃ ds, fig0_1Decode f figlen fuel i = some ds ∧
        fig0_1Reads f figlen fuel i = some (ds.flatMap fun d =>
          if d.2.isShort then [rd d.1, rd (d.1 + 1), rd (d.1 + 2)]
          else [rd d.1, rd (d.1 + 1), rd (d.1 + 2), rd (d.1 + 3)]) ∧
        (∀ d ∈ ds, i ≤ d.1 ∧ d.1 + 4 ≤ figlen) ∧
        (∀ d ∈ ds.head?, d.1 = i) ∧
        List.Chain' (fun a b : Nat × Subch => b.1 = a.1 + (if a.2.isShort then 3 else 4)) ds := by
  intro fuel
  induction fuel with
  | zero => intro i h0; omega
  | succ fuel ih =>
    intro i _ h
    unfold fig0_1Decode fig0_1Reads
    by_cases hc : (i : Int) < (figlen : Int) - 3
    · rw [if_pos hc, if_pos hc]
      by_cases hl : f (i + 2) >>> 7 ≠ 0
      · simp only [if_pos hl]
        obtain ⟨ds, h1, h2, h3, h4, h5⟩ := ih (i + 4) (by omega) (by omega)
        refine ⟨_, by rw [h1]; rfl, ?_, ?_, ?_, ?_⟩
        · rw [h2]; simp [Subch.isShort]
        · intro d hd
          rcases List.mem_cons.mp hd with rfl | hd
          · exact ⟨Nat.le_refl _, by simp only; omega⟩
          · have := h3 d hd; omega
        · intro d hd
          simp only [List.head?_cons, Option.mem_def, Option.some.injEq] at hd
          rw [← hd]
        · rw [List.chain'_cons']
          refine ⟨?_, h5⟩
          intro d hd
          simp only [Subch.isShort, Bool.false_eq_true, if_false]
          exact h4 d hd
      · simp only [if_neg hl]
        obtain ⟨ds, h1, h2, h3, h4, h5⟩ := ih (i + 3) (by omega) (by omega)
        refine ⟨_, by rw [h1]; rfl, ?_, ?_, ?_, ?_⟩
        · rw [h2]; simp [Subch.isShort]
        · intro d hd
          rcases List.mem_cons.mp hd with rfl | hd
          · exact ⟨Nat.le_refl _, by simp only; omega⟩
          · have := h3 d hd; omega
        · intro d hd
          simp only [List.head?_cons, Option.mem_def, Option.some.injEq] at hd
          rw [← hd]
        · rw [List.chain'_cons']
          refine ⟨?_, h5⟩
          intro d hd
          simp only [Subch.isShort, if_true]
          exact h4 d hd
    · rw [if_neg hc, if_neg hc]
      exact ⟨[], rfl, rfl, by simp, by simp, List.chain'_nil⟩
/-! ## FIG Decoder: the sub-records of FIG 0/1 (C21, C28) -/

/-- C21 fails on the code at the FIG 0/1 payload 01 04 00 05 of length 4: the
header byte and one short-form sub-record (subchannel 1, start address 0,
table index 5), the FIG length being 1 plus the 3 bytes of the sub-record.
The loop `while (i < figlen-3)` starts with `i = 1` and `figlen-3 = 1`, so it
decodes nothing and the decoder reports no sub-record where the payload holds
one; with a long form before it (length 8) the long form is reported and the
short form in last place is not.  For every payload packed from sub-records
the decoder reports them in order with the fields they were packed from, all
of them but a short form in last place. -/
theorem fig0_1_short_last_dropped :
    (Subch.short 1 0 0 5).InRange ∧
    fig0_1Payload 0x01 [Subch.short 1 0 0 5] = [0x01, 0x04, 0x00, 0x05] ∧
    1 + (packSubchs [Subch.short 1 0 0 5]).length = 4 ∧
    fig0_1Subchs shortSubchPayload 4 = some [] ∧
    fig0_1Subchs shortSubchPayload 4 ≠ some [Subch.short 1 0 0 5] ∧
    1 + (packSubchs [Subch.long 2 54 0 2 84, Subch.short 1 0 0 5]).length = 8 ∧
    fig0_1Subchs twoSubchPayload 8 = some [Subch.long 2 54 0 2 84] ∧
    (∀ hdr rs, (∀ r ∈ rs, r.InRange) →
      fig0_1Subchs (bufOf (fig0_1Payload hdr rs)) (1 + (packSubchs rs).length)
        = some (reachedSubchs rs)) ∧
    (∀ r, r.isShort = true → reachedSubchs [r] = []) :=
  ⟨by decide, by decide, by decide, by decide, by decide, by decide, by decide,
    fun hdr rs h => fig0_1Subchs_packed hdr rs h,
    fun r h => by simp [reachedSubchs, h]⟩

/-- C28: for every FIG 0/1 payload with declared length L >= 1, whatever its
bytes, the sub-record loop ends (with the fuel L + 1) and, like the read of the
header byte `f[0]`, reads only payload bytes at indices 0 .. L-1: a sub-record
is decoded at index i only when i+3 <= L-1, the first at index 1, and each next
one 4 bytes after a long form and 3 bytes after a short form; the bytes read
are the 4 or 3 bytes of each sub-record decoded. -/
theorem fig0_1_loop_safe (f : Buf) (L : Nat) (hL : 1 ≤ L) :
    (rd 0).Within L ∧
    ∃ ds rs, fig0_1Decode f L (L + 1) 1 = some ds ∧
      fig0_1Reads f L (L + 1) 1 = some rs ∧
      rs = (ds.flatMap fun d =>
        if d.2.isShort then [rd d.1, rd (d.1 + 1), rd (d.1 + 2)]
        else [rd d.1, rd (d.1 + 1), rd (d.1 + 2), rd (d.1 + 3)]) ∧
      (∀ r ∈ rs, r.Within L) ∧
      (∀ d ∈ ds, d.1 + 3 ≤ L - 1) ∧
      (∀ d ∈ ds.head?, d.1 = 1) ∧
      List.Chain' (fun a b : Nat × Subch => b.1 = a.1 + (if a.2.isShort then 3 else 4)) ds ∧
      List.Chain' (fun a b : Nat × Subch => b.1 = a.1 + 3 ∨ b.1 = a.1 + 4) ds := by
  refine ⟨rd_within 0 L (by omega), ?_⟩
  obtain ⟨ds, h1, h2, h3, h4, h5⟩ := fig0_1Decode_spec f L (L + 1) 1 (by omega) (by omega)
  obtain ⟨rs, hr1, hr2⟩ := fig0_1Reads_spec f L (L + 1) 1 (by omega) (by omega)
  refine ⟨ds, rs, h1, hr1, ?_, hr2, ?_, h4, h5, ?_⟩
  · rw [hr1] at h2
    exact Option.some.inj h2
  · intro d hd
    have := (h3 d hd).2
    omega
  · refine List.Chain'.imp ?_ h5
    intro a b hab
    by_cases hs : a.2.isShort
    · left; simpa [hs] using hab
    · right; simpa [hs] using hab

theorem fig0_1_loop_safe_witness :
    1 ≤ 8 ∧ ((rd 0).Within 8 ∧
    ∃ ds rs, fig0_1Decode twoSubchPayload 8 (8 + 1) 1 = some ds ∧
      fig0_1Reads twoSubchPayload 8 (8 + 1) 1 = some rs ∧
      rs = (ds.flatMap fun d =>
        if d.2.isShort then [rd d.1, rd (d.1 + 1), rd (d.1 + 2)]
        else [rd d.1, rd (d.1 + 1), rd (d.1 + 2), rd (d.1 + 3)]) ∧
      (∀ r ∈ rs, r.Within 8) ∧
      (∀ d ∈ ds, d.1 + 3 ≤ 8 - 1) ∧
      (∀ d ∈ ds.head?, d.1 = 1) ∧
      List.Chain' (fun a b : Nat × Subch => b.1 = a.1 + (if a.2.isShort then 3 else 4)) ds ∧
      List.Chain' (fun a b : Nat × Subch => b.1 = a.1 + 3 ∨ b.1 = a.1 + 4) ds) :=
  ⟨by decide, fig0_1_loop_safe twoSubchPayload 8 (by decide)⟩
/-! ## Lemmas on the service entries of FIG 0/2 -/

set_option maxRecDepth 100000

/-- With the Program/Data flag clear the service identifier is the big-endian
value of its two bytes, the country id in its four high bits and the service
reference in the other twelve. -/
theorem fig0_2Ids_programme (f : Buf) (k : Nat) (hf : IsBytes f) :
    (fig0_2Ids f 0 k).sid = read_u16_be f k ∧
    (fig0_2Ids f 0 k).sid = (fig0_2Ids f 0 k).cid * 4096 + (fig0_2Ids f 0 k).sref ∧
    (fig0_2Ids f 0 k).cid < 16 ∧ (fig0_2Ids f 0 k).sref < 4096 ∧
    (fig0_2Ids f 0 k).next = k + 2 := by
  have h0 := hf k
  have h1 := hf (k + 1)
  have hc : ∀ b, b < 256 → (b &&& 0xF0) >>> 4 = b / 16 := by decide
  simp only [fig0_2Ids, if_true, read_u16_be, hc _ h0, and_0F]
  refine ⟨?_, ?_, ?_, ?_, trivial⟩ <;> omega

/-- With the Program/Data flag set the `unsigned short` service identifier
keeps the two low bytes of the four; the extended country code is the first
byte. -/
theorem fig0_2Ids_data (f : Buf) (pd k : Nat) (hf : IsBytes f) (hpd : pd ≠ 0) :
    (fig0_2Ids f pd k).sid = f (k + 2) * 256 + f (k + 3) ∧
    (fig0_2Ids f pd k).ecc = some (f k) ∧
    (fig0_2Ids f pd k).next = k + 4 ∧
    ((fig0_2Ids f pd k).sid
        = f k * 2 ^ 24 + f (k + 1) * 2 ^ 16 + f (k + 2) * 2 ^ 8 + f (k + 3)
      ↔ f k = 0 ∧ f (k + 1) = 0) := by
  have h0 := hf k
  have h1 := hf (k + 1)
  have h2 := hf (k + 2)
  have h3 := hf (k + 3)
  simp only [fig0_2Ids, if_neg hpd]
  refine ⟨?_, trivial, trivial, ?_⟩ <;> omega

theorem scomp_c0 : ∀ c0, c0 < 256 →
    c0 = ((c0 &&& 0xC0) >>> 6) * 64 + (c0 &&& 0x3F) ∧
    (c0 &&& 0xC0) >>> 6 ≤ 3 ∧ c0 &&& 0x3F ≤ 63 := by
  decide

theorem scomp_c1 : ∀ c1, c1 < 256 →
    c1 = ((c1 &&& 0xFC) >>> 2) * 4 + ((c1 &&& 0x02) >>> 1) * 2 + (c1 &&& 0x01) ∧
    (c1 &&& 0xFC) >>> 2 ≤ 63 ∧ (c1 &&& 0x02) >>> 1 ≤ 1 ∧ c1 &&& 0x01 ≤ 1 := by
  decide

/-! ## FIG Decoder: the service entries of FIG 0/2 (C22, C23) -/

/-- C22 fails on the code at the FIG 0/2 payload 22 E0 12 34 56 01 00 04 of
length 8, whose Program/Data flag is 1 and whose four identifier bytes are
E0 12 34 56: the extended country code is decoded as 0xE0, but `sid` is an
`unsigned short` and holds 0x3456, the two low bytes, not the 32-bit value
0xE0123456.  With the flag set the decoded identifier is always the value of
the two low bytes, and the 32-bit value only when the two high bytes are 0;
with the flag clear it is the 16-bit big-endian value, country id times 4096
plus the service reference. -/
theorem fig0_2_sid_truncated :
    (dataServicePayload 0 &&& 0x20) >>> 5 = 1 ∧
    (fig0_2Ids dataServicePayload 1 1).ecc = some 0xE0 ∧
    (fig0_2Ids dataServicePayload 1 1).sid = 0x3456 ∧
    0xE0 * 2 ^ 24 + 0x12 * 2 ^ 16 + 0x34 * 2 ^ 8 + 0x56 = 0xE0123456 ∧
    (fig0_2Ids dataServicePayload 1 1).sid
      ≠ dataServicePayload 1 * 2 ^ 24 + dataServicePayload 2 * 2 ^ 16
        + dataServicePayload 3 * 2 ^ 8 + dataServicePayload 4 ∧
    (fig0_2Services dataServicePayload 8).map (fun l => l.map fun s => s.ids.sid)
      = some [0x3456] ∧
    (∀ f pd k, IsBytes f → pd ≠ 0 →
      (fig0_2Ids f pd k).sid = f (k + 2) * 256 + f (k + 3) ∧
      (fig0_2Ids f pd k).ecc = some (f k) ∧
      ((fig0_2Ids f pd k).sid
          = f k * 2 ^ 24 + f (k + 1) * 2 ^ 16 + f (k + 2) * 2 ^ 8 + f (k + 3)
        ↔ f k = 0 ∧ f (k + 1) = 0)) ∧
    (∀ f k, IsBytes f →
      (fig0_2Ids f 0 k).sid = read_u16_be f k ∧
      (fig0_2Ids f 0 k).sid = (fig0_2Ids f 0 k).cid * 4096 + (fig0_2Ids f 0 k).sref) :=
  ⟨by decide, by decide, by decide, by decide, by decide, by decide,
    fun f pd k hf hpd =>
      ⟨(fig0_2Ids_data f pd k hf hpd).1, (fig0_2Ids_data f pd k hf hpd).2.1,
        (fig0_2Ids_data f pd k hf hpd).2.2.2⟩,
    fun f k hf => ⟨(fig0_2Ids_programme f k hf).1, (fig0_2Ids_programme f k hf).2.1⟩⟩

/-- C23: for every 2-byte component descriptor (c0, c1) of FIG 0/2 the decoded
fields give the bytes back and are in range: c0 = timd*64 + scty with timd in
0..3 and scty in 0..63, c1 = subchid*4 + ps*2 + ca with subchid in 0..63 and the
two flags in 0..1; the line printed is chosen by timd alone: stream audio for
0, stream data for 1, FIDC for 2, MSC packet mode for 3; in stream audio mode
the audio type is named MPEG Foreground, MPEG Background, Multi Channel and
AAC for scty 0, 1, 2 and 63 and Unknown for every other scty. -/
theorem scomp_fields (c0 c1 : Nat) (h0 : c0 < 256) (h1 : c1 < 256) :
    c0 = (scompDecode c0 c1).timd * 64 + (scompDecode c0 c1).scty ∧
    (scompDecode c0 c1).timd ≤ 3 ∧ (scompDecode c0 c1).scty ≤ 63 ∧
    c1 = (scompDecode c0 c1).subchid * 4 + (scompDecode c0 c1).ps * 2
      + (scompDecode c0 c1).ca ∧
    (scompDecode c0 c1).subchid ≤ 63 ∧ (scompDecode c0 c1).ps ≤ 1 ∧
    (scompDecode c0 c1).ca ≤ 1 ∧
    ((scompDecode c0 c1).timd = 0 → (scompDecode c0 c1).desc = some
      ("Stream audio mode, " ++ psdesc (scompDecode c0 c1).ps ++ ", "
        ++ (asctyName (scompDecode c0 c1).scty ++ " (" ++ toString (scompDecode c0 c1).scty
          ++ ")")
        ++ ", SubChannel ID=" ++ HEX02 (scompDecode c0 c1).subchid ++ ", CA="
        ++ toString (scompDecode c0 c1).ca)) ∧
    ((scompDecode c0 c1).timd = 1 → (scompDecode c0 c1).desc = some
      ("Stream data mode, " ++ psdesc (scompDecode c0 c1).ps ++ ", "
        ++ ("DSCTy=" ++ toString (scompDecode c0 c1).scty)
        ++ ", SubChannel ID=" ++ HEX02 (scompDecode c0 c1).subchid ++ ", CA="
        ++ toString (scompDecode c0 c1).ca)) ∧
    ((scompDecode c0 c1).timd = 2 → (scompDecode c0 c1).desc = some
      ("FIDC mode, " ++ psdesc (scompDecode c0 c1).ps ++ ", "
        ++ ("DSCTy=" ++ toString (scompDecode c0 c1).scty)
        ++ ", Fast Information Data Channel ID=" ++ HEX02 (scompDecode c0 c1).subchid
        ++ ", CA=" ++ toString (scompDecode c0 c1).ca)) ∧
    ((scompDecode c0 c1).timd = 3 → (scompDecode c0 c1).desc = some
      ("MSC Packet Mode, " ++ psdesc (scompDecode c0 c1).ps ++ ", Service Component ID="
        ++ HEX02 (scompDecode c0 c1).subchid ++ ", CA=" ++ toString (scompDecode c0 c1).ca)) ∧
    asctyName 0 = "MPEG Foreground sound" ∧ asctyName 1 = "MPEG Background sound" ∧
    asctyName 2 = "Multi Channel sound" ∧ asctyName 63 = "AAC sound" ∧
    (∀ scty, scty ≠ 0 → scty ≠ 1 → scty ≠ 2 → scty ≠ 63 →
      asctyName scty = "Unknown ASCTy") := by
  obtain ⟨a1, a2, a3⟩ := scomp_c0 c0 h0
  obtain ⟨b1, b2, b3, b4⟩ := scomp_c1 c1 h1
  refine ⟨a1, a2, a3, b1, b2, b3, b4, ?_, ?_, ?_, ?_, by decide, by decide, by decide,
    by decide, ?_⟩
  · intro h
    simp only [scompDecode] at h ⊢
    simp [scompDesc, sctydesc, h]
  · intro h
    simp only [scompDecode] at h ⊢
    simp [scompDesc, sctydesc, h]
  · intro h
    simp only [scompDecode] at h ⊢
    simp [scompDesc, sctydesc, h]
  · intro h
    simp only [scompDecode] at h ⊢
    simp [scompDesc, sctydesc, h]
  · intro scty n0 n1 n2 n63
    simp [asctyName, n0, n1, n2, n63]

theorem scomp_fields_witness :
    0x3F < 256 ∧ 0x07 < 256 ∧
    (scompDecode 0x3F 0x07).timd = 0 ∧ (scompDecode 0x3F 0x07).scty = 63 ∧
    (scompDecode 0x3F 0x07).subchid = 1 ∧ (scompDecode 0x3F 0x07).ps = 1 ∧
    (scompDecode 0x3F 0x07).ca = 1 ∧
    (scompDecode 0x3F 0x07).desc = some
      "Stream audio mode, Primary service, AAC sound (63), SubChannel ID=01, CA=1" ∧
    0x3F = (scompDecode 0x3F 0x07).timd * 64 + (scompDecode 0x3F 0x07).scty :=
  ⟨by decide, by decide, by decide, by decide, by decide, by decide, by decide, by decide,
    (scomp_fields 0x3F 0x07 (by decide) (by decide)).1⟩
/-! ## Lemmas on FIG 0/13 and on the labels -/

theorem and_E0 : ∀ b, b < 256 → b &&& 0xE0 = b / 32 * 32 := by
  decide

/-- The 11-bit user application type from the two bytes of an entry. -/
theorem user_app_type_eq (a b : Nat) (ha : a < 256) (hb : b < 256) :
    (((a <<< 8) ||| (b &&& 0xE0)) >>> 5) % 0x10000 = a * 8 + (b >>> 5) := by
  have h1 : b &&& 0xE0 < 256 := by rw [and_E0 b hb]; omega
  rw [or_shl8 _ _ h1, and_E0 b hb, shr_5, shr_5]
  omega

/-- The loop over the user applications: entry `n` is decoded from the two
bytes at `k + 2*n`. -/
theorem userAppLoop_spec (f : Buf) (hf : IsBytes f) :
    ∀ (cnt k : Nat), (userAppLoop f cnt k).length = cnt ∧
      ∀ n, n < cnt → (userAppLoop f cnt k)[n]? = some
        ⟨f (k + 2 * n) * 8 + (f (k + 1 + 2 * n) >>> 5), f (k + 1 + 2 * n) &&& 0x1F,
          get_fig_0_13_userapp (f (k + 2 * n) * 8 + (f (k + 1 + 2 * n) >>> 5))⟩ := by
  intro cnt
  induction cnt with
  | zero => intro k; exact ⟨rfl, fun n hn => absurd hn (by omega)⟩
  | succ cnt ih =>
    intro k
    obtain ⟨h1, h2⟩ := ih (k + 2)
    refine ⟨by simp [userAppLoop, h1], ?_⟩
    intro n hn
    have hlen : (f (k + 1) &&& 0x1F) % 0x100 = f (k + 1) &&& 0x1F := by
      rw [and_1F]; omega
    cases n with
    | zero =>
      simp only [userAppLoop, List.getElem?_cons_zero, Nat.mul_zero, Nat.add_zero,
        user_app_type_eq _ _ (hf k) (hf (k + 1)), hlen]
    | succ n =>
      simp only [userAppLoop, List.getElem?_cons_succ]
      rw [h2 n (by omega), show k + 2 + 2 * n = k + 2 * (n + 1) by omega,
        show k + 2 + 1 + 2 * n = k + 1 + 2 * (n + 1) by omega]

/-- The name table outside the listed types. -/
theorem userapp_reserved (t : Nat) (h1 : ¬ (1 ≤ t ∧ t ≤ 8)) (h2 : t ≠ 0x44a) :
    get_fig_0_13_userapp t = "Reserved for future definition" ∨
    get_fig_0_13_userapp t = "Reserved for future applications" := by
  unfold get_fig_0_13_userapp
  split <;> first | (left; rfl) | (right; rfl) | omega

/-! ## FIG Decoder: FIG 0/13, the labels and the FIDC header (C24 - C26) -/

/-- C24: for every FIG 0/13 payload with Program/Data = 0 the decoder reports
SId = f[1]*256 + f[2], SCIdS = the high nibble of f[3], No = the low nibble of
f[3], and exactly No user applications, the n-th with the type
f[4+2n]*8 + (f[5+2n] >> 5), the length f[5+2n] & 0x1F and the name the table
`get_fig_0_13_userapp` gives for the type: "MOT Slideshow" for 0x002,
"Journaline" for 0x44a, and one of the two names that start with Reserved for
every type outside 0x001..0x008 and 0x44a. -/
theorem fig0_13_programme (f : Buf) (hf : IsBytes f) (hpd : (f 0 &&& 0x20) >>> 5 = 0) :
    (fig0_13Decode f ((f 0 &&& 0x20) >>> 5)).SId = f 1 * 256 + f 2 ∧
    (fig0_13Decode f ((f 0 &&& 0x20) >>> 5)).SCIdS = f 3 / 16 ∧
    (fig0_13Decode f ((f 0 &&& 0x20) >>> 5)).No = f 3 % 16 ∧
    (fig0_13Decode f ((f 0 &&& 0x20) >>> 5)).apps.length
      = (fig0_13Decode f ((f 0 &&& 0x20) >>> 5)).No ∧
    (∀ n, n < (fig0_13Decode f ((f 0 &&& 0x20) >>> 5)).No →
      (fig0_13Decode f ((f 0 &&& 0x20) >>> 5)).apps[n]? = some
        ⟨f (4 + 2 * n) * 8 + (f (5 + 2 * n) >>> 5), f (5 + 2 * n) &&& 0x1F,
          get_fig_0_13_userapp (f (4 + 2 * n) * 8 + (f (5 + 2 * n) >>> 5))⟩ ∧
      f (4 + 2 * n) * 8 + (f (5 + 2 * n) >>> 5) < 2048 ∧ f (5 + 2 * n) &&& 0x1F < 32) ∧
    get_fig_0_13_userapp 0x002 = "MOT Slideshow" ∧
    get_fig_0_13_userapp 0x44a = "Journaline" ∧
    (∀ t, ¬ (1 ≤ t ∧ t ≤ 8) → t ≠ 0x44a →
      get_fig_0_13_userapp t = "Reserved for future definition" ∨
      get_fig_0_13_userapp t = "Reserved for future applications") := by
  have h1 := hf 1
  have h2 := hf 2
  have h3 := hf 3
  have hNo : (f 3 &&& 0x0F) % 0x100 = f 3 % 16 := by rw [and_0F]; omega
  have hS : ((f 1 <<< 8) ||| f 2) % 0x100000000 = f 1 * 256 + f 2 := by
    rw [or_shl8 _ _ h2]; omega
  have hC : (f 3 >>> 4) % 0x100 = f 3 / 16 := by rw [shr_4]; omega
  obtain ⟨hl, hk⟩ := userAppLoop_spec f hf (f 3 % 16) 4
  rw [hpd]
  simp only [fig0_13Decode, if_true, hNo, hS, hC]
  refine ⟨trivial, trivial, trivial, hl, ?_, by decide, by decide, userapp_reserved⟩
  intro n hn
  refine ⟨hk n hn, ?_, ?_⟩
  · have := hf (4 + 2 * n)
    have := hf (5 + 2 * n)
    rw [shr_5]; omega
  · rw [and_1F]; omega

theorem fig0_13_programme_witness :
    IsBytes fig0_13Payload ∧ (fig0_13Payload 0 &&& 0x20) >>> 5 = 0 ∧
    (fig0_13Decode fig0_13Payload ((fig0_13Payload 0 &&& 0x20) >>> 5)).SId = 0x1234 ∧
    (fig0_13Decode fig0_13Payload ((fig0_13Payload 0 &&& 0x20) >>> 5)).SCIdS = 2 ∧
    (fig0_13Decode fig0_13Payload ((fig0_13Payload 0 &&& 0x20) >>> 5)).apps
      = [⟨0x002, 5, "MOT Slideshow"⟩] ∧
    (fig0_13Decode fig0_13Payload ((fig0_13Payload 0 &&& 0x20) >>> 5)).apps.length
      = (fig0_13Decode fig0_13Payload ((fig0_13Payload 0 &&& 0x20) >>> 5)).No :=
  ⟨isBytes_bufOf _ (by decide), by decide, by decide, by decide, by decide,
    (fig0_13_programme fig0_13Payload (isBytes_bufOf _ (by decide)) (by decide)).2.2.2.1⟩
/-- C25: for every type 1 FIG with payload length L >= 18, whatever its
extension, the decoded label is the 16 payload bytes at indices L-18 .. L-3 and
the decoded mask is the big-endian 16-bit value of the payload bytes L-2 and
L-1; for extension 6 the X-PAD application type is the low 5 bits of the byte
that follows the service identifier (byte 4 after a 16-bit identifier, byte 6
after a 32-bit one) and is named DLS for 2, MOT for 12 and "?" for every other
value. -/
theorem fig1_label_flag (f : Buf) (L : Nat) (hf : IsBytes f) (hL : 18 ≤ L) :
    fig1Label f L = some ((List.range 16).map fun j => f (L - 18 + j)) ∧
    (∀ l, fig1Label f L = some l →
      l.length = 16 ∧ l[0]? = some (f (L - 18)) ∧ l[15]? = some (f (L - 3))) ∧
    fig1Flag f L = some (read_u16_be f (L - 2)) ∧
    read_u16_be f (L - 2) = f (L - 2) * 256 + f (L - 1) ∧
    ((f 1 &&& 0x80) >>> 7 = 0 →
      (fig1_6Decode f).sid = f 2 * 256 + f 3 ∧ (fig1_6Decode f).xpadapp = f 4 % 32) ∧
    ((f 1 &&& 0x80) >>> 7 ≠ 0 →
      (fig1_6Decode f).sid = f 2 * 2 ^ 24 + f 3 * 2 ^ 16 + f 4 * 2 ^ 8 + f 5 ∧
      (fig1_6Decode f).xpadapp = f 6 % 32) ∧
    (fig1_6Decode f).xpadappdesc = xpadappdesc (fig1_6Decode f).xpadapp ∧
    xpadappdesc 2 = "DLS" ∧ xpadappdesc 12 = "MOT" ∧
    (∀ x, x ≠ 2 → x ≠ 12 → xpadappdesc x = "?") := by
  have hlab : fig1Label f L = some ((List.range 16).map fun j => f (L - 18 + j)) := by
    unfold fig1Label window
    rw [if_pos hL]
  have e1 : L - 2 + 1 = L - 1 := by omega
  have hflag : read_u16_be f (L - 2) = f (L - 2) * 256 + f (L - 1) := by
    unfold read_u16_be
    rw [e1]
  refine ⟨hlab, ?_, ?_, hflag, ?_, ?_, ?_, by decide, by decide, ?_⟩
  · intro l hl
    rw [hlab] at hl
    have := Option.some.inj hl
    subst this
    refine ⟨by simp, by simp, ?_⟩
    simp [List.getElem?_map, List.getElem?_range, show L - 18 + 15 = L - 3 by omega]
  · have h2 := hf (L - 2)
    have h1 := hf (L - 1)
    unfold fig1Flag
    rw [if_pos (by omega), hflag]
    congr 1
    omega
  · intro hpd
    have h2 := hf 2
    have h3 := hf 3
    simp only [fig1_6Decode, hpd, if_true, and_1F]
    exact ⟨by omega, trivial⟩
  · intro hpd
    have h2 := hf 2
    have h3 := hf 3
    have h4 := hf 4
    have h5 := hf 5
    simp only [fig1_6Decode, if_neg hpd, and_1F]
    exact ⟨by omega, trivial⟩
  · unfold fig1_6Decode
    simp only
    split <;> rfl
  · intro x n2 n12
    simp [xpadappdesc, n2, n12]

theorem fig1_label_flag_witness :
    IsBytes xpadLabelPayload ∧ 18 ≤ 23 ∧
    fig1Label xpadLabelPayload 23 = some [0x45, 0x54, 0x49, 0x53, 0x4E, 0x4F, 0x4F, 0x50,
      0x20, 0x52, 0x41, 0x44, 0x49, 0x4F, 0x20, 0x31] ∧
    fig1Flag xpadLabelPayload 23 = some 0xFF00 ∧
    fig1_6Decode xpadLabelPayload = ⟨0, 0, 0x1234, 2, "DLS"⟩ ∧
    fig1Flag xpadLabelPayload 23 = some (read_u16_be xpadLabelPayload (23 - 2)) :=
  ⟨isBytes_bufOf _ (by decide), by decide, by decide, by decide, by decide,
    (fig1_label_flag xpadLabelPayload 23 (isBytes_bufOf _ (by decide)) (by decide)).2.2.1⟩

/-- C26 fails on the code at the type 5 FIG whose first payload byte is 0x08
(D1 = 0, D2 = 0, TCId = 1 in bits 5..3, extension 0): `tcid` is computed as
`(f[0] & 0x38) >> 5`, which keeps bit 5 alone, so it is 0 here and never above
1, and the decoded fields give 0, not 0x08, when put together again. -/
theorem fig5_tcid_shift :
    fig5Header (bufOf [0x08]) = ⟨0, 0, 0, 0⟩ ∧
    (bufOf [0x08] 0 >>> 3) &&& 0x07 = 1 ∧
    (fig5Header (bufOf [0x08])).tcid ≠ (bufOf [0x08] 0 >>> 3) &&& 0x07 ∧
    bufOf [0x08] 0 ≠ (fig5Header (bufOf [0x08])).d1 * 128 + (fig5Header (bufOf [0x08])).d2 * 64
      + (fig5Header (bufOf [0x08])).tcid * 8 + (fig5Header (bufOf [0x08])).ext ∧
    (∀ b, b < 256 → (fig5Header (bufOf [b])).tcid ≤ 1) := by
  refine ⟨by decide, by decide, by decide, by decide, ?_⟩
  have h : ∀ b, b < 256 → (b &&& 0x38) >>> 5 ≤ 1 := by decide
  intro b hb
  exact h b hb
/-! ## Lemmas on the walk over four FIBs -/

/-- With a current FIB index outside `m_figs` the calls of a scan go through
only when none of them records an entry. -/
theorem figsOfCalls_invalid (p : Buf) :
    ∀ (calls : List FigCall) (figs : FIGalyser),
      (figs.m_figs.length : Int) ≤ figs.m_fib →
      figsOfCalls p calls figs
        = if calls.filterMap (figEntry p) = [] then some figs else none := by
  intro calls
  induction calls with
  | nil => intro figs _; simp [figsOfCalls]
  | cons c cs ih =>
    intro figs h
    unfold figsOfCalls
    rw [decodeFIG_figs_entry]
    cases he : figEntry p c with
    | none =>
      simp only [List.filterMap_cons, he]
      exact ih figs h
    | some e =>
      simp only [List.filterMap_cons, he]
      rw [push_back_invalid figs e.type e.ext e.len (Or.inr h)]
      simp

theorem ficl_mode3 (p : Buf) (hf : ficf p = 1) (hm : mid p = 3) : ficl p * 4 / 32 = 4 := by
  unfold ficl
  simp [hf, hm]

/-- An iteration of the loop over the FIBs whose index is outside `m_figs`:
it goes through only when its FIB records no entry, and leaves that index as
the current one. -/
theorem ficFigsLoop_last_invalid (p : Buf) (i fib : Nat) (figs : FIGalyser)
    (hi : figs.m_figs.length ≤ i) :
    ficFigsLoop p 1 i fib figs
      = if fibEntries p fib = [] then some (figs.set_fib i) else none := by
  obtain ⟨scan, hscan⟩ := figScan_some p fib
  have hinv := figsOfCalls_invalid p scan.calls (figs.set_fib i)
    (by simp only [FIGalyser.set_fib]; exact_mod_cast hi)
  by_cases hE : scan.calls.filterMap (figEntry p) = []
  · simp only [ficFigsLoop, hscan, hinv, fibEntries, hE, if_true]
  · simp only [ficFigsLoop, hscan, hinv, fibEntries, hE, if_false]

/-- The accumulator of a frame whose FIC has four FIBs: the fourth iteration
calls `set_fib(3)`, and 3 is not an index of the three sequences. -/
theorem ficFigs_four (p : Buf) (m0 : Int) (h : ficl p * 4 / 32 = 4) :
    ficFigs p m0 =
      if fibEntries p (12 + 4 * nst p + 32 + 32 + 32) = [] then
        some ⟨3, [fibEntries p (12 + 4 * nst p), fibEntries p (12 + 4 * nst p + 32),
          fibEntries p (12 + 4 * nst p + 32 + 32)]⟩
      else none := by
  unfold ficFigs
  rw [h, ficFigsLoop_step p 3 0 _ _ (by simp [construct_figs]),
    ficFigsLoop_step p 2 1 _ _ (by simp [construct_figs]),
    ficFigsLoop_step p 1 2 _ _ (by simp [construct_figs]),
    ficFigsLoop_last_invalid p _ _ _ (by simp [construct_figs])]
  simp [construct_figs, FIGalyser.set_fib]
/-! ## Carousel accumulator in mode identity 3 and the stream buffer (C27, C29) -/

/-- C27 fails on the code at the frame with FIC present and mode identity 3
(`p[5]` = 0x80, `p[6]` = 0x18) whose fourth FIB holds one type 0 FIG: `ficl`
is 32, the loop over the FIBs runs four times and its fourth iteration calls
`set_fib(3)` on the accumulator, whose `m_figs` has the three entries 0, 1, 2;
the `push_back` of that FIG then indexes `m_figs[3]`.  For every frame with FIC
in mode identity 3 the walk either indexes outside `m_figs` or ends with 3 as
the current FIB index. -/
theorem fib_index_mode3 :
    ficf mode3Frame = 1 ∧ mid mode3Frame = 3 ∧ ficl mode3Frame * 4 / 32 = 4 ∧
    fibEntries mode3Frame (12 + 4 * nst mode3Frame + 32 + 32 + 32) = [⟨0, 1, 2⟩] ∧
    (∀ m0, (FIGalyser.construct m0).m_figs.length = 3 ∧ ficFigs mode3Frame m0 = none) ∧
    (∀ p m0, ficf p = 1 → mid p = 3 →
      ficFigs p m0 = none ∨
      ∃ s, ficFigs p m0 = some s ∧ s.m_fib = 3 ∧ s.m_figs.length = 3 ∧
        ∀ type ext len, s.push_back type ext len = none) := by
  have h4 : ficl mode3Frame * 4 / 32 = 4 := by decide
  have he : fibEntries mode3Frame (12 + 4 * nst mode3Frame + 32 + 32 + 32) = [⟨0, 1, 2⟩] := by
    decide
  refine ⟨by decide, by decide, h4, he, ?_, ?_⟩
  · intro m0
    refine ⟨by simp [construct_figs], ?_⟩
    rw [ficFigs_four mode3Frame m0 h4, he]
    simp
  · intro p m0 hf hm
    rw [ficFigs_four p m0 (ficl_mode3 p hf hm)]
    by_cases hE : fibEntries p (12 + 4 * nst p + 32 + 32 + 32) = []
    · right
      rw [if_pos hE]
      refine ⟨_, rfl, rfl, rfl, ?_⟩
      intro type ext len
      exact push_back_invalid _ type ext len (Or.inr (by simp))
    · left
      rw [if_neg hE]

/-- C29 fails on the code at the frame without FIC and with one stream whose STL
field holds 1023 words (`p[10]` = 0x83, `p[11]` = 0xFF): the slice copied into
`streamdata` starts at offset 16 and has 1023*8 = 8184 bytes, more than the
5472 bytes of `streamdata[684*8]`, and its source range ends at offset 8200,
beyond the 6144 bytes of the frame buffer.  No statement bounds `stl[i]`,
which can be any value up to 1023. -/
theorem stream_slice_overflow :
    nst longStreamFrame = 1 ∧ stlField longStreamFrame 0 = 1023 ∧
    (∀ selected sad0 stl0,
      (frameSlices longStreamFrame selected sad0 stl0).map (fun s => (s.index, s.src, s.len))
        = [(0, 16, 8184)]) ∧
    streamdataSize = 5472 ∧ ¬ 8184 ≤ streamdataSize ∧ ¬ 16 + 8184 ≤ ETINIPACKETSIZE := by
  have hn : nst longStreamFrame = 1 := by decide
  have hf : ficf longStreamFrame = 0 := by decide
  have hs : stlField longStreamFrame 0 = 1023 := by decide
  refine ⟨hn, hs, ?_, by decide, by decide, by decide⟩
  intro selected sad0 stl0
  have h := stcParse_stl longStreamFrame selected sad0 stl0 0 (by rw [hn]; omega)
  unfold frameSlices
  rw [hn]
  simp [demuxLoop, h, hs, hn, hf]
/-! ## Lemmas on the method `analyse()` -/

theorem wrapInt_of_range (x : Int) (h1 : -2147483648 ≤ x) (h2 : x ≤ 2147483647) :
    wrapInt x = x := by
  unfold wrapInt
  omega

theorem sumFigLen_cons (f : FIG) (fs : List FIG) :
    sumFigLen (f :: fs) = f.len + sumFigLen fs := by
  simp [sumFigLen]

theorem sumFigLen_nonneg (figs : List FIG) (h : ∀ f ∈ figs, 0 ≤ f.len) :
    0 ≤ sumFigLen figs := by
  induction figs with
  | nil => simp [sumFigLen]
  | cons f fs ih =>
    rw [sumFigLen_cons]
    have h1 := h f (List.mem_cons_self _ _)
    have h2 := ih (fun g hg => h g (List.mem_cons_of_mem _ hg))
    omega

/-- The entries are printed in the order of the sequence. -/
theorem entryLoop_texts :
    ∀ (figs : List FIG) (st : EntryScan),
      (entryLoop figs st).texts = st.texts ++ figs.map figText := by
  intro figs
  induction figs with
  | nil => intro st; simp [entryLoop]
  | cons f fs ih =>
    intro st
    rw [entryLoop, ih]
    simp

/-- While the lengths are not negative and their sum stays within the range of
`int`, `fic_size` holds the sum. -/
theorem entryLoop_fic_size :
    ∀ (figs : List FIG) (st : EntryScan),
      (∀ f ∈ figs, 0 ≤ f.len) → 0 ≤ st.fic_size →
      st.fic_size + sumFigLen figs ≤ 2147483647 →
      (entryLoop figs st).fic_size = st.fic_size + sumFigLen figs := by
  intro figs
  induction figs with
  | nil => intro st _ _ _; simp [entryLoop, sumFigLen]
  | cons f fs ih =>
    intro st hnn h0 hsum
    have hf := hnn f (List.mem_cons_self _ _)
    have hfs : ∀ g ∈ fs, 0 ≤ g.len := fun g hg => hnn g (List.mem_cons_of_mem _ hg)
    have hs := sumFigLen_nonneg fs hfs
    rw [sumFigLen_cons] at hsum ⊢
    have hw : wrapInt (st.fic_size + f.len) = st.fic_size + f.len :=
      wrapInt_of_range _ (by omega) (by omega)
    rw [entryLoop, ih _ hfs (by simp only [hw]; omega) (by simp only [hw]; omega)]
    simp only [hw]
    omega

/-- Every length the scan of a FIB hands to the decoder is at most 31. -/
theorem figScanLoop_figlen (p : Buf) :
    ∀ (fuel fig figcount : Nat) (r : FigScan),
      figScanLoop p fuel fig figcount = some r → ∀ c ∈ r.calls, c.figlen ≤ 31 := by
  intro fuel
  induction fuel with
  | zero => intro fig figcount r h; simp [figScanLoop] at h
  | succ fuel ih =>
    intro fig figcount r h
    have hl : p fig &&& 0x1F ≤ 31 := Nat.and_le_right
    rw [figScanLoop_succ] at h
    by_cases ht : (p fig &&& 0xE0) >>> 5 ≠ 7
    · rw [if_pos ht] at h
      by_cases hge : figcount + ((p fig &&& 0x1F) + 1) ≥ 29
      · rw [if_pos hge] at h
        cases h
        intro c hc
        simp only [List.mem_singleton] at hc
        subst hc
        exact hl
      · rw [if_neg hge] at h
        cases h1 : figScanLoop p fuel (fig + ((p fig &&& 0x1F) + 1))
            (figcount + ((p fig &&& 0x1F) + 1)) with
        | none => rw [h1] at h; simp at h
        | some r1 =>
          rw [h1] at h
          simp only [Option.map_some', Option.some.injEq] at h
          subst h
          intro c hc
          simp only [List.mem_cons] at hc
          rcases hc with rfl | hc
          · exact hl
          · exact ih _ _ _ h1 c hc
    · rw [if_neg ht] at h
      cases h
      intro c hc
      simp at hc

theorem sumFigLen_le (figs : List FIG) (h : ∀ f ∈ figs, f.len ≤ 31) :
    sumFigLen figs ≤ 31 * figs.length := by
  induction figs with
  | nil => simp [sumFigLen]
  | cons f fs ih =>
    rw [sumFigLen_cons, List.length_cons]
    have h1 := h f (List.mem_cons_self _ _)
    have h2 := ih (fun g hg => h g (List.mem_cons_of_mem _ hg))
    push_cast
    omega

/-- The entries the walk records for a FIB have lengths 0 .. 31 and there are
at most 29 of them, so their sum is far inside the range of `int`. -/
theorem fibEntries_len (p : Buf) (fib : Nat) :
    (∀ f ∈ fibEntries p fib, 0 ≤ f.len ∧ f.len ≤ 31) ∧
    (fibEntries p fib).length ≤ 29 ∧
    sumFigLen (fibEntries p fib) ≤ 899 := by
  obtain ⟨scan, hscan⟩ := figScan_some p fib
  have hlen := figScanLoop_figlen p 32 fib 0 scan hscan
  have hcnt := (figScanLoop_bounds p 32 fib 0 scan hscan (by omega)).2.2.1
  have hmem : ∀ f ∈ fibEntries p fib, 0 ≤ f.len ∧ f.len ≤ 31 := by
    intro f hf
    simp only [fibEntries, hscan, List.mem_filterMap] at hf
    obtain ⟨c, hc, he⟩ := hf
    have := hlen c hc
    unfold figEntry at he
    split at he
    · cases he
      exact ⟨Int.ofNat_nonneg _, by show (c.figlen : Int) ≤ 31; exact_mod_cast this⟩
    · split at he
      · cases he
        exact ⟨Int.ofNat_nonneg _, by show (c.figlen : Int) ≤ 31; exact_mod_cast this⟩
      · cases he
  have hl : (fibEntries p fib).length ≤ 29 := by
    simp only [fibEntries, hscan]
    exact le_trans (List.length_filterMap_le _ _) (by omega)
  refine ⟨hmem, hl, ?_⟩
  have := sumFigLen_le (fibEntries p fib) (fun f hf => (hmem f hf).2)
  omega

theorem barLoop_spec (fic_size : Int) :
    ∀ (n i : Nat), (barLoop fic_size n i).length = n ∧
      ∀ j, j < n → (barLoop fic_size n i)[j]?
        = some (if 2 * ((i + j : Nat) : Int) < fic_size then '#' else '-') := by
  intro n
  induction n with
  | zero => intro i; exact ⟨rfl, fun j hj => absurd hj (by omega)⟩
  | succ n ih =>
    intro i
    obtain ⟨h1, h2⟩ := ih (i + 1)
    refine ⟨by simp [barLoop, h1], ?_⟩
    intro j hj
    cases j with
    | zero => simp [barLoop]
    | succ j =>
      simp only [barLoop, List.getElem?_cons_succ]
      rw [h2 j (by omega), show i + 1 + j = i + (j + 1) by omega]

/-- The cells of the bar: the first min(15, ceil(fic_size/2)) hold `#`, the
others `-`. -/
theorem barLoop_cells (fic_size : Int) :
    barLoop fic_size 15 0
      = List.replicate (min 15 ((fic_size + 1) / 2)).toNat '#'
        ++ List.replicate (15 - (min 15 ((fic_size + 1) / 2)).toNat) '-' := by
  obtain ⟨h1, h2⟩ := barLoop_spec fic_size 15 0
  apply List.ext_getElem?
  intro j
  by_cases hj : j < 15
  · rw [h2 j hj, Nat.zero_add]
    by_cases hk : j < (min 15 ((fic_size + 1) / 2)).toNat
    · rw [List.getElem?_append_left (by rw [List.length_replicate]; exact hk),
        List.getElem?_replicate, if_pos hk, if_pos (by omega)]
    · rw [List.getElem?_append_right (by rw [List.length_replicate]; omega),
        List.getElem?_replicate, if_neg (by omega),
        if_pos (by simp only [List.length_replicate]; omega)]
  · rw [List.getElem?_eq_none (by omega), List.getElem?_eq_none (by simp; omega)]

theorem barLoop_full (fic_size : Int) :
    barLoop fic_size 15 0 = List.replicate 15 '#' ↔ 29 ≤ fic_size := by
  constructor
  · intro h
    have h14 := (barLoop_spec fic_size 15 0).2 14 (by omega)
    rw [h] at h14
    by_cases hc : 2 * ((0 + 14 : Nat) : Int) < fic_size
    · push_cast at hc; omega
    · rw [if_neg hc] at h14
      simp [List.getElem?_replicate] at h14
  · intro h
    rw [barLoop_cells, show (min 15 ((fic_size + 1) / 2)).toNat = 15 by omega]
    simp

/-! ## Carousel Accumulator: the summary (C30) -/

/-- C30 (as stated) fails on the code.  With two entries of length 2147483647 in
FIB 0 the sum S of the recorded lengths is 4294967294, so the claim has all 15
cells filled; `int fic_size` holds -2 after the second `fic_size += f.len`, no
cell satisfies `2*i < fic_size`, and the bar is drawn empty. -/
theorem analyse_bar_counterexample :
    0 < overflowFigs.m_figs.length ∧
    sumFigLen (overflowFigs.m_figs.getD 0 []) = 4294967294 ∧
    29 ≤ sumFigLen (overflowFigs.m_figs.getD 0 []) ∧
    (min 15 ((sumFigLen (overflowFigs.m_figs.getD 0 []) + 1) / 2)).toNat = 15 ∧
    (entryLoop (overflowFigs.m_figs.getD 0 []) ⟨[], 7, 0⟩).fic_size = -2 ∧
    (analyseFib (overflowFigs.m_figs.getD 0 [])).bar = List.replicate 15 '-' ∧
    (analyseFib (overflowFigs.m_figs.getD 0 [])).bar ≠ List.replicate 15 '#' := by
  decide

/-- C30 (amended): for every accumulator state and every FIB of it whose recorded
`len` fields are not negative and have a sum S of at most 2147483647, the
largest `int`, `analyse()` draws a bar of exactly 15 cells of which the first
min(15, ceil(S/2)) hold `#` and the others `-` (the ceiling of S/2 is written
(S + 1) / 2); the bar is completely filled if and only if S >= 29; and the
texts of the entries are printed in the order of the sequence, one per entry.
The entries the walk over a frame records for a FIB meet the two conditions:
their lengths are 0 .. 31 and their sum is at most 899. -/
theorem analyse_bar (s : FIGalyser) (fib : Nat) (h : fib < s.m_figs.length)
    (hnn : ∀ f ∈ s.m_figs[fib], 0 ≤ f.len) (hsum : sumFigLen s.m_figs[fib] ≤ 2147483647) :
    (analyseFib s.m_figs[fib]).bar.length = 15 ∧
    (analyseFib s.m_figs[fib]).bar
      = List.replicate (min 15 ((sumFigLen s.m_figs[fib] + 1) / 2)).toNat '#'
        ++ List.replicate (15 - (min 15 ((sumFigLen s.m_figs[fib] + 1) / 2)).toNat) '-' ∧
    (min 15 ((sumFigLen s.m_figs[fib] + 1) / 2)).toNat ≤ 15 ∧
    ((analyseFib s.m_figs[fib]).bar = List.replicate 15 '#' ↔ 29 ≤ sumFigLen s.m_figs[fib]) ∧
    (analyseFib s.m_figs[fib]).texts = s.m_figs[fib].map figText ∧
    (∀ j (hj : j < s.m_figs[fib].length),
      (analyseFib s.m_figs[fib]).texts[j]? = some (figText s.m_figs[fib][j])) ∧
    (∀ (p : Buf) (b : Nat),
      (∀ f ∈ fibEntries p b, 0 ≤ f.len ∧ f.len ≤ 31) ∧ sumFigLen (fibEntries p b) ≤ 899) := by
  revert hnn hsum
  generalize s.m_figs[fib] = figs
  intro hnn hsum
  have hb : (analyseFib figs).bar = barLoop (sumFigLen figs) 15 0 := by
    have := entryLoop_fic_size figs ⟨[], 7, 0⟩ hnn (le_refl _) (by simpa using hsum)
    simp only [analyseFib, this]
    simp
  have ht : (analyseFib figs).texts = figs.map figText := by
    simp [analyseFib, entryLoop_texts]
  refine ⟨?_, ?_, by omega, ?_, ht, ?_, ?_⟩
  · rw [hb]; exact (barLoop_spec _ 15 0).1
  · rw [hb]; exact barLoop_cells _
  · rw [hb]; exact barLoop_full _
  · intro j hj
    rw [ht, List.getElem?_map, List.getElem?_eq_getElem hj]
    rfl
  · intro p b
    exact ⟨(fibEntries_len p b).1, (fibEntries_len p b).2.2⟩

/-- C30 (amended) at FIB 0 of the sample accumulator, whose lengths 20 and 9 fill
the bar. -/
theorem analyse_bar_witness :
    0 < sampleFigs.m_figs.length ∧
    (∀ f ∈ sampleFigs.m_figs.get ⟨0, by decide⟩, 0 ≤ f.len) ∧
    sumFigLen (sampleFigs.m_figs.get ⟨0, by decide⟩) ≤ 2147483647 ∧
    sumFigLen (sampleFigs.m_figs.getD 0 []) = 29 ∧
    (analyseFib (sampleFigs.m_figs.getD 0 [])).bar = List.replicate 15 '#' ∧
    (analyseFib (sampleFigs.m_figs.getD 1 [])).bar = "###------------".toList ∧
    (analyseFib (sampleFigs.m_figs.getD 0 [])).texts = ["0/01 (20) ", "1/00 ( 9) "] ∧
    (analyseFib (sampleFigs.m_figs.get ⟨0, by decide⟩)).bar.length = 15 :=
  ⟨by decide, by decide, by decide, by decide, by decide, by decide, by decide,
    (analyse_bar sampleFigs 0 (by decide) (by decide) (by decide)).1⟩

/-! ## Lemmas on the EOF check and the checks in the frame loop -/

set_option maxRecDepth 1000000

/-! ## Evaluations on concrete inputs -/

/-- The modelled byte update gives the check value 0x29B1 of CRC-CCITT with
seed 0xFFFF on the ASCII digits 1 to 9. -/
theorem crc16_check_value :
    crc16 update_crc_ccitt 0xFFFF [0x31, 0x32, 0x33, 0x34, 0x35, 0x36, 0x37, 0x38, 0x39]
      = 0x29B1 := by
  decide

/-- The header CRC of the sample frame is right. -/
theorem sampleFrame_header_ok : headerCrcDesc update_crc_ccitt sampleFrame = "CRC OK" := by
  decide

/-- The walk over the FIBs of the sample frame: three FIBs at 12, 44 and 76, one
FIG in the first, each FIB ended by a type-7 byte and with a right CRC. -/
theorem sampleFrame_ficWalk :
    ficWalk update_crc_ccitt sampleFrame = some
      [⟨0, 12, ⟨[⟨13, 2, 0⟩], [12, 15], 15, 3⟩, "FIB CRC OK"⟩,
       ⟨1, 44, ⟨[], [44], 44, 0⟩, "FIB CRC OK"⟩,
       ⟨2, 76, ⟨[], [76], 76, 0⟩, "FIB CRC OK"⟩] := by
  decide

/-- The header CRC of the sample frame with its frame count byte changed is
reported as a mismatch, with the computed value printed in hexadecimal. -/
theorem sampleFrame_changed_header :
    headerCrcDesc update_crc_ccitt (setByte sampleFrame 4 2) = "CRC Mismatch: 4bb9" := by
  decide

/-- With the ignore-errors mode off a frame whose byte 0 is not 0xFF ends the
loop before its FSYNC bytes are looked at. -/
theorem abort_example :
    etiSync false [frameA, bufOf [0x00, 0xf8, 0xc5, 0x49], frameA]
      = ⟨[("OK", fsyncA)], fsyncA, true⟩ := by
  decide

/-- With the ignore-errors mode on the same frames are all checked. -/
theorem ignore_example :
    (etiSync true [frameA, bufOf [0x00, 0xf8, 0xc5, 0x49], frameBad]).reports
      = [("OK", fsyncA), ("OK", fsyncB), ("Wrong FSYNC", syncUnknown)] := by
  decide

/-- The stream characterisation of the frame with one stream: Equal Error
Protection with the profile of option 0 and level 0, three words, 8 kbit/s. -/
theorem oneStreamFrame_reports :
    (stcParse oneStreamFrame (fun _ => false) (fun _ => 0) (fun _ => 0)).reports
      = [⟨0, 1, 0, "0x20 - Equal Error Protection. 1-A, 1/4, 16 CUs", "3 => 8 kbit/s",
          none⟩] := by
  decide

/-- The one slice of the frame with one stream: the 24 bytes from offset 16 on. -/
theorem oneStreamFrame_slices :
    frameSlices oneStreamFrame (fun _ => false) (fun _ => 0) (fun _ => 0)
      = [⟨0, 16, 24, List.range 24, false⟩] := by
  decide

/-- A stream with option 2 is reported with the label for an unknown option,
the option written as the character with code 2. -/
theorem unknown_option_label :
    tplDesc 0x28 = "0x28 - Equal Error Protection. Unknown option \x02" := by
  decide

/-- The accumulator of the sample frame: one entry for FIB 0, none for the
other two FIBs. -/
theorem sampleFrame_figs :
    ficFigs sampleFrame 0 = some ⟨2, [[⟨0, 1, 2⟩], [], []]⟩ := by
  decide

/-- The sub-records of a FIG 0/1 payload with a short form before a long form:
both are reported. -/
theorem short_then_long_subchs :
    fig0_1Subchs (bufOf (fig0_1Payload 0x01 [Subch.short 1 0 0 5, Subch.long 2 54 0 2 84])) 8
      = some [Subch.short 1 0 0 5, Subch.long 2 54 0 2 84] := by
  decide

/-- The service entry of the FIG 0/2 payload with a 16-bit identifier. -/
theorem fig0_2Payload_services :
    fig0_2Services fig0_2Payload 6
      = some [⟨⟨0x1234, 1, 0x234, none, 3⟩, 0, 0, 1, [⟨0, 0, 0, 0, 1, some
          "Stream audio mode, Secondary service, MPEG Foreground sound (0), SubChannel ID=01, CA=0"⟩]⟩] := by
  decide

/-- The service entry of the FIG 0/2 payload with the Program/Data flag set. -/
theorem dataServicePayload_services :
    fig0_2Services dataServicePayload 8
      = some [⟨⟨0x3456, 1, 0x3456, some 0xE0, 5⟩, 0, 0, 1, [⟨0, 0, 0, 0, 1, some
          "Stream audio mode, Secondary service, MPEG Foreground sound (0), SubChannel ID=01, CA=0"⟩]⟩] := by
  decide

/-- The report of the FIG 0/13 payload. -/
theorem fig0_13Payload_report :
    fig0_13Decode fig0_13Payload 0 = ⟨0x1234, 2, 1, [⟨0x002, 5, "MOT Slideshow"⟩]⟩ := by
  decide

/-- The header fields decoded from the byte 0x38 of a type 5 FIG, whose bits
5..3 hold 7. -/
theorem fig5Header_0x38 : fig5Header (bufOf [0x38]) = ⟨0, 0, 1, 0⟩ := by
  decide

/-- What `analyse()` prints for the sample accumulator. -/
theorem sampleFigs_analyse :
    sampleFigs.analyse
      = "FIC [0 0/01 (20) 1/00 ( 9)                                   |###############| ]   "
        ++ "[1 0/02 ( 5)                                             |###------------| ]   "
        ++ "[2                                                       |---------------| ]   \n" := by
  decide

/-- The walk over the four FIBs of a frame in mode identity 3 whose FIBs are
all empty ends with 3 as the current FIB index. -/
theorem mode3_empty_figs :
    ficFigs (setByte mode3Frame 108 0xFF) 0 = some ⟨3, [[], [], []]⟩ := by
  decide

/-- The two checks of the frame with one stream: both right. -/
theorem crcFrame_checks :
    headerCrcDesc update_crc_ccitt crcFrame = "CRC OK" ∧
    eofCrcDesc update_crc_ccitt crcFrame (fun _ => false) (fun _ => 0) (fun _ => 0)
      = "CRC OK" ∧
    span crcFrame 16 39 = List.range 24 ∧ read_u16_be crcFrame 40 = 0x5461 := by
  decide

/-- A run of three frames: the first with a wrong header CRC, the second with
a wrong frame CRC, the third with both right; all three are reported. -/
theorem crc_run_example :
    etiChecks update_crc_ccitt false (fun _ => false) (fun _ => 0) (fun _ => 0)
        [setByte crcFrame 4 3, setByte crcFrame 20 0xEE, crcFrame]
      = ⟨[⟨"CRC Mismatch: c6e3", "CRC OK"⟩, ⟨"CRC OK", "CRC Mismatch: 838e"⟩,
          ⟨"CRC OK", "CRC OK"⟩], false⟩ := by
  decide

end Etisnoop
